import Mathlib

/-!
# The periodic cell list of `mdtraj/geometry/include/NeighborList.hpp`

A shallow embedding of the class `MDTraj::NeighborList` and of the two query
functions `getNeighbors` (voxel grid) and `getNeighborsNaive` (all pairs).

Conventions of the embedding.

* A `float` is a rational number.  The grid sizing of the constructor
  (`n_voxels_`, `voxel_size_`, `d_index`) is computed as the source does, in
  binary32 with round to nearest even (`rnd32`), with infinities and NaN
  (`FloatVal`) and with the conversions between `float` and 32-bit `int`;
  `NeighborList.gridSizing` is total.  The arithmetic of the absent headers
  (`to_recip`, `from_recip`, `round`, `dot3`, `dot4`) is exact.
  `NeighborList.construct` yields `none` where the source goes on into that
  absent code with an infinity, a NaN or a singular cell.
* `int` values are integers of `ℤ`.  The conversion of a float to `int` is
  the x86 one (`INT_MIN` for a NaN and outside the range of `int`), and the
  flattening of a voxel triple is reduced to 32 bits; the loop counters of
  the scan are not reduced (signed overflow is undefined in the source).  The
  conversion `int → size_t` of a voxel key is `toSizeT`.
* `std::vector` is `List`; `push_back` appends at the end.  The `std::map` of
  voxels is an association list with at most one entry per key.
* The headers `vectorize.hpp` and `Unitcell.hpp` are not part of the sources;
  what `NeighborList.hpp` uses of them is modelled from the specification.
* The `printf` diagnostics have no effect on the state and are left out.
-/

namespace MDTraj

/-! ## Vector primitives -/

/-- Four float lanes (`fvec4`). -/
structure fvec4 where
  x : ℚ
  y : ℚ
  z : ℚ
  w : ℚ
deriving DecidableEq

/-- Four int lanes (`ivec4`). -/
structure ivec4 where
  x : Int
  y : Int
  z : Int
  w : Int
deriving DecidableEq

/-- Lane-wise difference `a - b` of `fvec4`. -/
def fvec4.sub (a b : fvec4) : fvec4 :=
  ⟨a.x - b.x, a.y - b.y, a.z - b.z, a.w - b.w⟩

instance : Sub fvec4 := ⟨fvec4.sub⟩

/-- Modelled from the spec: `dot3` of vectorize.hpp (absent), the dot product
of the first three lanes. -/
def dot3 (a b : fvec4) : ℚ :=
  a.x * b.x + a.y * b.y + a.z * b.z

/-- Modelled from the spec: `dot4` of vectorize.hpp (absent), the dot product
of all four lanes. -/
def dot4 (a b : fvec4) : ℚ :=
  a.x * b.x + a.y * b.y + a.z * b.z + a.w * b.w

/-- Modelled from the spec: scalar `round` behind the lane-wise `round` of
vectorize.hpp (absent): the nearest integer, a tie going away from zero as
with `round` of `<cmath>`. -/
def roundf (q : ℚ) : Int :=
  if 0 ≤ q then ⌊q + 1 / 2⌋ else ⌈q - 1 / 2⌉

/-- Modelled from the spec: lane-wise `round` of vectorize.hpp (absent). -/
def round (s : fvec4) : fvec4 :=
  ⟨roundf s.x, roundf s.y, roundf s.z, roundf s.w⟩

/-- Modelled from the spec: `fmod` of vectorize.hpp (absent) on integral
lanes: the remainder of the division truncated towards zero, which carries
the sign of the dividend, as with `fmod` of `<cmath>`. -/
def fmod (a n : Int) : Int :=
  Int.tmod a n

/-- Modelled from the spec: the unaligned load `fvec4(const float*)` of
vectorize.hpp (absent): four consecutive floats starting at offset `off`. -/
def loadu (mem : List ℚ) (off : Nat) : fvec4 :=
  ⟨mem.getD off 0, mem.getD (off + 1) 0, mem.getD (off + 2) 0, mem.getD (off + 3) 0⟩

/-- Modelled from the spec: `load3` of vectorize.hpp (absent): three
consecutive floats, the fourth lane set to zero. -/
def load3 (mem : List ℚ) (off : Nat) : fvec4 :=
  ⟨mem.getD off 0, mem.getD (off + 1) 0, mem.getD (off + 2) 0, 0⟩

/-- Modelled from the spec: `fvec4::store` of vectorize.hpp (absent): writes
the four lanes to offsets `off .. off + 3`. -/
def store (mem : List ℚ) (off : Nat) (v : fvec4) : List ℚ :=
  (((mem.set off v.x).set (off + 1) v.y).set (off + 2) v.z).set (off + 3) v.w

/-- Modelled from the spec: `aos_deinterleaved_loadu` of vectorize.hpp
(absent): reads four consecutive xyz triples and returns their x, their y and
their z coordinates, one point per lane. -/
def aos_deinterleaved_loadu (mem : List ℚ) (off : Nat) : fvec4 × fvec4 × fvec4 :=
  (⟨mem.getD off 0, mem.getD (off + 3) 0, mem.getD (off + 6) 0, mem.getD (off + 9) 0⟩,
   ⟨mem.getD (off + 1) 0, mem.getD (off + 4) 0, mem.getD (off + 7) 0, mem.getD (off + 10) 0⟩,
   ⟨mem.getD (off + 2) 0, mem.getD (off + 5) 0, mem.getD (off + 8) 0, mem.getD (off + 11) 0⟩)

/-- Modelled from the spec: `transpose` of vectorize.hpp (absent): the 4×4
transpose of the lanes of four vectors. -/
def transpose (a b c d : fvec4) : fvec4 × fvec4 × fvec4 × fvec4 :=
  (⟨a.x, b.x, c.x, d.x⟩, ⟨a.y, b.y, c.y, d.y⟩, ⟨a.z, b.z, c.z, d.z⟩, ⟨a.w, b.w, c.w, d.w⟩)

/-- A value of type `float`: a finite number, an infinity or NaN. -/
inductive FloatVal where
  | finite (q : ℚ)
  | inf (negative : Bool)
  | nan
deriving DecidableEq

/-- Floor of the binary logarithm of a positive natural number, by repeated
halving; `fuel` bounds the number of halvings and `fuel = n` is always
enough. -/
def log2Fuel : Nat → Nat → Nat
  | 0, _ => 0
  | fuel + 1, n => if n < 2 then 0 else log2Fuel fuel (n / 2) + 1

/-- Binary exponent of a non-zero rational: the `e` with `2^e ≤ |q| < 2^(e+1)`. -/
def ilog2 (q : ℚ) : Int :=
  let e0 : Int := (log2Fuel q.num.natAbs q.num.natAbs : Int) - (log2Fuel q.den q.den : Int)
  if (2 : ℚ) ^ e0 ≤ |q| then e0 else e0 - 1

/-- Nearest integer of a non-negative rational, ties to the even one. -/
def roundHalfEven (x : ℚ) : Int :=
  let f : Int := ⌊x⌋
  let r : ℚ := x - f
  if r < 1 / 2 then f
  else if 1 / 2 < r then f + 1
  else if f % 2 = 0 then f else f + 1

/-- Rounding of an exact result to `float` (IEEE 754 binary32, round to
nearest, ties to even): 24 significant bits, exponent of the unit in the last
place not below `-149` (gradual underflow), infinity from `2^128` on.  Zero
carries no sign. -/
def rnd32 (q : ℚ) : FloatVal :=
  let e : Int := max (ilog2 q) (-126)
  let ulp : ℚ := (2 : ℚ) ^ (e - 23)
  let v : ℚ := (roundHalfEven (|q| / ulp) : ℚ) * ulp
  if q = 0 then FloatVal.finite 0
  else if (2 : ℚ) ^ (128 : Int) ≤ v then FloatVal.inf (decide (q < 0))
  else FloatVal.finite (if q < 0 then -v else v)

/-- One lane of `operator/` of `fvec4` (vectorize.hpp, absent): the IEEE 754
binary32 division, with its special cases; a zero divisor counts as `+0`. -/
def fdiv (a b : FloatVal) : FloatVal :=
  match a, b with
  | FloatVal.nan, _ => FloatVal.nan
  | _, FloatVal.nan => FloatVal.nan
  | FloatVal.inf _, FloatVal.inf _ => FloatVal.nan
  | FloatVal.inf s, FloatVal.finite y => FloatVal.inf (xor s (decide (y < 0)))
  | FloatVal.finite _, FloatVal.inf _ => FloatVal.finite 0
  | FloatVal.finite x, FloatVal.finite y =>
    if y = 0 then (if x = 0 then FloatVal.nan else FloatVal.inf (decide (x < 0)))
    else rnd32 (x / y)

/-- One lane of `operator+` of `fvec4` (vectorize.hpp, absent): the IEEE 754
binary32 addition. -/
def fadd (a b : FloatVal) : FloatVal :=
  match a, b with
  | FloatVal.nan, _ => FloatVal.nan
  | _, FloatVal.nan => FloatVal.nan
  | FloatVal.inf s, FloatVal.inf t => if s = t then FloatVal.inf s else FloatVal.nan
  | FloatVal.inf s, FloatVal.finite _ => FloatVal.inf s
  | FloatVal.finite _, FloatVal.inf t => FloatVal.inf t
  | FloatVal.finite x, FloatVal.finite y => rnd32 (x + y)

/-- Modelled from the spec: one lane of `floor` of vectorize.hpp (absent): the
floor of a float is a float; infinities and NaN pass through. -/
def ffloor (a : FloatVal) : FloatVal :=
  match a with
  | FloatVal.finite x => FloatVal.finite ((⌊x⌋ : Int) : ℚ)
  | v => v

/-- One lane of the conversion `fvec4 → ivec4` of vectorize.hpp (absent),
modelled as the x86 conversion to 32-bit `int`: truncation toward zero, and
`INT_MIN` for NaN, an infinity or a value outside the range of `int`. -/
def cvttps (a : FloatVal) : Int :=
  match a with
  | FloatVal.finite x =>
    let t : Int := if x < 0 then ⌈x⌉ else ⌊x⌋
    if -2147483648 ≤ t ∧ t < 2147483648 then t else -2147483648
  | _ => -2147483648

/-- One lane of the conversion `ivec4 → fvec4` of vectorize.hpp (absent): the
`int` rounded to `float`. -/
def cvtdq2ps (n : Int) : FloatVal :=
  rnd32 (n : ℚ)

/-- Conversion of an `int` result to `size_t` (two's complement, 64 bits). -/
def toSizeT (v : Int) : Nat :=
  (v % 2 ^ 64).toNat

/-! ## Unit cell -/

/-- Modelled from the spec: the class `Unitcell` of Unitcell.hpp (absent):
three lattice vectors, loaded with `load3`. -/
structure Unitcell where
  a : fvec4
  b : fvec4
  c : fvec4
deriving DecidableEq

/-- Modelled from the spec: the constructor `Unitcell(const float[9])`
(absent): three row-major basis vectors. -/
def Unitcell.ofVectors (v : List ℚ) : Unitcell :=
  ⟨load3 v 0, load3 v 3, load3 v 6⟩

/-- Triple product `a · (b × c)` of the lattice vectors. -/
def Unitcell.det (u : Unitcell) : ℚ :=
  u.a.x * (u.b.y * u.c.z - u.b.z * u.c.y)
    + u.a.y * (u.b.z * u.c.x - u.b.x * u.c.z)
    + u.a.z * (u.b.x * u.c.y - u.b.y * u.c.x)

/-- Modelled from the spec: `Unitcell::from_recip` (absent), fractional to
Cartesian: the linear combination `s.x·a + s.y·b + s.z·c`, lane by lane. -/
def Unitcell.from_recip (u : Unitcell) (s : fvec4) : fvec4 :=
  ⟨s.x * u.a.x + s.y * u.b.x + s.z * u.c.x,
   s.x * u.a.y + s.y * u.b.y + s.z * u.c.y,
   s.x * u.a.z + s.y * u.b.z + s.z * u.c.z,
   s.x * u.a.w + s.y * u.b.w + s.z * u.c.w⟩

/-- Modelled from the spec: `Unitcell::to_recip` applied to coordinates
`rx ry rz` (absent), Cartesian to fractional: the inverse of `from_recip`
(Cramer's rule). -/
def Unitcell.to_recip3 (u : Unitcell) (rx ry rz : ℚ) : ℚ × ℚ × ℚ :=
  ((rx * (u.b.y * u.c.z - u.b.z * u.c.y) + ry * (u.b.z * u.c.x - u.b.x * u.c.z)
      + rz * (u.b.x * u.c.y - u.b.y * u.c.x)) / u.det,
   (rx * (u.c.y * u.a.z - u.c.z * u.a.y) + ry * (u.c.z * u.a.x - u.c.x * u.a.z)
      + rz * (u.c.x * u.a.y - u.c.y * u.a.x)) / u.det,
   (rx * (u.a.y * u.b.z - u.a.z * u.b.y) + ry * (u.a.z * u.b.x - u.a.x * u.b.z)
      + rz * (u.a.x * u.b.y - u.a.y * u.b.x)) / u.det)

/-- Modelled from the spec: `Unitcell::to_recip(const fvec4&)` (absent); the
fourth lane of the result is zero. -/
def Unitcell.to_recip (u : Unitcell) (r : fvec4) : fvec4 :=
  let s := u.to_recip3 r.x r.y r.z
  ⟨s.1, s.2.1, s.2.2, 0⟩

/-- Modelled from the spec: the batched `Unitcell::to_recip(x, y, z, x_r, y_r,
z_r)` (absent): lane `k` of the results is `to_recip` of the point whose
coordinates are lane `k` of `x`, `y`, `z`. -/
def Unitcell.to_recip_batched (u : Unitcell) (x y z : fvec4) : fvec4 × fvec4 × fvec4 :=
  let p0 := u.to_recip3 x.x y.x z.x
  let p1 := u.to_recip3 x.y y.y z.y
  let p2 := u.to_recip3 x.z y.z z.z
  let p3 := u.to_recip3 x.w y.w z.w
  (⟨p0.1, p1.1, p2.1, p3.1⟩, ⟨p0.2.1, p1.2.1, p2.2.1, p3.2.1⟩,
   ⟨p0.2.2, p1.2.2, p2.2.2, p3.2.2⟩)

/-! ## Voxel map -/

/-- The `std::map<size_t, std::vector<size_t>>` of voxel lists. -/
abbrev VoxelMap := List (Nat × List Nat)

/-- Lookup `find(k)`; `none` is `end()`. -/
def VoxelMap.find (m : VoxelMap) (k : Nat) : Option (List Nat) :=
  match m with
  | [] => none
  | e :: rest => if e.1 = k then some e.2 else VoxelMap.find rest k

/-- Assignment `m[k] = v`: replaces the list under `k`, or inserts it. -/
def VoxelMap.assign (m : VoxelMap) (k : Nat) (v : List Nat) : VoxelMap :=
  match m with
  | [] => [(k, v)]
  | e :: rest => if e.1 = k then (k, v) :: rest else e :: VoxelMap.assign rest k v

/-- Append `m[k].push_back(i)`; `operator[]` inserts an empty list first
when `k` is absent. -/
def VoxelMap.push_back (m : VoxelMap) (k : Nat) (i : Nat) : VoxelMap :=
  match m with
  | [] => [(k, [i])]
  | e :: rest =>
    if e.1 = k then (e.1, e.2 ++ [i]) :: rest else e :: VoxelMap.push_back rest k i

/-! ## The neighbor list -/

/-- Output record of a query. -/
structure AtomPair where
  i : Nat
  j : Nat
  d2 : ℚ
deriving DecidableEq

/-- Data members of `class NeighborList`.  Lane `w` of `voxel_size_`,
`voxel_size_r_` and `d_index_` is never read by the source (it holds NaN
there) and is zero here. -/
structure NeighborList where
  max_distance_ : ℚ
  max_distance2_ : ℚ
  n_atoms_ : Nat
  positions_r_ : List ℚ
  unitcell_ : Unitcell
  unitcell_lengths_ : fvec4
  nx_ : Int
  ny_ : Int
  nz_ : Int
  d_index_ : ivec4
  n_voxels_ : ivec4
  voxel_size_ : fvec4
  voxel_size_r_ : fvec4
  voxelMap_ : VoxelMap
deriving DecidableEq

/-- One lane of `getVoxelIndexVector`: `f = floor(s / voxel_size_r)`, then
`fmod(f + (f < 0 & n), n)`. -/
def getVoxelIndexLane (s vsr : ℚ) (n : Int) : Int :=
  let f : Int := ⌊s / vsr⌋
  fmod (f + (if f < 0 then n else 0)) n

/-- Source: `NeighborList::getVoxelIndexVector`. -/
def NeighborList.getVoxelIndexVector (nl : NeighborList) (s : fvec4) : ivec4 :=
  ⟨getVoxelIndexLane s.x nl.voxel_size_r_.x nl.n_voxels_.x,
   getVoxelIndexLane s.y nl.voxel_size_r_.y nl.n_voxels_.y,
   getVoxelIndexLane s.z nl.voxel_size_r_.z nl.n_voxels_.z,
   0⟩

/-- A result of `int` arithmetic reduced to 32 bits, two's complement. -/
def wrap32 (v : Int) : Int :=
  (v + 2147483648) % 4294967296 - 2147483648

/-- The flattening `x*nx_*ny_ + y*ny_ + z`, in 32-bit `int`. -/
def flatten (nx ny : Int) (x y z : Int) : Int :=
  wrap32 (x * nx * ny + y * ny + z)

/-- Source: `NeighborList::getVoxelIndex(int x, int y, int z)`. -/
def NeighborList.getVoxelIndexInt (nl : NeighborList) (x y z : Int) : Nat :=
  toSizeT (flatten nl.nx_ nl.ny_ x y z)

/-- Source: `NeighborList::getVoxelIndex(const fvec4& s)`. -/
def NeighborList.getVoxelIndex (nl : NeighborList) (s : fvec4) : Nat :=
  let result := nl.getVoxelIndexVector s
  toSizeT (flatten nl.nx_ nl.ny_ result.x result.y result.z)

/-- Source: `NeighborList::addLocation`. -/
def NeighborList.addLocation (nl : NeighborList) (i : Nat) : NeighborList :=
  let s := loadu nl.positions_r_ (4 * i)
  let idx := nl.getVoxelIndex s
  let m := if (nl.voxelMap_.find idx).isNone then nl.voxelMap_.assign idx [] else nl.voxelMap_
  { nl with voxelMap_ := m.push_back idx i }

/-- State of the loops of `loadPositions`: the counter `i`, the read offset
`positions_ptr`, the write offset `positions_r_ptr` and the output array. -/
structure LoadState where
  i : Nat
  positions_ptr : Nat
  positions_r_ptr : Nat
  positions_r : List ℚ
deriving DecidableEq

/-- Body of the first loop of `loadPositions`: four points at a time. -/
def loadPositions.vecBody (u : Unitcell) (positions : List ℚ) (st : LoadState) : LoadState :=
  let xyz := aos_deinterleaved_loadu positions st.positions_ptr
  let r := u.to_recip_batched xyz.1 xyz.2.1 xyz.2.2
  let t := transpose r.1 r.2.1 r.2.2 ⟨0, 0, 0, 0⟩
  let m := store st.positions_r st.positions_r_ptr t.1
  let m := store m (st.positions_r_ptr + 4) t.2.1
  let m := store m (st.positions_r_ptr + 8) t.2.2.1
  let m := store m (st.positions_r_ptr + 12) t.2.2.2
  ⟨st.i + 4, st.positions_ptr + 12, st.positions_r_ptr + 16, m⟩

/-- First loop of `loadPositions`: `for (; i < (n_atoms_ >> 2); i += 4)`. -/
def loadPositions.vecLoop (u : Unitcell) (n_atoms : Nat) (positions : List ℚ) :
    Nat → LoadState → LoadState
  | 0, st => st
  | fuel + 1, st =>
    if st.i < n_atoms >>> 2 then
      loadPositions.vecLoop u n_atoms positions fuel (loadPositions.vecBody u positions st)
    else st

/-- Body of the second loop of `loadPositions`: one point. -/
def loadPositions.tailBody (u : Unitcell) (positions : List ℚ) (st : LoadState) : LoadState :=
  let r := load3 positions st.positions_ptr
  let s := u.to_recip r
  ⟨st.i + 1, st.positions_ptr + 3, st.positions_r_ptr + 4, store st.positions_r st.positions_r_ptr s⟩

/-- Second loop of `loadPositions`: `for (; i < n_atoms_; i++)`. -/
def loadPositions.tailLoop (u : Unitcell) (n_atoms : Nat) (positions : List ℚ) :
    Nat → LoadState → LoadState
  | 0, st => st
  | fuel + 1, st =>
    if st.i < n_atoms then
      loadPositions.tailLoop u n_atoms positions fuel (loadPositions.tailBody u positions st)
    else st

/-- Source: `NeighborList::loadPositions`, on the zeroed array `positions_r`
of `calloc`.  Either loop runs at most `n_atoms` times, which is the fuel. -/
def loadPositions (u : Unitcell) (n_atoms : Nat) (positions : List ℚ)
    (positions_r : List ℚ) : List ℚ :=
  let st := loadPositions.vecLoop u n_atoms positions n_atoms ⟨0, 0, 0, positions_r⟩
  (loadPositions.tailLoop u n_atoms positions n_atoms st).positions_r

/-- The fractional position `s_i` read back from `positions_r_`:
`fvec4 s(positions_r_ + 4*i)`. -/
def NeighborList.position (nl : NeighborList) (i : Nat) : fvec4 :=
  loadu nl.positions_r_ (4 * i)

/-- Minimum-image displacement `from_recip(s12 - round(s12))`, `s12 = si - sj`,
as both queries compute it into `r12`. -/
def minimumImage (u : Unitcell) (si sj : fvec4) : fvec4 :=
  let s12 := si - sj
  u.from_recip (s12 - round s12)

/-- Body of the loop of `getNeighborsNaive` for one `j`. -/
def NeighborList.naiveBody (nl : NeighborList) (i : Nat) (neighbors : List AtomPair)
    (j : Nat) : List AtomPair :=
  let si := loadu nl.positions_r_ (4 * i)
  let sj := loadu nl.positions_r_ (4 * j)
  let r12 := minimumImage nl.unitcell_ si sj
  let d2 := dot3 r12 r12
  if 0 < d2 ∧ d2 < nl.max_distance2_ then neighbors ++ [⟨i, j, d2⟩] else neighbors

/-- Source: `NeighborList::getNeighborsNaive`: `for (j = i+1; j < n_atoms_; j++)`. -/
def NeighborList.getNeighborsNaive (nl : NeighborList) (i : Nat)
    (neighbors : List AtomPair) : List AtomPair :=
  (List.range' (i + 1) (nl.n_atoms_ - (i + 1))).foldl (nl.naiveBody i) neighbors

/-- The integers `lo, lo + 1, ..., hi` of a loop `for (k = lo; k <= hi; k++)`. -/
def intRange (lo hi : Int) : List Int :=
  (List.range (hi + 1 - lo).toNat).map (fun k => lo + (k : Int))

/-- The periodic wrap `(ix < 0 ? ix+n : (ix >= n ? ix-n : ix))`. -/
def wrapIndex (ix n : Int) : Int :=
  if ix < 0 then ix + n else if ix ≥ n then ix - n else ix

/-- Body of the innermost loop of `getNeighbors` for one entry of a voxel. -/
def NeighborList.gridBody (nl : NeighborList) (i : Nat) (neighbors : List AtomPair)
    (atom_j : Nat) : List AtomPair :=
  if atom_j ≤ i then neighbors
  else
    let si := loadu nl.positions_r_ (4 * i)
    let sj := loadu nl.positions_r_ (4 * atom_j)
    let r12 := minimumImage nl.unitcell_ si sj
    let d2 := dot4 r12 r12
    if 0 < d2 ∧ d2 < nl.max_distance2_ then neighbors ++ [⟨i, atom_j, d2⟩] else neighbors

/-- One visit of the voxel `(x, y, z)` by `getNeighbors`: lookup, then scan. -/
def NeighborList.scanVoxel (nl : NeighborList) (i : Nat) (neighbors : List AtomPair)
    (x y z : Int) : List AtomPair :=
  match nl.voxelMap_.find (nl.getVoxelIndexInt x y z) with
  | none => neighbors
  | some voxel => voxel.foldl (nl.gridBody i) neighbors

/-- Source: `NeighborList::getNeighbors`. -/
def NeighborList.getNeighbors (nl : NeighborList) (i : Nat)
    (neighbors : List AtomPair) : List AtomPair :=
  let si := loadu nl.positions_r_ (4 * i)
  let center_index := nl.getVoxelIndexVector si
  let minx := center_index.x - nl.d_index_.x
  let maxx := center_index.x + nl.d_index_.x
  let miny := center_index.y - nl.d_index_.y
  let maxy := center_index.y + nl.d_index_.y
  let minz := center_index.z - nl.d_index_.z
  let maxz := center_index.z + nl.d_index_.z
  (intRange minx maxx).foldl (fun acc ix =>
    let x := wrapIndex ix nl.nx_
    (intRange miny maxy).foldl (fun acc iy =>
      let y := wrapIndex iy nl.ny_
      (intRange minz maxz).foldl (fun acc iz =>
        let z := wrapIndex iz nl.nz_
        nl.scanVoxel i acc x y z) acc) acc) neighbors

/-- Source: the constructor, one lane of
`n_voxels_ = floor(unitcell_lengths_ / (2*max_distance))`: the float product
`2*max_distance`, the float quotient, its floor, converted to `int`. -/
def n_voxels_axis (length max_distance : ℚ) : Int :=
  cvttps (ffloor (fdiv (FloatVal.finite length) (rnd32 (2 * max_distance))))

/-- Source: the constructor, one lane of
`voxel_size_ = unitcell_lengths_ / n_voxels_`: the voxel count converted to
`float`, then the float quotient. -/
def voxel_size_axis (length max_distance : ℚ) : FloatVal :=
  fdiv (FloatVal.finite length) (cvtdq2ps (n_voxels_axis length max_distance))

/-- Source: the constructor, one lane of
`d_index = floor(max_distance_ / voxel_size_) + 1`: the float quotient, its
floor, the float sum with 1, converted to `int`. -/
def d_index_axis (max_distance : ℚ) (voxel_size : FloatVal) : Int :=
  cvttps (fadd (ffloor (fdiv (FloatVal.finite max_distance) voxel_size)) (FloatVal.finite 1))

/-- What the constructor computes for the grid: `unitcell_lengths_`,
`n_voxels_`, the lanes x, y, z of `voxel_size_` as float values, and
`d_index`.  The fourth lanes, which nothing reads, are kept 0. -/
structure GridSizing where
  unitcell_lengths : fvec4
  n_voxels : ivec4
  voxel_size_x : FloatVal
  voxel_size_y : FloatVal
  voxel_size_z : FloatVal
  d_index : ivec4
deriving DecidableEq

/-- Source: the constructor `NeighborList::NeighborList`, the statements that
size the grid (`unitcell_lengths_`, `n_voxels_`, `voxel_size_`, `d_index`).
`sqrtf` stands for `sqrt` of `<cmath>`.  Defined for every input. -/
def NeighborList.gridSizing (sqrtf : ℚ → ℚ) (max_distance : ℚ)
    (unitcell_vectors : List ℚ) : GridSizing :=
  let v0 := load3 unitcell_vectors 0
  let v1 := load3 unitcell_vectors 3
  let v2 := load3 unitcell_vectors 6
  let lengths : fvec4 := ⟨sqrtf (dot3 v0 v0), sqrtf (dot3 v1 v1), sqrtf (dot3 v2 v2), 0⟩
  let vx := voxel_size_axis lengths.x max_distance
  let vy := voxel_size_axis lengths.y max_distance
  let vz := voxel_size_axis lengths.z max_distance
  { unitcell_lengths := lengths
    n_voxels :=
      ⟨n_voxels_axis lengths.x max_distance, n_voxels_axis lengths.y max_distance,
       n_voxels_axis lengths.z max_distance, 0⟩
    voxel_size_x := vx
    voxel_size_y := vy
    voxel_size_z := vz
    d_index :=
      ⟨d_index_axis max_distance vx, d_index_axis max_distance vy,
       d_index_axis max_distance vz, 0⟩ }

/-- Source: the constructor `NeighborList::NeighborList`.  `sqrtf` stands for
`sqrt` of `<cmath>`.  The grid is sized by `gridSizing`.  The result is `none`
where the source goes on into code that is not part of the sources with a
value this model has no account of: the reciprocal basis of a singular cell
(`Unitcell.hpp`), `to_recip` of a voxel size that is infinite or NaN (an axis
with zero voxels), and `fmod` (`vectorize.hpp`) of the infinite quotient by a
zero fractional voxel size.  No input is rejected by the source itself. -/
def NeighborList.construct (sqrtf : ℚ → ℚ) (max_distance : ℚ) (n_atoms : Nat)
    (positions : List ℚ) (unitcell_vectors : List ℚ) : Option NeighborList :=
  let unitcell := Unitcell.ofVectors unitcell_vectors
  let g := NeighborList.gridSizing sqrtf max_distance unitcell_vectors
  if unitcell.det = 0 then none
  else
    match g.voxel_size_x, g.voxel_size_y, g.voxel_size_z with
    | FloatVal.finite vx, FloatVal.finite vy, FloatVal.finite vz =>
      let voxel_size : fvec4 := ⟨vx, vy, vz, 0⟩
      let voxel_size_r := unitcell.to_recip voxel_size
      if voxel_size_r.x = 0 ∨ voxel_size_r.y = 0 ∨ voxel_size_r.z = 0 then none
      else
        let positions_r :=
          loadPositions unitcell n_atoms positions (List.replicate (n_atoms * 4) 0)
        let nl0 : NeighborList :=
          { max_distance_ := max_distance
            max_distance2_ := max_distance * max_distance
            n_atoms_ := n_atoms
            positions_r_ := positions_r
            unitcell_ := unitcell
            unitcell_lengths_ := g.unitcell_lengths
            nx_ := g.n_voxels.x
            ny_ := g.n_voxels.y
            nz_ := g.n_voxels.z
            d_index_ := g.d_index
            n_voxels_ := g.n_voxels
            voxel_size_ := voxel_size
            voxel_size_r_ := voxel_size_r
            voxelMap_ := [] }
        some ((List.range n_atoms).foldl NeighborList.addLocation nl0)
    | _, _, _ => none

/-- A `sqrt` that is exact on the squares of the integers `0 .. 1000`, for
the evaluation of concrete cells. -/
def sqrtExact (q : ℚ) : ℚ :=
  match (List.range 1001).find? (fun k => decide ((k : ℚ) * k = q)) with
  | some k => k
  | none => 0

/-! ## Definitions used by the statements -/

/-- The two statements of `addLocation` on the map: create the entry of `k`
when `find` misses it, then `push_back`. -/
def VoxelMap.add (m : VoxelMap) (k : Nat) (i : Nat) : VoxelMap :=
  (if (m.find k).isNone then m.assign k [] else m).push_back k i


/-- The map `m` holds exactly the indices of `l`, each under the key `key i`,
in the order of `l`, with one entry per key. -/
def VoxelMap.Holds (key : Nat → Nat) (l : List Nat) (m : VoxelMap) : Prop :=
  (m.map Prod.fst).Nodup ∧
    ∀ k, m.find k
      = if l.filter (fun i => decide (key i = k)) = [] then none
        else some (l.filter (fun i => decide (key i = k)))

/-- Squared distance `d2` of `getNeighborsNaive` for the candidate `j`. -/
def NeighborList.d2Naive (nl : NeighborList) (i j : Nat) : ℚ :=
  dot3 (minimumImage nl.unitcell_ (nl.position i) (nl.position j))
    (minimumImage nl.unitcell_ (nl.position i) (nl.position j))

/-- Squared distance `d2` of `getNeighbors` for the candidate `atom_j`. -/
def NeighborList.d2Grid (nl : NeighborList) (i j : Nat) : ℚ :=
  dot4 (minimumImage nl.unitcell_ (nl.position i) (nl.position j))
    (minimumImage nl.unitcell_ (nl.position i) (nl.position j))

/-- The lattice vectors are mutually orthogonal, their fourth lanes zero (as
`load3` leaves them). -/
def Unitcell.Orthogonal (u : Unitcell) : Prop :=
  dot3 u.a u.b = 0 ∧ dot3 u.a u.c = 0 ∧ dot3 u.b u.c = 0
    ∧ u.a.w = 0 ∧ u.b.w = 0 ∧ u.c.w = 0

/-- The claim's words for the distance of the naive query: `d2 =
|from_fractional(s12 - round(s12))|²` with `s12 = s_i - s_j`. -/
def minImageD2 (u : Unitcell) (si sj : fvec4) : ℚ :=
  let s12 := si - sj
  let r := u.from_recip (s12 - round s12)
  r.x ^ 2 + r.y ^ 2 + r.z ^ 2

/-- The claim's words for the naive query over the positions `s`: one pair
`(i, j, d2)` for each `j` with `i < j < N` and `0 < d2 < cutoff²`, in ascending
order of `j`. -/
def naiveSpec (u : Unitcell) (s : Nat → fvec4) (N : Nat) (cutoff : ℚ) (i : Nat) :
    List AtomPair :=
  ((List.range N).filter (fun j =>
      decide (i < j ∧ 0 < minImageD2 u (s i) (s j) ∧ minImageD2 u (s i) (s j) < cutoff ^ 2))).map
    (fun j => ⟨i, j, minImageD2 u (s i) (s j)⟩)

/-- Cell basis `diag(10, 10, 10)`, row-major. -/
def cubicCell10 : List ℚ := [10, 0, 0, 0, 10, 0, 0, 0, 10]

/-- Cell basis `diag(12, 12, 12)`, row-major. -/
def cubicCell12 : List ℚ := [12, 0, 0, 0, 12, 0, 0, 0, 12]

/-- Triclinic cell with lattice vectors `(20,0,0)`, `(12,16,0)`, `(0,0,20)`,
each of length 20. -/
def triclinicCell20 : List ℚ := [20, 0, 0, 12, 16, 0, 0, 0, 20]

/-- What the constructor builds for cutoff 2 in `cubicCell10` from the two
points `(0,0,0)` and `(1.5,0,0)`. -/
def exampleList : NeighborList :=
  { max_distance_ := 2
    max_distance2_ := 4
    n_atoms_ := 2
    positions_r_ := [0, 0, 0, 0, 3 / 20, 0, 0, 0]
    unitcell_ := ⟨⟨10, 0, 0, 0⟩, ⟨0, 10, 0, 0⟩, ⟨0, 0, 10, 0⟩⟩
    unitcell_lengths_ := ⟨10, 10, 10, 0⟩
    nx_ := 2
    ny_ := 2
    nz_ := 2
    d_index_ := ⟨1, 1, 1, 0⟩
    n_voxels_ := ⟨2, 2, 2, 0⟩
    voxel_size_ := ⟨5, 5, 5, 0⟩
    voxel_size_r_ := ⟨1 / 2, 1 / 2, 1 / 2, 0⟩
    voxelMap_ := [(0, [0, 1])] }

/-- The local array `center_index` of `getNeighbors(i)`:
`getVoxelIndexVector(si).store(center_index)`. -/
def NeighborList.center_index (nl : NeighborList) (i : Nat) : ivec4 :=
  nl.getVoxelIndexVector (loadu nl.positions_r_ (4 * i))

/-- The claim's words for `loadPositions`: the fractional array holds, for
every point index `i` in `[0, N)`, the fractional image
`to_fractional(position_i)` in slot `i` (lanes `4i .. 4i+2`, then the padding
lane): the map of `to_recip` over the input points. -/
def fractionalArray (u : Unitcell) (N : Nat) (positions : List ℚ) : List ℚ :=
  (List.range N).flatMap (fun i =>
    [(u.to_recip (load3 positions (3 * i))).x, (u.to_recip (load3 positions (3 * i))).y,
     (u.to_recip (load3 positions (3 * i))).z, (u.to_recip (load3 positions (3 * i))).w])

/-- Lane `k` of the fractional array: lane `k % 4` of `to_recip` of the point
`k / 4`. -/
def fracLane (u : Unitcell) (positions : List ℚ) (k : Nat) : ℚ :=
  if k % 4 = 0 then (u.to_recip (load3 positions (3 * (k / 4)))).x
  else if k % 4 = 1 then (u.to_recip (load3 positions (3 * (k / 4)))).y
  else if k % 4 = 2 then (u.to_recip (load3 positions (3 * (k / 4)))).z
  else (u.to_recip (load3 positions (3 * (k / 4)))).w

/-- The array `mem` holds the fractional images of the points `0 .. i-1` in
its first `4·i` lanes and agrees with `mem0` elsewhere. -/
def Filled (u : Unitcell) (positions mem0 : List ℚ) (i : Nat) (mem : List ℚ) : Prop :=
  mem.length = mem0.length
    ∧ ∀ k, mem[k]? = if k < 4 * i then some (fracLane u positions k) else mem0[k]?

/-- Invariant of the two loops of `loadPositions` for `N` points: the read
offset is `3·i`, the write offset is `4·i`, `i ≤ N`, and the array is filled
up to point `i`. -/
def LoadInv (u : Unitcell) (N : Nat) (positions mem0 : List ℚ) (st : LoadState) : Prop :=
  st.positions_ptr = 3 * st.i ∧ st.positions_r_ptr = 4 * st.i ∧ st.i ≤ N
    ∧ Filled u positions mem0 st.i st.positions_r

/-! ## The voxel map -/

theorem VoxelMap.find_nil (k : Nat) : VoxelMap.find [] k = none := rfl

theorem VoxelMap.find_cons (e : Nat × List Nat) (rest : VoxelMap) (k : Nat) :
    VoxelMap.find (e :: rest) k = if e.1 = k then some e.2 else VoxelMap.find rest k := rfl

theorem VoxelMap.find_assign (m : VoxelMap) (k : Nat) (v : List Nat) (k' : Nat) :
    (VoxelMap.assign m k v).find k' = if k' = k then some v else m.find k' := by
  induction m with
  | nil =>
    simp only [VoxelMap.assign, VoxelMap.find_cons, VoxelMap.find_nil]
    split_ifs <;> simp_all
  | cons e rest ih =>
    simp only [VoxelMap.assign]
    split_ifs with h1 h2 h2
    · simp [VoxelMap.find_cons, h2]
    · simp [VoxelMap.find_cons, h1, Ne.symm h2, h2]
    · subst h2
      simp [VoxelMap.find_cons, h1, ih]
    · simp [VoxelMap.find_cons, ih, h2]

theorem VoxelMap.find_push_back (m : VoxelMap) (k i : Nat) (k' : Nat) :
    (VoxelMap.push_back m k i).find k'
      = if k' = k then some ((m.find k).getD [] ++ [i]) else m.find k' := by
  induction m with
  | nil =>
    simp only [VoxelMap.push_back, VoxelMap.find_cons, VoxelMap.find_nil]
    split_ifs <;> simp_all
  | cons e rest ih =>
    simp only [VoxelMap.push_back]
    split_ifs with h1 h2 h2
    · simp [VoxelMap.find_cons, h2, h1]
    · simp [VoxelMap.find_cons, h1, Ne.symm h2, h2]
    · subst h2
      simp [VoxelMap.find_cons, h1, ih]
    · simp [VoxelMap.find_cons, ih, h2]

theorem VoxelMap.keys_assign (m : VoxelMap) (k : Nat) (v : List Nat) :
    (VoxelMap.assign m k v).map Prod.fst
      = if k ∈ m.map Prod.fst then m.map Prod.fst else m.map Prod.fst ++ [k] := by
  induction m with
  | nil => simp [VoxelMap.assign]
  | cons e rest ih =>
    by_cases he : e.1 = k
    · simp [VoxelMap.assign, he]
    · have hne : ¬ k = e.1 := fun h => he h.symm
      by_cases hk : k ∈ rest.map Prod.fst
      · simp only [VoxelMap.assign, he, if_false, List.map_cons, ih, hk, if_true,
          List.mem_cons, or_true]
      · simp only [VoxelMap.assign, he, if_false, List.map_cons, ih, hk, if_false,
          List.mem_cons, hne, or_self, List.cons_append]

theorem VoxelMap.keys_push_back (m : VoxelMap) (k i : Nat) :
    (VoxelMap.push_back m k i).map Prod.fst
      = if k ∈ m.map Prod.fst then m.map Prod.fst else m.map Prod.fst ++ [k] := by
  induction m with
  | nil => simp [VoxelMap.push_back]
  | cons e rest ih =>
    by_cases he : e.1 = k
    · simp [VoxelMap.push_back, he]
    · have hne : ¬ k = e.1 := fun h => he h.symm
      by_cases hk : k ∈ rest.map Prod.fst
      · simp only [VoxelMap.push_back, he, if_false, List.map_cons, ih, hk, if_true,
          List.mem_cons, or_true]
      · simp only [VoxelMap.push_back, he, if_false, List.map_cons, ih, hk, if_false,
          List.mem_cons, hne, or_self, List.cons_append]

theorem VoxelMap.find_eq_none_iff (m : VoxelMap) (k : Nat) :
    m.find k = none ↔ k ∉ m.map Prod.fst := by
  induction m with
  | nil => simp [VoxelMap.find]
  | cons e rest ih =>
    by_cases he : e.1 = k
    · simp [VoxelMap.find, he]
    · have hne : ¬ k = e.1 := fun h => he h.symm
      simp [VoxelMap.find, he, ih, hne]

theorem VoxelMap.mem_iff_find (m : VoxelMap) (hm : (m.map Prod.fst).Nodup) (k : Nat)
    (v : List Nat) : (k, v) ∈ m ↔ m.find k = some v := by
  induction m with
  | nil => simp [VoxelMap.find]
  | cons e rest ih =>
    rw [List.map_cons, List.nodup_cons] at hm
    by_cases he : e.1 = k
    · have hnot : ∀ w, (k, w) ∉ rest := by
        intro w hw
        apply hm.1
        rw [he]
        exact List.mem_map.mpr ⟨(k, w), hw, rfl⟩
      simp only [VoxelMap.find, he, if_true, List.mem_cons, Option.some.injEq]
      constructor
      · rintro (h | h)
        · rw [← h]
        · exact absurd h (hnot v)
      · intro h
        left
        rw [← h, ← he]
    · simp only [VoxelMap.find, he, if_false, List.mem_cons]
      rw [← ih hm.2]
      constructor
      · rintro (h | h)
        · exact absurd (by rw [← h]) he
        · exact h
      · exact fun h => Or.inr h

theorem VoxelMap.holds_nil (key : Nat → Nat) : VoxelMap.Holds key [] [] := by
  refine ⟨by simp, fun k => ?_⟩
  simp [VoxelMap.find_nil]

theorem VoxelMap.holds_add (key : Nat → Nat) (l : List Nat) (m : VoxelMap) (i : Nat)
    (h : VoxelMap.Holds key l m) : VoxelMap.Holds key (l ++ [i]) (m.add (key i) i) := by
  obtain ⟨hnd, hfind⟩ := h
  refine ⟨?_, fun k => ?_⟩
  · unfold VoxelMap.add
    rw [VoxelMap.keys_push_back]
    by_cases hn : (VoxelMap.find m (key i)).isNone
    · have hk : key i ∉ m.map Prod.fst :=
        (VoxelMap.find_eq_none_iff m (key i)).mp (Option.isNone_iff_eq_none.mp hn)
      rw [if_pos hn, VoxelMap.keys_assign, if_neg hk, if_pos (by simp)]
      exact List.Nodup.append hnd (by simp) (by simpa using hk)
    · have hk : key i ∈ m.map Prod.fst := by
        by_contra hk
        exact hn (Option.isNone_iff_eq_none.mpr ((VoxelMap.find_eq_none_iff m (key i)).mpr hk))
      rw [if_neg hn, if_pos hk]
      exact hnd
  · unfold VoxelMap.add
    rw [List.filter_append]
    have h0 := hfind (key i)
    by_cases hk : k = key i
    · subst hk
      have hi : List.filter (fun j => decide (key j = key i)) [i] = [i] := by simp
      have hne : l.filter (fun j => decide (key j = key i)) ++ [i] ≠ [] := by simp
      rw [hi, if_neg hne]
      by_cases hn : (VoxelMap.find m (key i)).isNone
      · rw [if_pos hn, VoxelMap.find_push_back, if_pos rfl, VoxelMap.find_assign, if_pos rfl]
        rw [Option.isNone_iff_eq_none.mp hn] at h0
        by_cases he : l.filter (fun j => decide (key j = key i)) = []
        · rw [he]; rfl
        · rw [if_neg he] at h0
          exact absurd h0 (by simp)
      · rw [if_neg hn, VoxelMap.find_push_back, if_pos rfl]
        by_cases he : l.filter (fun j => decide (key j = key i)) = []
        · rw [h0, if_pos he] at hn
          exact absurd rfl hn
        · rw [h0, if_neg he]; rfl
    · have hi : List.filter (fun j => decide (key j = k)) [i] = [] := by
        simp [Ne.symm hk]
      rw [hi, List.append_nil]
      by_cases hn : (VoxelMap.find m (key i)).isNone
      · rw [if_pos hn, VoxelMap.find_push_back, if_neg hk, VoxelMap.find_assign, if_neg hk]
        exact hfind k
      · rw [if_neg hn, VoxelMap.find_push_back, if_neg hk]
        exact hfind k

theorem VoxelMap.holds_foldl (key : Nat → Nat) (l0 l : List Nat) (m : VoxelMap)
    (h : VoxelMap.Holds key l0 m) :
    VoxelMap.Holds key (l0 ++ l) (l.foldl (fun acc i => acc.add (key i) i) m) := by
  induction l generalizing l0 m with
  | nil => simpa using h
  | cons i rest ih =>
    rw [List.foldl_cons]
    have := ih (l0 ++ [i]) _ (VoxelMap.holds_add key l0 m i h)
    simpa using this

theorem NeighborList.foldl_addLocation (l : List Nat) (nl : NeighborList) :
    l.foldl NeighborList.addLocation nl
      = { nl with voxelMap_ :=
            l.foldl (fun acc i => acc.add (nl.getVoxelIndex (nl.position i)) i) nl.voxelMap_ } := by
  induction l generalizing nl with
  | nil => rfl
  | cons i rest ih =>
    rw [List.foldl_cons, ih]
    rfl

/-- What the constructor establishes: the stored point count and cutoff, the
squared cutoff, the cell, and the content of the voxel map. -/
theorem NeighborList.construct_some (sqrtf : ℚ → ℚ) (c : ℚ) (N : Nat) (pos cell : List ℚ)
    (nl : NeighborList) (h : NeighborList.construct sqrtf c N pos cell = some nl) :
    nl.n_atoms_ = N ∧ nl.max_distance_ = c ∧ nl.max_distance2_ = c * c
      ∧ nl.unitcell_ = Unitcell.ofVectors cell
      ∧ VoxelMap.Holds (fun i => nl.getVoxelIndex (nl.position i)) (List.range N)
          nl.voxelMap_ := by
  unfold NeighborList.construct at h
  simp only at h
  split at h
  · exact absurd h (by simp)
  · split at h
    · split at h
      · exact absurd h (by simp)
      · rw [Option.some.injEq, NeighborList.foldl_addLocation] at h
        subst h
        refine ⟨rfl, rfl, rfl, rfl, ?_⟩
        exact VoxelMap.holds_foldl _ [] (List.range N) [] (VoxelMap.holds_nil _)
    · exact absurd h (by simp)

theorem VoxelMap.holds_entry (key : Nat → Nat) (l : List Nat) (m : VoxelMap)
    (h : VoxelMap.Holds key l m) (e : Nat × List Nat) (he : e ∈ m) :
    e.2 = l.filter (fun i => decide (key i = e.1)) := by
  have hf := (VoxelMap.mem_iff_find m h.1 e.1 e.2).mp he
  rw [h.2 e.1] at hf
  by_cases hnil : l.filter (fun i => decide (key i = e.1)) = []
  · rw [if_pos hnil] at hf
    exact absurd hf (by simp)
  · rw [if_neg hnil] at hf
    exact (Option.some.inj hf).symm

theorem VoxelMap.holds_key_mem (key : Nat → Nat) (l : List Nat) (m : VoxelMap)
    (h : VoxelMap.Holds key l m) (i : Nat) (hi : i ∈ l) : key i ∈ m.map Prod.fst := by
  by_contra hk
  have hf := (VoxelMap.find_eq_none_iff m (key i)).mpr hk
  rw [h.2 (key i)] at hf
  have hmem : i ∈ l.filter (fun j => decide (key j = key i)) := by
    simp [List.mem_filter, hi]
  by_cases hnil : l.filter (fun j => decide (key j = key i)) = []
  · rw [hnil] at hmem
    exact absurd hmem (by simp)
  · rw [if_neg hnil] at hf
    exact absurd hf (by simp)

/-- C10: after construction with `N` points the keys of the voxel map are
pairwise distinct, every point index `i < N` has its key `getVoxelIndex(s_i)`
in the map, every list of the map holds `i` once when its key is that key
and not at all otherwise, and every value in a list is below `N`. -/
theorem construct_voxelMap_partition (sqrtf : ℚ → ℚ) (c : ℚ) (N : Nat) (pos cell : List ℚ)
    (nl : NeighborList) (h : NeighborList.construct sqrtf c N pos cell = some nl) :
    (nl.voxelMap_.map Prod.fst).Nodup
      ∧ (∀ i, i < N → nl.getVoxelIndex (nl.position i) ∈ nl.voxelMap_.map Prod.fst)
      ∧ (∀ e ∈ nl.voxelMap_, ∀ i, i < N →
          e.2.count i = if e.1 = nl.getVoxelIndex (nl.position i) then 1 else 0)
      ∧ (∀ e ∈ nl.voxelMap_, ∀ j ∈ e.2, j < N) := by
  obtain ⟨-, -, -, -, hH⟩ := NeighborList.construct_some sqrtf c N pos cell nl h
  refine ⟨hH.1, ?_, ?_, ?_⟩
  · intro i hi
    exact VoxelMap.holds_key_mem _ _ _ hH i (List.mem_range.mpr hi)
  · intro e he i hi
    rw [VoxelMap.holds_entry _ _ _ hH e he]
    by_cases hk : e.1 = nl.getVoxelIndex (nl.position i)
    · rw [if_pos hk, List.count_filter (by simpa using hk.symm)]
      exact List.count_eq_one_of_mem (List.nodup_range N) (List.mem_range.mpr hi)
    · rw [if_neg hk, List.count_eq_zero]
      intro hmem
      rw [List.mem_filter] at hmem
      have h3 : nl.getVoxelIndex (nl.position i) = e.1 := by simpa using hmem.2
      exact hk h3.symm
  · intro e he j hj
    rw [VoxelMap.holds_entry _ _ _ hH e he, List.mem_filter] at hj
    exact List.mem_range.mp hj.1

/-! ## The two queries -/

theorem foldl_append_flatMap {α β : Type} (g : List β → α → List β)
    (hg : ∀ acc a, g acc a = acc ++ g [] a) (l : List α) (init : List β) :
    l.foldl g init = init ++ l.flatMap (g []) := by
  induction l generalizing init with
  | nil => simp
  | cons a rest ih =>
    rw [List.foldl_cons, ih, hg init a, List.flatMap_cons, List.append_assoc]

theorem NeighborList.gridBody_append (nl : NeighborList) (i : Nat) (acc : List AtomPair)
    (j : Nat) : nl.gridBody i acc j = acc ++ nl.gridBody i [] j := by
  unfold NeighborList.gridBody
  dsimp only
  split_ifs <;> simp

theorem NeighborList.naiveBody_append (nl : NeighborList) (i : Nat) (acc : List AtomPair)
    (j : Nat) : nl.naiveBody i acc j = acc ++ nl.naiveBody i [] j := by
  unfold NeighborList.naiveBody
  dsimp only
  split_ifs <;> simp

theorem NeighborList.scanVoxel_append (nl : NeighborList) (i : Nat) (acc : List AtomPair)
    (x y z : Int) : nl.scanVoxel i acc x y z = acc ++ nl.scanVoxel i [] x y z := by
  unfold NeighborList.scanVoxel
  cases nl.voxelMap_.find (nl.getVoxelIndexInt x y z) with
  | none => simp
  | some voxel =>
    simp only
    rw [foldl_append_flatMap _ (nl.gridBody_append i) voxel acc,
      foldl_append_flatMap _ (nl.gridBody_append i) voxel [], List.nil_append]

/-- The query `getNeighbors(i)` leaves `neighbors` in place and appends what it
appends to the empty list. -/
theorem NeighborList.getNeighbors_eq (nl : NeighborList) (i : Nat) (neighbors : List AtomPair) :
    nl.getNeighbors i neighbors = neighbors ++ nl.getNeighbors i [] := by
  unfold NeighborList.getNeighbors
  dsimp only
  have hz : ∀ (x y : Int) (acc : List AtomPair) (iz : Int),
      nl.scanVoxel i acc x y (wrapIndex iz nl.nz_)
        = acc ++ nl.scanVoxel i [] x y (wrapIndex iz nl.nz_) :=
    fun x y acc iz => nl.scanVoxel_append i acc x y _
  have hy : ∀ (x : Int) (lz : List Int) (acc : List AtomPair) (iy : Int),
      lz.foldl (fun acc iz => nl.scanVoxel i acc x (wrapIndex iy nl.ny_) (wrapIndex iz nl.nz_)) acc
        = acc ++ lz.foldl
            (fun acc iz => nl.scanVoxel i acc x (wrapIndex iy nl.ny_) (wrapIndex iz nl.nz_)) [] := by
    intro x lz acc iy
    rw [foldl_append_flatMap _ (hz x _) lz acc, foldl_append_flatMap _ (hz x _) lz [],
      List.nil_append]
  have hx : ∀ (ly lz : List Int) (acc : List AtomPair) (ix : Int),
      ly.foldl (fun acc iy => lz.foldl (fun acc iz =>
          nl.scanVoxel i acc (wrapIndex ix nl.nx_) (wrapIndex iy nl.ny_) (wrapIndex iz nl.nz_))
            acc) acc
        = acc ++ ly.foldl (fun acc iy => lz.foldl (fun acc iz =>
          nl.scanVoxel i acc (wrapIndex ix nl.nx_) (wrapIndex iy nl.ny_) (wrapIndex iz nl.nz_))
            acc) [] := by
    intro ly lz acc ix
    rw [foldl_append_flatMap _ (hy _ lz) ly acc, foldl_append_flatMap _ (hy _ lz) ly [],
      List.nil_append]
  rw [foldl_append_flatMap _ (hx _ _) _ neighbors, foldl_append_flatMap _ (hx _ _) _ [],
    List.nil_append]

theorem mem_foldl_append {α β : Type} (g : List β → α → List β)
    (hg : ∀ acc a, g acc a = acc ++ g [] a) (l : List α) (p : β) :
    p ∈ l.foldl g [] ↔ ∃ a ∈ l, p ∈ g [] a := by
  rw [foldl_append_flatMap g hg l [], List.nil_append, List.mem_flatMap]

theorem NeighborList.mem_gridBody (nl : NeighborList) (i j : Nat) (p : AtomPair) :
    p ∈ nl.gridBody i [] j
      ↔ i < j ∧ 0 < nl.d2Grid i j ∧ nl.d2Grid i j < nl.max_distance2_
          ∧ p = ⟨i, j, nl.d2Grid i j⟩ := by
  unfold NeighborList.gridBody NeighborList.d2Grid NeighborList.position
  dsimp only
  split_ifs with h1 h2
  · simp only [List.not_mem_nil, false_iff]
    intro h
    omega
  · simp only [List.nil_append, List.mem_singleton]
    constructor
    · intro h
      exact ⟨by omega, h2.1, h2.2, h⟩
    · intro h
      exact h.2.2.2
  · simp only [List.not_mem_nil, false_iff]
    intro h
    exact h2 ⟨h.2.1, h.2.2.1⟩

theorem NeighborList.mem_naiveBody (nl : NeighborList) (i j : Nat) (p : AtomPair) :
    p ∈ nl.naiveBody i [] j
      ↔ 0 < nl.d2Naive i j ∧ nl.d2Naive i j < nl.max_distance2_
          ∧ p = ⟨i, j, nl.d2Naive i j⟩ := by
  unfold NeighborList.naiveBody NeighborList.d2Naive NeighborList.position
  dsimp only
  split_ifs with h2
  · simp only [List.nil_append, List.mem_singleton]
    constructor
    · intro h
      exact ⟨h2.1, h2.2, h⟩
    · intro h
      exact h.2.2
  · simp only [List.not_mem_nil, false_iff]
    intro h
    exact h2 ⟨h.1, h.2.1⟩

theorem NeighborList.mem_scanVoxel (nl : NeighborList) (i : Nat) (x y z : Int) (p : AtomPair) :
    p ∈ nl.scanVoxel i [] x y z
      ↔ ∃ voxel, nl.voxelMap_.find (nl.getVoxelIndexInt x y z) = some voxel
          ∧ ∃ j ∈ voxel, p ∈ nl.gridBody i [] j := by
  unfold NeighborList.scanVoxel
  cases nl.voxelMap_.find (nl.getVoxelIndexInt x y z) with
  | none => simp
  | some voxel =>
    simp only [Option.some.injEq, exists_eq_left']
    exact mem_foldl_append _ (nl.gridBody_append i) voxel p

/-- A pair is appended by `getNeighbors(i)` exactly when one of the visits
`ix`, `iy`, `iz` in `center ± d_index` appends it from the wrapped voxel. -/
theorem NeighborList.mem_getNeighbors (nl : NeighborList) (i : Nat) (p : AtomPair) :
    p ∈ nl.getNeighbors i []
      ↔ ∃ ix ∈ intRange ((nl.getVoxelIndexVector (nl.position i)).x - nl.d_index_.x)
            ((nl.getVoxelIndexVector (nl.position i)).x + nl.d_index_.x),
        ∃ iy ∈ intRange ((nl.getVoxelIndexVector (nl.position i)).y - nl.d_index_.y)
            ((nl.getVoxelIndexVector (nl.position i)).y + nl.d_index_.y),
        ∃ iz ∈ intRange ((nl.getVoxelIndexVector (nl.position i)).z - nl.d_index_.z)
            ((nl.getVoxelIndexVector (nl.position i)).z + nl.d_index_.z),
          p ∈ nl.scanVoxel i [] (wrapIndex ix nl.nx_) (wrapIndex iy nl.ny_)
            (wrapIndex iz nl.nz_) := by
  unfold NeighborList.getNeighbors NeighborList.position
  dsimp only
  have hz : ∀ (x y : Int) (acc : List AtomPair) (iz : Int),
      nl.scanVoxel i acc x y (wrapIndex iz nl.nz_)
        = acc ++ nl.scanVoxel i [] x y (wrapIndex iz nl.nz_) :=
    fun x y acc iz => nl.scanVoxel_append i acc x y _
  have hy : ∀ (x : Int) (lz : List Int) (acc : List AtomPair) (iy : Int),
      lz.foldl (fun acc iz => nl.scanVoxel i acc x (wrapIndex iy nl.ny_) (wrapIndex iz nl.nz_)) acc
        = acc ++ lz.foldl
            (fun acc iz => nl.scanVoxel i acc x (wrapIndex iy nl.ny_) (wrapIndex iz nl.nz_)) [] := by
    intro x lz acc iy
    rw [foldl_append_flatMap _ (hz x _) lz acc, foldl_append_flatMap _ (hz x _) lz [],
      List.nil_append]
  have hx : ∀ (ly lz : List Int) (acc : List AtomPair) (ix : Int),
      ly.foldl (fun acc iy => lz.foldl (fun acc iz =>
          nl.scanVoxel i acc (wrapIndex ix nl.nx_) (wrapIndex iy nl.ny_) (wrapIndex iz nl.nz_))
            acc) acc
        = acc ++ ly.foldl (fun acc iy => lz.foldl (fun acc iz =>
          nl.scanVoxel i acc (wrapIndex ix nl.nx_) (wrapIndex iy nl.ny_) (wrapIndex iz nl.nz_))
            acc) [] := by
    intro ly lz acc ix
    rw [foldl_append_flatMap _ (hy _ lz) ly acc, foldl_append_flatMap _ (hy _ lz) ly [],
      List.nil_append]
  rw [mem_foldl_append _ (hx _ _)]
  refine exists_congr (fun ix => and_congr_right (fun _ => ?_))
  rw [mem_foldl_append _ (hy _ _)]
  refine exists_congr (fun iy => and_congr_right (fun _ => ?_))
  rw [mem_foldl_append _ (hz _ _)]

/-- The query `getNeighborsNaive(i)` leaves `neighbors` in place and appends
what it appends to the empty list. -/
theorem NeighborList.getNeighborsNaive_eq (nl : NeighborList) (i : Nat)
    (neighbors : List AtomPair) :
    nl.getNeighborsNaive i neighbors = neighbors ++ nl.getNeighborsNaive i [] := by
  unfold NeighborList.getNeighborsNaive
  rw [foldl_append_flatMap _ (nl.naiveBody_append i) _ neighbors,
    foldl_append_flatMap _ (nl.naiveBody_append i) _ [], List.nil_append]

theorem NeighborList.mem_getNeighborsNaive (nl : NeighborList) (i : Nat) (p : AtomPair) :
    p ∈ nl.getNeighborsNaive i []
      ↔ ∃ j, i < j ∧ j < nl.n_atoms_ ∧ p ∈ nl.naiveBody i [] j := by
  unfold NeighborList.getNeighborsNaive
  rw [mem_foldl_append _ (nl.naiveBody_append i)]
  constructor
  · rintro ⟨j, hj, hp⟩
    rw [List.mem_range'_1] at hj
    exact ⟨j, by omega, by omega, hp⟩
  · rintro ⟨j, h1, h2, hp⟩
    exact ⟨j, by rw [List.mem_range'_1]; omega, hp⟩

theorem VoxelMap.holds_find_lt (key : Nat → Nat) (N : Nat) (m : VoxelMap)
    (h : VoxelMap.Holds key (List.range N) m) (k : Nat) (voxel : List Nat)
    (hf : m.find k = some voxel) (j : Nat) (hj : j ∈ voxel) : j < N := by
  have he : voxel = (List.range N).filter (fun i => decide (key i = k)) :=
    VoxelMap.holds_entry key _ m h (k, voxel) ((VoxelMap.mem_iff_find m h.1 k voxel).mpr hf)
  rw [he, List.mem_filter] at hj
  exact List.mem_range.mp hj.1

/-- C2: for a constructed list with cutoff `c` and `N` points, every pair that
`getNeighbors(i)` or `getNeighborsNaive(i)` appends to `neighbors` has first
index `i`, second index `j` with `i < j < N`, and as `d2` the squared distance
computed for `j`, with `0 < d2 < c*c`; a candidate `j` whose squared distance
is exactly `0` or exactly `c*c` is not appended. -/
theorem query_pairs_bounds (sqrtf : ℚ → ℚ) (c : ℚ) (N : Nat) (pos cell : List ℚ)
    (nl : NeighborList) (h : NeighborList.construct sqrtf c N pos cell = some nl)
    (i : Nat) (neighbors : List AtomPair) :
    (∃ added, nl.getNeighbors i neighbors = neighbors ++ added
        ∧ (∀ p ∈ added, p.i = i ∧ i < p.j ∧ p.j < N ∧ p.d2 = nl.d2Grid i p.j
            ∧ 0 < p.d2 ∧ p.d2 < c * c)
        ∧ (∀ j, nl.d2Grid i j = 0 ∨ nl.d2Grid i j = c * c → ∀ p ∈ added, p.j ≠ j))
      ∧ (∃ added, nl.getNeighborsNaive i neighbors = neighbors ++ added
        ∧ (∀ p ∈ added, p.i = i ∧ i < p.j ∧ p.j < N ∧ p.d2 = nl.d2Naive i p.j
            ∧ 0 < p.d2 ∧ p.d2 < c * c)
        ∧ (∀ j, nl.d2Naive i j = 0 ∨ nl.d2Naive i j = c * c → ∀ p ∈ added, p.j ≠ j)) := by
  obtain ⟨hN, -, hc2, -, hH⟩ := NeighborList.construct_some sqrtf c N pos cell nl h
  have hgrid : ∀ p ∈ nl.getNeighbors i [], p.i = i ∧ i < p.j ∧ p.j < N
      ∧ p.d2 = nl.d2Grid i p.j ∧ 0 < p.d2 ∧ p.d2 < c * c := by
    intro p hp
    obtain ⟨ix, -, iy, -, iz, -, hs⟩ := (nl.mem_getNeighbors i p).mp hp
    obtain ⟨voxel, hf, j, hj, hb⟩ := (nl.mem_scanVoxel i _ _ _ p).mp hs
    obtain ⟨hij, h0, h1, rfl⟩ := (nl.mem_gridBody i j p).mp hb
    rw [hc2] at h1
    exact ⟨rfl, hij, VoxelMap.holds_find_lt _ N _ hH _ voxel hf j hj, rfl, h0, h1⟩
  have hnaive : ∀ p ∈ nl.getNeighborsNaive i [], p.i = i ∧ i < p.j ∧ p.j < N
      ∧ p.d2 = nl.d2Naive i p.j ∧ 0 < p.d2 ∧ p.d2 < c * c := by
    intro p hp
    obtain ⟨j, hij, hjN, hb⟩ := (nl.mem_getNeighborsNaive i p).mp hp
    obtain ⟨h0, h1, rfl⟩ := (nl.mem_naiveBody i j p).mp hb
    rw [hc2] at h1
    rw [hN] at hjN
    exact ⟨rfl, hij, hjN, rfl, h0, h1⟩
  refine ⟨⟨nl.getNeighbors i [], nl.getNeighbors_eq i neighbors, hgrid, ?_⟩,
    ⟨nl.getNeighborsNaive i [], nl.getNeighborsNaive_eq i neighbors, hnaive, ?_⟩⟩
  · intro j hj p hp hpj
    obtain ⟨-, -, -, hd, h0, h1⟩ := hgrid p hp
    rw [hpj] at hd
    rcases hj with hj | hj
    · rw [hd, hj] at h0
      exact lt_irrefl _ h0
    · rw [hd, hj] at h1
      exact lt_irrefl _ h1
  · intro j hj p hp hpj
    obtain ⟨-, -, -, hd, h0, h1⟩ := hnaive p hp
    rw [hpj] at hd
    rcases hj with hj | hj
    · rw [hd, hj] at h0
      exact lt_irrefl _ h0
    · rw [hd, hj] at h1
      exact lt_irrefl _ h1

theorem flatMap_ite_singleton {α β : Type} (P : α → Prop) [DecidablePred P] (f : α → β)
    (l : List α) :
    l.flatMap (fun a => if P a then [f a] else []) = (l.filter (fun a => decide (P a))).map f := by
  induction l with
  | nil => rfl
  | cons a rest ih =>
    rw [List.flatMap_cons, ih]
    by_cases h : P a
    · simp [h]
    · simp [h]

theorem range_filter_lt (i N : Nat) :
    (List.range N).filter (fun j => decide (i < j)) = List.range' (i + 1) (N - (i + 1)) := by
  induction N with
  | zero => simp
  | succ N ih =>
    rw [List.range_succ, List.filter_append, ih]
    by_cases h : i < N
    · have hN : N + 1 - (i + 1) = (N - (i + 1)) + 1 := by omega
      rw [hN, List.range'_concat]
      have h3 : i + 1 + 1 * (N - (i + 1)) = N := by omega
      rw [h3]
      simp [h]
    · have hN : N + 1 - (i + 1) = 0 := by omega
      have hN2 : N - (i + 1) = 0 := by omega
      simp [h, hN, hN2]

theorem NeighborList.d2Naive_eq (nl : NeighborList) (i j : Nat) :
    nl.d2Naive i j = minImageD2 nl.unitcell_ (nl.position i) (nl.position j) := by
  unfold NeighborList.d2Naive minImageD2 minimumImage dot3
  dsimp only
  ring

/-- C4: for a constructed list with cutoff `c` and `N` points,
`getNeighborsNaive(i)` appends to `neighbors` exactly the pairs `(i, j, d2)`
of the `j` with `i < j < N` and `0 < d2 < c²`, where `d2` is the squared length
of `from_recip(s12 - round(s12))`, `s12 = s_i - s_j`, once each and with
strictly ascending `j`. -/
theorem getNeighborsNaive_spec (sqrtf : ℚ → ℚ) (c : ℚ) (N : Nat) (pos cell : List ℚ)
    (nl : NeighborList) (h : NeighborList.construct sqrtf c N pos cell = some nl)
    (i : Nat) (neighbors : List AtomPair) :
    nl.getNeighborsNaive i neighbors
        = neighbors ++ naiveSpec nl.unitcell_ nl.position N c i
      ∧ (naiveSpec nl.unitcell_ nl.position N c i).Pairwise (fun p q => p.j < q.j) := by
  obtain ⟨hN, -, hc2, -, -⟩ := NeighborList.construct_some sqrtf c N pos cell nl h
  constructor
  · have hbody : ∀ j, nl.naiveBody i [] j
        = if 0 < minImageD2 nl.unitcell_ (nl.position i) (nl.position j)
              ∧ minImageD2 nl.unitcell_ (nl.position i) (nl.position j) < c ^ 2
          then [⟨i, j, minImageD2 nl.unitcell_ (nl.position i) (nl.position j)⟩] else [] := by
      intro j
      rw [← nl.d2Naive_eq i j, pow_two, ← hc2]
      unfold NeighborList.naiveBody NeighborList.d2Naive NeighborList.position
      dsimp only
      split_ifs <;> simp
    unfold NeighborList.getNeighborsNaive
    rw [foldl_append_flatMap _ (nl.naiveBody_append i) _ neighbors, hN]
    congr 1
    rw [show nl.naiveBody i [] = fun j => nl.naiveBody i [] j from rfl]
    simp only [hbody]
    rw [flatMap_ite_singleton, ← range_filter_lt, List.filter_filter]
    unfold naiveSpec
    congr 2
    funext j
    simp only [Bool.decide_and]
    rw [Bool.and_comm]
  · unfold naiveSpec
    rw [List.pairwise_map]
    exact List.Pairwise.sublist (List.filter_sublist _) (List.pairwise_lt_range N)

/-! ## Minimum image -/

theorem roundf_eq_floor (q : ℚ) (hq : ∀ m : Int, q ≠ m + 1 / 2) : roundf q = ⌊q + 1 / 2⌋ := by
  unfold roundf
  split_ifs with h0
  · rfl
  · rw [Int.ceil_eq_iff]
    constructor
    · have h1 : (⌊q + 1 / 2⌋ : ℚ) ≤ q + 1 / 2 := Int.floor_le _
      have h2 : (⌊q + 1 / 2⌋ : ℚ) ≠ q + 1 / 2 := by
        intro heq
        apply hq (⌊q + 1 / 2⌋ - 1)
        push_cast
        linarith
      have h3 : (⌊q + 1 / 2⌋ : ℚ) < q + 1 / 2 := lt_of_le_of_ne h1 h2
      linarith
    · have h1 : q + 1 / 2 < ⌊q + 1 / 2⌋ + 1 := Int.lt_floor_add_one _
      linarith

theorem roundf_sub_int (q : ℚ) (k : Int) (hq : ∀ m : Int, q ≠ m + 1 / 2) :
    roundf (q - k) = roundf q - k := by
  have hqk : ∀ m : Int, q - k ≠ m + 1 / 2 := by
    intro m heq
    apply hq (m + k)
    push_cast
    linarith
  rw [roundf_eq_floor q hq, roundf_eq_floor (q - k) hqk]
  rw [show q - (k : ℚ) + 1 / 2 = q + 1 / 2 - k by ring, Int.floor_sub_int]

/-- At a tie the wrapped component `q - round(q)` is `1/2` or `-1/2`. -/
theorem wrap_sq_of_tie (q : ℚ) (m : Int) (h : q = m + 1 / 2) :
    (q - roundf q) ^ 2 = 1 / 4 := by
  unfold roundf
  split_ifs with h0
  · have hf : ⌊q + 1 / 2⌋ = m + 1 := by
      rw [h, show (m : ℚ) + 1 / 2 + 1 / 2 = ((m + 1 : Int) : ℚ) by push_cast; ring]
      exact Int.floor_intCast _
    rw [hf, h]
    push_cast
    ring
  · have hc : ⌈q - 1 / 2⌉ = m := by
      rw [h, show (m : ℚ) + 1 / 2 - 1 / 2 = ((m : Int) : ℚ) by ring]
      exact Int.ceil_intCast _
    rw [hc, h]
    ring

/-- The square of the wrapped component is invariant under integer shifts. -/
theorem wrap_sq_sub_int (q : ℚ) (k : Int) :
    (q - k - roundf (q - k)) ^ 2 = (q - roundf q) ^ 2 := by
  by_cases ht : ∃ m : Int, q = m + 1 / 2
  · obtain ⟨m, hm⟩ := ht
    have hk : q - k = ((m - k : Int) : ℚ) + 1 / 2 := by
      rw [hm]
      push_cast
      ring
    rw [wrap_sq_of_tie q m hm, wrap_sq_of_tie (q - k) (m - k) hk]
  · have hq : ∀ m : Int, q ≠ m + 1 / 2 := fun m hm => ht ⟨m, hm⟩
    rw [roundf_sub_int q k hq]
    push_cast
    ring_nf

theorem fvec4.sub_x (a b : fvec4) : (a - b).x = a.x - b.x := rfl

theorem fvec4.sub_y (a b : fvec4) : (a - b).y = a.y - b.y := rfl

theorem fvec4.sub_z (a b : fvec4) : (a - b).z = a.z - b.z := rfl

theorem fvec4.sub_w (a b : fvec4) : (a - b).w = a.w - b.w := rfl

theorem minimumImage_shift (u : Unitcell) (si sj : fvec4) (kx ky kz : Int)
    (hx : ∀ m : Int, si.x - sj.x ≠ m + 1 / 2) (hy : ∀ m : Int, si.y - sj.y ≠ m + 1 / 2)
    (hz : ∀ m : Int, si.z - sj.z ≠ m + 1 / 2) :
    minimumImage u si ⟨sj.x + kx, sj.y + ky, sj.z + kz, sj.w⟩ = minimumImage u si sj := by
  have ex : si.x - (sj.x + kx) = si.x - sj.x - kx := by ring
  have ey : si.y - (sj.y + ky) = si.y - sj.y - ky := by ring
  have ez : si.z - (sj.z + kz) = si.z - sj.z - kz := by ring
  unfold minimumImage Unitcell.from_recip round
  simp only [fvec4.sub_x, fvec4.sub_y, fvec4.sub_z, fvec4.sub_w, ex, ey, ez,
    roundf_sub_int _ _ hx, roundf_sub_int _ _ hy, roundf_sub_int _ _ hz]
  push_cast
  congr 1 <;> ring

/-- In an orthogonal cell the squared length of `from_recip(w)` is a
combination of the squares of the components of `w`. -/
theorem dot3_from_recip_orthogonal (u : Unitcell) (ho : u.Orthogonal) (w : fvec4) :
    dot3 (u.from_recip w) (u.from_recip w)
        = w.x ^ 2 * dot3 u.a u.a + w.y ^ 2 * dot3 u.b u.b + w.z ^ 2 * dot3 u.c u.c
      ∧ dot4 (u.from_recip w) (u.from_recip w)
        = w.x ^ 2 * dot3 u.a u.a + w.y ^ 2 * dot3 u.b u.b + w.z ^ 2 * dot3 u.c u.c := by
  obtain ⟨hab, hac, hbc, haw, hbw, hcw⟩ := ho
  have e3 : dot3 (u.from_recip w) (u.from_recip w)
      = w.x ^ 2 * dot3 u.a u.a + w.y ^ 2 * dot3 u.b u.b + w.z ^ 2 * dot3 u.c u.c
        + 2 * w.x * w.y * dot3 u.a u.b + 2 * w.x * w.z * dot3 u.a u.c
        + 2 * w.y * w.z * dot3 u.b u.c := by
    unfold dot3 Unitcell.from_recip
    ring
  have e4 : dot4 (u.from_recip w) (u.from_recip w)
      = dot3 (u.from_recip w) (u.from_recip w)
        + (w.x * u.a.w + w.y * u.b.w + w.z * u.c.w) ^ 2 := by
    unfold dot4 dot3 Unitcell.from_recip
    ring
  constructor
  · rw [e3, hab, hac, hbc]
    ring
  · rw [e4, e3, hab, hac, hbc, haw, hbw, hcw]
    ring

/-- C5 (amended): for every cell, every pair of fractional positions `s_i`,
`s_j` and every integer vector `k`, provided that the lattice vectors are
mutually orthogonal or that no component of `s_i - s_j` is an integer plus one
half, the squared distance computed from `s_i` and `s_j + k` equals the one
computed from `s_i` and `s_j`, with `dot3` as in `getNeighborsNaive` and with
`dot4` as in `getNeighbors`. -/
theorem minimumImage_lattice_invariant (u : Unitcell) (si sj : fvec4) (kx ky kz : Int)
    (h : u.Orthogonal ∨ ((∀ m : Int, si.x - sj.x ≠ m + 1 / 2)
      ∧ (∀ m : Int, si.y - sj.y ≠ m + 1 / 2) ∧ (∀ m : Int, si.z - sj.z ≠ m + 1 / 2))) :
    dot3 (minimumImage u si ⟨sj.x + kx, sj.y + ky, sj.z + kz, sj.w⟩)
        (minimumImage u si ⟨sj.x + kx, sj.y + ky, sj.z + kz, sj.w⟩)
      = dot3 (minimumImage u si sj) (minimumImage u si sj)
    ∧ dot4 (minimumImage u si ⟨sj.x + kx, sj.y + ky, sj.z + kz, sj.w⟩)
        (minimumImage u si ⟨sj.x + kx, sj.y + ky, sj.z + kz, sj.w⟩)
      = dot4 (minimumImage u si sj) (minimumImage u si sj) := by
  rcases h with ho | ⟨hx, hy, hz⟩
  · have ex : si.x - (sj.x + kx) = si.x - sj.x - kx := by ring
    have ey : si.y - (sj.y + ky) = si.y - sj.y - ky := by ring
    have ez : si.z - (sj.z + kz) = si.z - sj.z - kz := by ring
    unfold minimumImage
    dsimp only
    rw [(dot3_from_recip_orthogonal u ho _).1, (dot3_from_recip_orthogonal u ho _).2,
      (dot3_from_recip_orthogonal u ho _).1, (dot3_from_recip_orthogonal u ho _).2]
    simp only [fvec4.sub_x, fvec4.sub_y, fvec4.sub_z, round, ex, ey, ez,
      wrap_sq_sub_int, and_self]
  · rw [minimumImage_shift u si sj kx ky kz hx hy hz]
    exact ⟨rfl, rfl⟩

/-- C5 (as stated) fails: in the cell with lattice vectors `(10,0,0)`,
`(10,10,0)`, `(0,0,10)`, for `s_i = (1/2, 1/4, 0)` and `s_j = 0` the squared
distance is `25/2`, and after the shift of `s_j` by the lattice vector
`k = (1,0,0)` it is `125/2`. -/
theorem minimumImage_lattice_counterexample :
    dot3 (minimumImage (Unitcell.ofVectors [10, 0, 0, 10, 10, 0, 0, 0, 10])
          ⟨1 / 2, 1 / 4, 0, 0⟩ ⟨0, 0, 0, 0⟩)
        (minimumImage (Unitcell.ofVectors [10, 0, 0, 10, 10, 0, 0, 0, 10])
          ⟨1 / 2, 1 / 4, 0, 0⟩ ⟨0, 0, 0, 0⟩) = 25 / 2
    ∧ dot3 (minimumImage (Unitcell.ofVectors [10, 0, 0, 10, 10, 0, 0, 0, 10])
          ⟨1 / 2, 1 / 4, 0, 0⟩ ⟨0 + (1 : Int), 0 + (0 : Int), 0 + (0 : Int), 0⟩)
        (minimumImage (Unitcell.ofVectors [10, 0, 0, 10, 10, 0, 0, 0, 10])
          ⟨1 / 2, 1 / 4, 0, 0⟩ ⟨0 + (1 : Int), 0 + (0 : Int), 0 + (0 : Int), 0⟩) = 125 / 2
    ∧ ¬ (dot3 (minimumImage (Unitcell.ofVectors [10, 0, 0, 10, 10, 0, 0, 0, 10])
          ⟨1 / 2, 1 / 4, 0, 0⟩ ⟨0 + (1 : Int), 0 + (0 : Int), 0 + (0 : Int), 0⟩)
        (minimumImage (Unitcell.ofVectors [10, 0, 0, 10, 10, 0, 0, 0, 10])
          ⟨1 / 2, 1 / 4, 0, 0⟩ ⟨0 + (1 : Int), 0 + (0 : Int), 0 + (0 : Int), 0⟩)
      = dot3 (minimumImage (Unitcell.ofVectors [10, 0, 0, 10, 10, 0, 0, 0, 10])
          ⟨1 / 2, 1 / 4, 0, 0⟩ ⟨0, 0, 0, 0⟩)
        (minimumImage (Unitcell.ofVectors [10, 0, 0, 10, 10, 0, 0, 0, 10])
          ⟨1 / 2, 1 / 4, 0, 0⟩ ⟨0, 0, 0, 0⟩)) := by
  decide!

/-- C5 (amended), at a tie in the orthogonal cell `diag(10,10,10)`:
`s_i = (1/2, 1/4, 0)`, `s_j = 0`, `k = (1,0,0)`; both distances are `125/4`. -/
theorem minimumImage_lattice_invariant_witness :
    dot3 (minimumImage (Unitcell.ofVectors [10, 0, 0, 0, 10, 0, 0, 0, 10])
          ⟨1 / 2, 1 / 4, 0, 0⟩ ⟨0, 0, 0, 0⟩)
        (minimumImage (Unitcell.ofVectors [10, 0, 0, 0, 10, 0, 0, 0, 10])
          ⟨1 / 2, 1 / 4, 0, 0⟩ ⟨0, 0, 0, 0⟩) = 125 / 4
    ∧ dot3 (minimumImage (Unitcell.ofVectors [10, 0, 0, 0, 10, 0, 0, 0, 10])
          ⟨1 / 2, 1 / 4, 0, 0⟩ ⟨0 + (1 : Int), 0 + (0 : Int), 0 + (0 : Int), 0⟩)
        (minimumImage (Unitcell.ofVectors [10, 0, 0, 0, 10, 0, 0, 0, 10])
          ⟨1 / 2, 1 / 4, 0, 0⟩ ⟨0 + (1 : Int), 0 + (0 : Int), 0 + (0 : Int), 0⟩)
      = dot3 (minimumImage (Unitcell.ofVectors [10, 0, 0, 0, 10, 0, 0, 0, 10])
          ⟨1 / 2, 1 / 4, 0, 0⟩ ⟨0, 0, 0, 0⟩)
        (minimumImage (Unitcell.ofVectors [10, 0, 0, 0, 10, 0, 0, 0, 10])
          ⟨1 / 2, 1 / 4, 0, 0⟩ ⟨0, 0, 0, 0⟩) :=
  ⟨by decide!,
    (minimumImage_lattice_invariant (Unitcell.ofVectors [10, 0, 0, 0, 10, 0, 0, 0, 10])
      ⟨1 / 2, 1 / 4, 0, 0⟩ ⟨0, 0, 0, 0⟩ 1 0 0
      (Or.inl (by unfold Unitcell.Orthogonal; decide!))).1⟩

/-! ## Grid sizing and voxel indices -/

/-! ### Binary32 rounding -/

theorem log2Fuel_spec (fuel n : Nat) (hn : 0 < n) (hf : n ≤ fuel) :
    2 ^ log2Fuel fuel n ≤ n ∧ n < 2 ^ (log2Fuel fuel n + 1) := by
  induction fuel generalizing n with
  | zero => omega
  | succ k ih =>
    unfold log2Fuel
    split_ifs with h
    · constructor <;> simp <;> omega
    · have h2 : 0 < n / 2 := by omega
      have h3 : n / 2 ≤ k := by omega
      obtain ⟨a, b⟩ := ih (n / 2) h2 h3
      constructor
      · rw [pow_succ]; omega
      · rw [pow_succ]; omega

theorem ilog2_spec (q : ℚ) (hq : 0 < q) :
    (2 : ℚ) ^ ilog2 q ≤ q ∧ q < (2 : ℚ) ^ (ilog2 q + 1) := by
  have hnum : 0 < q.num := Rat.num_pos.mpr hq
  have ha : 0 < q.num.natAbs := Int.natAbs_pos.mpr (ne_of_gt hnum)
  have hb : 0 < q.den := q.den_pos
  obtain ⟨a1, a2⟩ := log2Fuel_spec q.num.natAbs q.num.natAbs ha le_rfl
  obtain ⟨b1, b2⟩ := log2Fuel_spec q.den q.den hb le_rfl
  have hqa : q = (q.num.natAbs : ℚ) / (q.den : ℚ) := by
    have h1 : ((q.num.natAbs : Int) : ℚ) = (q.num : ℚ) := by
      rw [Int.natAbs_of_nonneg (le_of_lt hnum)]
    have h2 : (q.num.natAbs : ℚ) = ((q.num.natAbs : Int) : ℚ) := (Int.cast_natCast _).symm
    rw [h2, h1]
    exact (Rat.num_div_den q).symm
  set la := log2Fuel q.num.natAbs q.num.natAbs with hla
  set lb := log2Fuel q.den q.den with hlb
  have A1 : (2 : ℚ) ^ la ≤ (q.num.natAbs : ℚ) := by exact_mod_cast a1
  have A2 : (q.num.natAbs : ℚ) < (2 : ℚ) ^ (la + 1) := by exact_mod_cast a2
  have B1 : (2 : ℚ) ^ lb ≤ (q.den : ℚ) := by exact_mod_cast b1
  have B2 : (q.den : ℚ) < (2 : ℚ) ^ (lb + 1) := by exact_mod_cast b2
  have hbq : (0 : ℚ) < (q.den : ℚ) := by exact_mod_cast hb
  have hpa : (0 : ℚ) < (2 : ℚ) ^ la := by positivity
  have hpb : (0 : ℚ) < (2 : ℚ) ^ lb := by positivity
  have e0 : (2 : ℚ) ^ ((la : Int) - (lb : Int)) = (2 : ℚ) ^ la / (2 : ℚ) ^ lb := by
    rw [zpow_sub₀ (by norm_num : (2 : ℚ) ≠ 0), zpow_natCast, zpow_natCast]
  have e1 : (2 : ℚ) ^ ((la : Int) - (lb : Int) + 1) = (2 : ℚ) ^ (la + 1) / (2 : ℚ) ^ lb := by
    rw [zpow_add_one₀ (by norm_num : (2 : ℚ) ≠ 0), e0, pow_succ]; ring
  have em : (2 : ℚ) ^ ((la : Int) - (lb : Int) - 1) = (2 : ℚ) ^ la / (2 : ℚ) ^ (lb + 1) := by
    rw [zpow_sub_one₀ (by norm_num : (2 : ℚ) ≠ 0), e0, pow_succ]; field_simp
  have habs : |q| = q := abs_of_pos hq
  unfold ilog2
  simp only [← hla, ← hlb, habs]
  split_ifs with h
  · refine ⟨h, ?_⟩
    rw [e1]
    conv_lhs => rw [hqa]
    rw [div_lt_div_iff₀ hbq hpb]
    calc (q.num.natAbs : ℚ) * (2 : ℚ) ^ lb ≤ (q.num.natAbs : ℚ) * (q.den : ℚ) :=
          mul_le_mul_of_nonneg_left B1 (by positivity)
      _ < (2 : ℚ) ^ (la + 1) * (q.den : ℚ) := mul_lt_mul_of_pos_right A2 hbq
  · push_neg at h
    refine ⟨?_, ?_⟩
    · rw [em]
      conv_rhs => rw [hqa]
      rw [div_le_div_iff₀ (by positivity) hbq]
      calc (2 : ℚ) ^ la * (q.den : ℚ) ≤ (q.num.natAbs : ℚ) * (q.den : ℚ) :=
            mul_le_mul_of_nonneg_right A1 (le_of_lt hbq)
        _ ≤ (q.num.natAbs : ℚ) * (2 : ℚ) ^ (lb + 1) :=
            mul_le_mul_of_nonneg_left (le_of_lt B2) (by positivity)
    · have : (la : Int) - (lb : Int) - 1 + 1 = (la : Int) - (lb : Int) := by ring
      rw [this]; exact h

theorem roundHalfEven_le (x : ℚ) : (roundHalfEven x : ℚ) ≤ x + 1 / 2 := by
  have h1 := Int.floor_le x
  have h2 := Int.lt_floor_add_one x
  unfold roundHalfEven
  simp only
  split_ifs <;> push_cast <;> linarith

theorem roundHalfEven_ge (x : ℚ) : x - 1 / 2 ≤ (roundHalfEven x : ℚ) := by
  have h1 := Int.floor_le x
  have h2 := Int.lt_floor_add_one x
  unfold roundHalfEven
  simp only
  split_ifs <;> push_cast <;> linarith

theorem floor_le_roundHalfEven (x : ℚ) : ⌊x⌋ ≤ roundHalfEven x := by
  unfold roundHalfEven
  simp only
  split_ifs <;> omega

theorem roundHalfEven_intCast (k : Int) : roundHalfEven (k : ℚ) = k := by
  unfold roundHalfEven
  simp

theorem two_zpow_sub_23 (e : Int) : (2 : ℚ) ^ (e - 23) = (2 : ℚ) ^ e / 8388608 := by
  rw [zpow_sub₀ (by norm_num : (2 : ℚ) ≠ 0)]; norm_num

theorem rnd32_pos_core (x : ℚ) (hx : 0 < x) :
    ∃ v : ℚ, rnd32 x = (if (2 : ℚ) ^ (128 : Int) ≤ v then FloatVal.inf false
        else FloatVal.finite v)
      ∧ x - (2 : ℚ) ^ (max (ilog2 x) (-126)) / 16777216 ≤ v
      ∧ v ≤ x + (2 : ℚ) ^ (max (ilog2 x) (-126)) / 16777216
      ∧ ((⌊x / ((2 : ℚ) ^ (max (ilog2 x) (-126)) / 8388608)⌋ : Int) : ℚ)
          * ((2 : ℚ) ^ (max (ilog2 x) (-126)) / 8388608) ≤ v := by
  set E : ℚ := (2 : ℚ) ^ (max (ilog2 x) (-126)) with hE
  have hEpos : 0 < E := by positivity
  have hulp : (2 : ℚ) ^ (max (ilog2 x) (-126) - 23) = E / 8388608 := two_zpow_sub_23 _
  have hu : 0 < E / 8388608 := by positivity
  refine ⟨(roundHalfEven (x / (E / 8388608)) : ℚ) * (E / 8388608), ?_, ?_, ?_, ?_⟩
  · unfold rnd32
    have hd : decide (x < 0) = false := decide_eq_false (not_lt.mpr (le_of_lt hx))
    simp only [hulp, abs_of_pos hx, if_neg (ne_of_gt hx), if_neg (not_lt.mpr (le_of_lt hx)), hd]
  · have h := roundHalfEven_ge (x / (E / 8388608))
    have h2 := mul_le_mul_of_nonneg_right h (le_of_lt hu)
    have h3 : (x / (E / 8388608) - 1 / 2) * (E / 8388608) = x - E / 16777216 := by
      field_simp; ring
    linarith
  · have h := roundHalfEven_le (x / (E / 8388608))
    have h2 := mul_le_mul_of_nonneg_right h (le_of_lt hu)
    have h3 : (x / (E / 8388608) + 1 / 2) * (E / 8388608) = x + E / 16777216 := by
      field_simp; ring
    linarith
  · have h := floor_le_roundHalfEven (x / (E / 8388608))
    have h' : ((⌊x / (E / 8388608)⌋ : Int) : ℚ) ≤ (roundHalfEven (x / (E / 8388608)) : ℚ) := by
      exact_mod_cast h
    exact mul_le_mul_of_nonneg_right h' (le_of_lt hu)

theorem ilog2_ge_of_le (x : ℚ) (k : Int) (hk : (2 : ℚ) ^ k ≤ x) : k ≤ ilog2 x := by
  have hx : 0 < x := lt_of_lt_of_le (by positivity) hk
  have h := (ilog2_spec x hx).2
  have h2 : (2 : ℚ) ^ k < (2 : ℚ) ^ (ilog2 x + 1) := lt_of_le_of_lt hk h
  have h3 := (zpow_lt_zpow_iff_right₀ (by norm_num : (1 : ℚ) < 2)).mp h2
  omega

theorem ilog2_lt_of_lt (x : ℚ) (k : Int) (hx : 0 < x) (hk : x < (2 : ℚ) ^ k) : ilog2 x < k := by
  have h := (ilog2_spec x hx).1
  have h2 : (2 : ℚ) ^ (ilog2 x) < (2 : ℚ) ^ k := lt_of_le_of_lt h hk
  exact (zpow_lt_zpow_iff_right₀ (by norm_num : (1 : ℚ) < 2)).mp h2

/-- In the normal range a positive value is rounded with relative error at
most `2^-24`, and not below the power of two under it. -/
theorem rnd32_normal (x : ℚ) (h1 : (2 : ℚ) ^ (-126 : Int) ≤ x) (h2 : x ≤ (2 : ℚ) ^ (127 : Int)) :
    ∃ y : ℚ, rnd32 x = FloatVal.finite y ∧ x * (1 - 1 / 16777216) ≤ y
      ∧ y ≤ x * (1 + 1 / 16777216) ∧ (2 : ℚ) ^ ilog2 x ≤ y := by
  have hx : 0 < x := lt_of_lt_of_le (by positivity) h1
  obtain ⟨v, hv, hlo, hhi, hfl⟩ := rnd32_pos_core x hx
  have he : -126 ≤ ilog2 x := ilog2_ge_of_le x _ h1
  have hmax : max (ilog2 x) (-126) = ilog2 x := max_eq_left he
  rw [hmax] at hlo hhi hfl
  have hE := (ilog2_spec x hx).1
  set E : ℚ := (2 : ℚ) ^ (ilog2 x) with hEdef
  have hEpos : 0 < E := by positivity
  have hvlt : ¬ (2 : ℚ) ^ (128 : Int) ≤ v := by
    have : (2 : ℚ) ^ (128 : Int) = 2 * (2 : ℚ) ^ (127 : Int) := by norm_num
    rw [this]
    have h127 : (0 : ℚ) < (2 : ℚ) ^ (127 : Int) := by positivity
    intro hcon
    have : v ≤ x + x / 16777216 := by
      have : E / 16777216 ≤ x / 16777216 := by
        apply div_le_div_of_nonneg_right hE (by norm_num)
      linarith
    linarith
  refine ⟨v, ?_, ?_, ?_, ?_⟩
  · rw [hv, if_neg hvlt]
  · have : E / 16777216 ≤ x / 16777216 := div_le_div_of_nonneg_right hE (by norm_num)
    linarith
  · have : E / 16777216 ≤ x / 16777216 := div_le_div_of_nonneg_right hE (by norm_num)
    linarith
  · have hu : 0 < E / 8388608 := by positivity
    have hfloor : (8388608 : Int) ≤ ⌊x / (E / 8388608)⌋ := by
      rw [Int.le_floor]
      rw [le_div_iff₀ hu]
      push_cast
      have : (8388608 : ℚ) * (E / 8388608) = E := by field_simp
      rw [this]; exact hE
    have hfq : (8388608 : ℚ) ≤ ((⌊x / (E / 8388608)⌋ : Int) : ℚ) := by exact_mod_cast hfloor
    have h3 := mul_le_mul_of_nonneg_right hfq (le_of_lt hu)
    have : (8388608 : ℚ) * (E / 8388608) = E := by field_simp
    linarith

/-- A positive value below one half is rounded to a float in `[0, 1)`. -/
theorem rnd32_small (x : ℚ) (h1 : 0 < x) (h2 : x < 1 / 2) :
    ∃ y : ℚ, rnd32 x = FloatVal.finite y ∧ 0 ≤ y ∧ y < 1 := by
  obtain ⟨v, hv, hlo, hhi, hfl⟩ := rnd32_pos_core x h1
  have he : ilog2 x < -1 := ilog2_lt_of_lt x (-1) h1 (by norm_num; linarith)
  have hmax : max (ilog2 x) (-126) ≤ -2 := by
    apply max_le <;> omega
  have hE : (2 : ℚ) ^ (max (ilog2 x) (-126)) ≤ (2 : ℚ) ^ (-2 : Int) :=
    zpow_le_zpow_right₀ (by norm_num) hmax
  have hE2 : (2 : ℚ) ^ (-2 : Int) = 1 / 4 := by norm_num
  rw [hE2] at hE
  set E : ℚ := (2 : ℚ) ^ (max (ilog2 x) (-126)) with hEdef
  have hEpos : 0 < E := by positivity
  have hv1 : v < 1 := by
    have : E / 16777216 ≤ 1 := by
      rw [div_le_one (by norm_num)]; linarith
    linarith
  have hv0 : 0 ≤ v := by
    have hu : 0 < E / 8388608 := by positivity
    have hf : (0 : Int) ≤ ⌊x / (E / 8388608)⌋ := Int.floor_nonneg.mpr (by positivity)
    have hfq : (0 : ℚ) ≤ ((⌊x / (E / 8388608)⌋ : Int) : ℚ) := by exact_mod_cast hf
    have := mul_nonneg hfq (le_of_lt hu)
    linarith
  have hvlt : ¬ (2 : ℚ) ^ (128 : Int) ≤ v := by
    intro hcon
    have : (1 : ℚ) ≤ (2 : ℚ) ^ (128 : Int) := by norm_num
    linarith
  exact ⟨v, by rw [hv, if_neg hvlt], hv0, hv1⟩

theorem rnd32_zero : rnd32 0 = FloatVal.finite 0 := by
  unfold rnd32
  simp

theorem rnd32_one : rnd32 1 = FloatVal.finite 1 := by decide!

theorem cvttps_intCast (k : Int) (h1 : -2147483648 ≤ k) (h2 : k < 2147483648) :
    cvttps (FloatVal.finite (k : ℚ)) = k := by
  unfold cvttps
  simp only [Int.ceil_intCast, Int.floor_intCast, ite_self]
  rw [if_pos ⟨h1, h2⟩]

theorem fdiv_finite (a b : ℚ) (hb : b ≠ 0) :
    fdiv (FloatVal.finite a) (FloatVal.finite b) = rnd32 (a / b) := by
  unfold fdiv
  simp only [if_neg hb]

theorem fdiv_zero (a : ℚ) (ha : 0 < a) :
    fdiv (FloatVal.finite a) (FloatVal.finite 0) = FloatVal.inf false := by
  unfold fdiv
  have hd : decide (a < 0) = false := decide_eq_false (not_lt.mpr (le_of_lt ha))
  simp only [if_true, if_neg (ne_of_gt ha), hd]

/-- The search radius of an axis whose voxel size is `+∞` is 1. -/
theorem d_index_axis_inf (c : ℚ) : d_index_axis c (FloatVal.inf false) = 1 := by
  unfold d_index_axis fdiv ffloor fadd
  simp only [Int.floor_zero, Int.cast_zero, zero_add]
  rw [rnd32_one]
  exact cvttps_intCast 1 (by norm_num) (by norm_num)

/-- The search radius of an axis with a finite non-zero voxel size `v` whose
rounded quotient `c / v` lies in `[0, 1)` is 1. -/
theorem d_index_axis_of_lt_one (c v q : ℚ) (hv : v ≠ 0)
    (hq : rnd32 (c / v) = FloatVal.finite q) (h0 : 0 ≤ q) (h1 : q < 1) :
    d_index_axis c (FloatVal.finite v) = 1 := by
  unfold d_index_axis
  rw [fdiv_finite c v hv, hq]
  have hfl : ⌊q⌋ = 0 := by
    rw [Int.floor_eq_iff]
    constructor
    · simpa using h0
    · simpa using h1
  unfold ffloor fadd
  simp only [hfl, Int.cast_zero, zero_add]
  rw [rnd32_one]
  exact cvttps_intCast 1 (by norm_num) (by norm_num)

theorem ilog2_neg (x : ℚ) : ilog2 (-x) = ilog2 x := by
  unfold ilog2
  simp only [Rat.neg_num, Rat.neg_den, Int.natAbs_neg, abs_neg]

theorem rnd32_neg (x y : ℚ) (h : rnd32 x = FloatVal.finite y) :
    rnd32 (-x) = FloatVal.finite (-y) := by
  unfold rnd32 at h ⊢
  simp only [ilog2_neg, abs_neg, neg_eq_zero] at h ⊢
  by_cases h0 : x = 0
  · rw [if_pos h0] at h ⊢
    rw [← FloatVal.finite.inj h]
    simp
  · rw [if_neg h0] at h ⊢
    split_ifs at h with hov hneg
    · rw [if_neg hov]
      have hpos : ¬ (-x < 0) := by
        simp only [neg_lt_zero, not_lt]; exact le_of_lt hneg
      rw [if_neg hpos, ← FloatVal.finite.inj h, neg_neg]
    · rw [if_neg hov]
      have hxpos : 0 < x := lt_of_le_of_ne (not_lt.mp hneg) (Ne.symm h0)
      have hneg' : -x < 0 := by simpa using hxpos
      rw [if_pos hneg', ← FloatVal.finite.inj h]

theorem rnd32_pos_exact (x : ℚ) (hx : 0 < x) (m : Int)
    (hm : x / ((2 : ℚ) ^ (max (ilog2 x) (-126)) / 8388608) = (m : ℚ))
    (hlt : x < (2 : ℚ) ^ (128 : Int)) : rnd32 x = FloatVal.finite x := by
  have hE : (0 : ℚ) < (2 : ℚ) ^ (max (ilog2 x) (-126)) := by positivity
  have hv : (roundHalfEven (x / ((2 : ℚ) ^ (max (ilog2 x) (-126)) / 8388608)) : ℚ)
      * ((2 : ℚ) ^ (max (ilog2 x) (-126)) / 8388608) = x := by
    rw [hm, roundHalfEven_intCast, ← hm]
    field_simp
  unfold rnd32
  simp only [two_zpow_sub_23, abs_of_pos hx, hv, if_neg (ne_of_gt hx),
    if_neg (not_le.mpr hlt), if_neg (not_lt.mpr (le_of_lt hx))]

/-- Integers of magnitude below `2^24` are floats. -/
theorem rnd32_intCast (k : Int) (h1 : -16777216 < k) (h2 : k < 16777216) :
    rnd32 (k : ℚ) = FloatVal.finite (k : ℚ) := by
  have pos : ∀ n : Int, 0 < n → n < 16777216 → rnd32 (n : ℚ) = FloatVal.finite (n : ℚ) := by
    intro n hn0 hn1
    have hnq : (0 : ℚ) < (n : ℚ) := by exact_mod_cast hn0
    have hn1q : (n : ℚ) < 16777216 := by exact_mod_cast hn1
    have hn0q : (1 : ℚ) ≤ (n : ℚ) := by exact_mod_cast hn0
    have he0 : 0 ≤ ilog2 (n : ℚ) := ilog2_ge_of_le _ 0 (by simpa using hn0q)
    have he1 : ilog2 (n : ℚ) < 24 := ilog2_lt_of_lt _ 24 hnq (by norm_num; exact hn1q)
    have hmax : max (ilog2 (n : ℚ)) (-126) = ilog2 (n : ℚ) := max_eq_left (by omega)
    obtain ⟨e, he⟩ : ∃ e : Nat, ilog2 (n : ℚ) = (e : Int) := ⟨(ilog2 (n : ℚ)).toNat, by omega⟩
    have he23 : e ≤ 23 := by omega
    have hpow : (8388608 : ℚ) = (2 : ℚ) ^ e * (2 : ℚ) ^ (23 - e) := by
      rw [← pow_add]
      have : e + (23 - e) = 23 := by omega
      rw [this]; norm_num
    apply rnd32_pos_exact (n : ℚ) hnq (n * 2 ^ (23 - e))
    · rw [hmax, he, zpow_natCast, hpow]
      have h2e : (0 : ℚ) < (2 : ℚ) ^ e := by positivity
      push_cast
      field_simp
      ring
    · have : (16777216 : ℚ) < (2 : ℚ) ^ (128 : Int) := by norm_num
      exact lt_trans hn1q this
  rcases lt_trichotomy k 0 with hk | hk | hk
  · have h := pos (-k) (by omega) (by omega)
    have h' := rnd32_neg _ _ h
    simpa using h'
  · subst hk
    simpa using rnd32_zero
  · exact pos k hk h2

/-- The search radius is `floor(q) + 1` for the float quotient `q` of the
cutoff by the voxel size, as long as `q` is finite and below `2^23` in
magnitude. -/
theorem d_index_axis_floor (c : ℚ) (vs : FloatVal) (q : ℚ)
    (hq : fdiv (FloatVal.finite c) vs = FloatVal.finite q) (h1 : -8388608 ≤ q)
    (h2 : q < 8388608) : d_index_axis c vs = ⌊q⌋ + 1 := by
  have hf1 : -8388608 ≤ ⌊q⌋ := by
    rw [Int.le_floor]; push_cast; exact h1
  have hf2 : ⌊q⌋ < 8388608 := by
    rw [Int.floor_lt]; push_cast; exact h2
  unfold d_index_axis
  rw [hq]
  unfold ffloor fadd
  simp only
  have hsum : ((⌊q⌋ : Int) : ℚ) + 1 = ((⌊q⌋ + 1 : Int) : ℚ) := by push_cast; rfl
  rw [hsum, rnd32_intCast (⌊q⌋ + 1) (by omega) (by omega)]
  exact cvttps_intCast (⌊q⌋ + 1) (by omega) (by omega)

/-- The double of a float of magnitude in `[2^-60, 2^60]` is a float: the
product `2*max_distance` of the constructor is exact. -/
theorem rnd32_double (c : ℚ) (h : rnd32 c = FloatVal.finite c)
    (hc : c = 0 ∨ (1 / 2 ^ 60 ≤ |c| ∧ |c| ≤ 2 ^ 60)) :
    rnd32 (2 * c) = FloatVal.finite (2 * c) := by
  have pos : ∀ x : ℚ, rnd32 x = FloatVal.finite x → 1 / 2 ^ 60 ≤ x → x ≤ 2 ^ 60 →
      rnd32 (2 * x) = FloatVal.finite (2 * x) := by
    intro x hx h1 h2
    have hxpos : 0 < x := lt_of_lt_of_le (by positivity) h1
    have hspec := ilog2_spec x hxpos
    have hlo : (2 : ℚ) ^ (-126 : Int) ≤ x := by
      have : (2 : ℚ) ^ (-126 : Int) ≤ 1 / 2 ^ 60 := by norm_num
      exact le_trans this h1
    have he : -126 ≤ ilog2 x := ilog2_ge_of_le x _ hlo
    have he2 : ilog2 (2 * x) = ilog2 x + 1 := by
      have a1 : ilog2 x + 1 ≤ ilog2 (2 * x) := by
        apply ilog2_ge_of_le
        rw [zpow_add_one₀ (by norm_num : (2 : ℚ) ≠ 0)]
        linarith [hspec.1]
      have a2 : ilog2 (2 * x) < ilog2 x + 1 + 1 := by
        apply ilog2_lt_of_lt _ _ (by linarith)
        rw [zpow_add_one₀ (by norm_num : (2 : ℚ) ≠ 0)]
        linarith [hspec.2]
      omega
    have hmax : max (ilog2 x) (-126) = ilog2 x := max_eq_left he
    have hmax2 : max (ilog2 (2 * x)) (-126) = ilog2 x + 1 := by
      rw [he2]; exact max_eq_left (by omega)
    set E : ℚ := (2 : ℚ) ^ ilog2 x with hE
    have hEpos : 0 < E := by positivity
    have hV : (roundHalfEven (x / (E / 8388608)) : ℚ) * (E / 8388608) = x := by
      unfold rnd32 at hx
      simp only [two_zpow_sub_23, abs_of_pos hxpos, hmax, if_neg (ne_of_gt hxpos),
        if_neg (not_lt.mpr (le_of_lt hxpos))] at hx
      split_ifs at hx
      exact FloatVal.finite.inj hx
    apply rnd32_pos_exact (2 * x) (by linarith) (roundHalfEven (x / (E / 8388608)))
    · rw [hmax2, zpow_add_one₀ (by norm_num : (2 : ℚ) ≠ 0), ← hE]
      have hu : (0 : ℚ) < E / 8388608 := by positivity
      rw [div_eq_iff (by positivity)]
      have : (roundHalfEven (x / (E / 8388608)) : ℚ) * (E * 2 / 8388608)
          = 2 * ((roundHalfEven (x / (E / 8388608)) : ℚ) * (E / 8388608)) := by ring
      rw [this, hV]
    · have : (2 : ℚ) * 2 ^ 60 < (2 : ℚ) ^ (128 : Int) := by norm_num
      linarith
  rcases hc with hc | ⟨hc1, hc2⟩
  · subst hc
    simpa using rnd32_zero
  · rcases le_or_lt 0 c with h0 | h0
    · rw [abs_of_nonneg h0] at hc1 hc2
      exact pos c h hc1 hc2
    · rw [abs_of_neg h0] at hc1 hc2
      have hn : rnd32 (-c) = FloatVal.finite (-c) := rnd32_neg c c h
      have h2 := pos (-c) hn hc1 hc2
      have h3 := rnd32_neg _ _ h2
      have e : -(2 * -c) = 2 * c := by ring
      rw [e] at h3
      exact h3

theorem rnd32_double_pos (c : ℚ) (h : rnd32 c = FloatVal.finite c) (hc1 : 1 / 2 ^ 60 ≤ c)
    (hc2 : c ≤ 2 ^ 60) : rnd32 (2 * c) = FloatVal.finite (2 * c) := by
  have hpos : 0 < c := lt_of_lt_of_le (by positivity) hc1
  exact rnd32_double c h (Or.inr ⟨by rw [abs_of_pos hpos]; exact hc1,
    by rw [abs_of_pos hpos]; exact hc2⟩)

theorem rnd32_double_nonpos (c : ℚ) (h : rnd32 c = FloatVal.finite c)
    (hc : c = 0 ∨ (-(2 ^ 60) ≤ c ∧ c ≤ -(1 / 2 ^ 60))) :
    rnd32 (2 * c) = FloatVal.finite (2 * c) := by
  rcases hc with hc | ⟨hc1, hc2⟩
  · exact rnd32_double c h (Or.inl hc)
  · have hneg : c < 0 := lt_of_le_of_lt hc2 (by norm_num)
    exact rnd32_double c h (Or.inr ⟨by rw [abs_of_neg hneg]; linarith,
      by rw [abs_of_neg hneg]; linarith⟩)

/-! ### The grid sizing of one axis -/

/-- The rounded quotient `L / (2·c)` of the grid sizing, for an exact quotient
in `(0, 2^30]`: a float in `[0, 2^31)`, at least 1 where the exact quotient
is, and within one rounding error of the exact quotient where it is at least
1. -/
theorem rnd32_quotient (x : ℚ) (hx0 : 0 < x) (hx1 : x ≤ 1073741824) :
    ∃ y : ℚ, rnd32 x = FloatVal.finite y ∧ 0 ≤ y ∧ y < 2147483648
      ∧ (1 ≤ y → y ≤ x * (1 + 1 / 16777216)) ∧ (1 ≤ x → 1 ≤ y) := by
  by_cases hsmall : x < 1 / 2
  · obtain ⟨y, hy, h0, h1⟩ := rnd32_small x hx0 hsmall
    exact ⟨y, hy, h0, by linarith, fun h => absurd h (not_le.mpr h1),
      fun h => absurd h (by linarith)⟩
  · push_neg at hsmall
    have hlo : (2 : ℚ) ^ (-126 : Int) ≤ x := by
      have : (2 : ℚ) ^ (-126 : Int) ≤ 1 / 2 := by norm_num
      exact le_trans this hsmall
    have hhi : x ≤ (2 : ℚ) ^ (127 : Int) := by
      have : (1073741824 : ℚ) ≤ (2 : ℚ) ^ (127 : Int) := by norm_num
      exact le_trans hx1 this
    obtain ⟨y, hy, h0, h1, h2⟩ := rnd32_normal x hlo hhi
    refine ⟨y, hy, ?_, ?_, fun _ => h1, ?_⟩
    · have : 0 ≤ x * (1 - 1 / 16777216) := by
        apply mul_nonneg (le_of_lt hx0); norm_num
      linarith
    · have : x * (1 + 1 / 16777216) ≤ 1073741824 * (1 + 1 / 16777216) :=
        mul_le_mul_of_nonneg_right hx1 (by norm_num)
      have h3 : (1073741824 : ℚ) * (1 + 1 / 16777216) < 2147483648 := by norm_num
      linarith
    · intro hx
      have he : 0 ≤ ilog2 x := ilog2_ge_of_le x 0 (by simpa using hx)
      have : (2 : ℚ) ^ (0 : Int) ≤ (2 : ℚ) ^ ilog2 x :=
        zpow_le_zpow_right₀ (by norm_num) he
      have h4 : (2 : ℚ) ^ (0 : Int) = 1 := by norm_num
      linarith

/-- Grid sizing of one axis, for a cutoff `c` in `[2^-60, 2^60]` whose double
is a float and an axis length `0 < L ≤ 2^31·c`: the voxel count lies in
`[0, 2^31)` and is at least 1 where `2·c ≤ L`; with the count 0 the voxel
size is `+∞`; with a count of at least 1 the voxel size `v` is finite, not
below `2·c·(1 - 2^-22)`, not above `2·L`, and the rounded quotient `c / v`
lies in `[0, 1)`; the search radius is 1 in both cases. -/
theorem grid_axis (L c : ℚ) (hc1 : 1 / 2 ^ 60 ≤ c) (hc2 : c ≤ 2 ^ 60)
    (h2c : rnd32 (2 * c) = FloatVal.finite (2 * c)) (hL0 : 0 < L) (hL : L ≤ 2 ^ 31 * c) :
    0 ≤ n_voxels_axis L c ∧ n_voxels_axis L c < 2147483648
      ∧ (2 * c ≤ L → 1 ≤ n_voxels_axis L c)
      ∧ ((n_voxels_axis L c = 0 ∧ voxel_size_axis L c = FloatVal.inf false)
         ∨ (1 ≤ n_voxels_axis L c ∧ ∃ v : ℚ, voxel_size_axis L c = FloatVal.finite v
              ∧ 2 * c * (1 - 1 / 4194304) ≤ v ∧ v ≤ 2 * L
              ∧ ∃ q : ℚ, rnd32 (c / v) = FloatVal.finite q ∧ 0 ≤ q ∧ q < 1))
      ∧ d_index_axis c (voxel_size_axis L c) = 1 := by
  have hcpos : 0 < c := lt_of_lt_of_le (by positivity) hc1
  have h2cpos : 0 < 2 * c := by linarith
  have hx0 : 0 < L / (2 * c) := div_pos hL0 h2cpos
  have hx1 : L / (2 * c) ≤ 1073741824 := by
    rw [div_le_iff₀ h2cpos]
    norm_num at hL ⊢
    linarith
  have hxL : L / (2 * c) * (2 * c) = L := by field_simp
  obtain ⟨y, hy, hy0, hy1, hy2, hy3⟩ := rnd32_quotient (L / (2 * c)) hx0 hx1
  have hquot : fdiv (FloatVal.finite L) (rnd32 (2 * c)) = FloatVal.finite y := by
    rw [h2c, fdiv_finite L (2 * c) (ne_of_gt h2cpos), hy]
  have hfl0 : 0 ≤ ⌊y⌋ := Int.floor_nonneg.mpr hy0
  have hfly : ((⌊y⌋ : Int) : ℚ) ≤ y := Int.floor_le y
  have hfl1 : ⌊y⌋ < 2147483648 := by
    have : ((⌊y⌋ : Int) : ℚ) < ((2147483648 : Int) : ℚ) := by
      push_cast; linarith
    exact_mod_cast this
  have hn : n_voxels_axis L c = ⌊y⌋ := by
    unfold n_voxels_axis
    rw [hquot]
    exact cvttps_intCast ⌊y⌋ (by omega) (by omega)
  have hn1 : 2 * c ≤ L → 1 ≤ ⌊y⌋ := by
    intro h
    have : 1 ≤ L / (2 * c) := by
      rw [le_div_iff₀ h2cpos]; linarith
    have h1y := hy3 this
    rw [Int.le_floor]
    simpa using h1y
  rw [hn]
  by_cases hzero : ⌊y⌋ = 0
  · have hvs : voxel_size_axis L c = FloatVal.inf false := by
      unfold voxel_size_axis cvtdq2ps
      rw [hn, hzero, Int.cast_zero, rnd32_zero]
      exact fdiv_zero L hL0
    refine ⟨hfl0, hfl1, hn1, Or.inl ⟨hzero, hvs⟩, ?_⟩
    rw [hvs]
    exact d_index_axis_inf c
  · have hpos : 1 ≤ ⌊y⌋ := by omega
    have hnq1 : (1 : ℚ) ≤ ((⌊y⌋ : Int) : ℚ) := by exact_mod_cast hpos
    have hy1' : 1 ≤ y := le_trans hnq1 hfly
    have hyx := hy2 hy1'
    -- the voxel count as a float
    have hnlo : (2 : ℚ) ^ (-126 : Int) ≤ ((⌊y⌋ : Int) : ℚ) := by
      have : (2 : ℚ) ^ (-126 : Int) ≤ 1 := by norm_num
      linarith
    have hnhi : ((⌊y⌋ : Int) : ℚ) ≤ (2 : ℚ) ^ (127 : Int) := by
      have : (2147483648 : ℚ) ≤ (2 : ℚ) ^ (127 : Int) := by norm_num
      linarith
    obtain ⟨w, hw, hw1, hw2, -⟩ := rnd32_normal _ hnlo hnhi
    have hwpos : 0 < w := by
      have : 0 < ((⌊y⌋ : Int) : ℚ) * (1 - 1 / 16777216) := by
        apply mul_pos (by linarith); norm_num
      linarith
    have hwlo : 1 - 1 / 16777216 ≤ w := by
      have : (1 : ℚ) * (1 - 1 / 16777216) ≤ ((⌊y⌋ : Int) : ℚ) * (1 - 1 / 16777216) :=
        mul_le_mul_of_nonneg_right hnq1 (by norm_num)
      linarith
    have hwhi : w * (2 * c) ≤ L * ((1 + 1 / 16777216) * (1 + 1 / 16777216)) := by
      have h1 : w ≤ L / (2 * c) * (1 + 1 / 16777216) * (1 + 1 / 16777216) := by
        have : ((⌊y⌋ : Int) : ℚ) * (1 + 1 / 16777216)
            ≤ L / (2 * c) * (1 + 1 / 16777216) * (1 + 1 / 16777216) :=
          mul_le_mul_of_nonneg_right (le_trans hfly hyx) (by norm_num)
        linarith
      have h2 := mul_le_mul_of_nonneg_right h1 (le_of_lt h2cpos)
      have h3 : L / (2 * c) * (1 + 1 / 16777216) * (1 + 1 / 16777216) * (2 * c)
          = L * ((1 + 1 / 16777216) * (1 + 1 / 16777216)) := by
        rw [← hxL]; field_simp; ring
      linarith
    -- the voxel size
    have hLw0 : 0 < L / w := div_pos hL0 hwpos
    have hLwlo : 2 * c / ((1 + 1 / 16777216) * (1 + 1 / 16777216)) ≤ L / w := by
      rw [div_le_div_iff₀ (by norm_num) hwpos]
      linarith
    have hLwhi : L / w ≤ L / (1 - 1 / 16777216) :=
      div_le_div_of_nonneg_left (le_of_lt hL0) (by norm_num) hwlo
    have hvlo : (2 : ℚ) ^ (-126 : Int) ≤ L / w := by
      have h1 : (2 : ℚ) ^ (-126 : Int) ≤ 2 * (1 / 2 ^ 60) / ((1 + 1 / 16777216) * (1 + 1 / 16777216)) := by
        norm_num
      have h2 : 2 * (1 / 2 ^ 60) / ((1 + 1 / 16777216) * (1 + 1 / 16777216))
          ≤ 2 * c / ((1 + 1 / 16777216) * (1 + 1 / 16777216)) := by
        apply div_le_div_of_nonneg_right _ (by norm_num)
        linarith
      linarith
    have hvhi : L / w ≤ (2 : ℚ) ^ (127 : Int) := by
      have h1 : L / (1 - 1 / 16777216) ≤ 2 ^ 31 * 2 ^ 60 / (1 - 1 / 16777216) := by
        apply div_le_div_of_nonneg_right _ (by norm_num)
        have : (2 : ℚ) ^ 31 * c ≤ 2 ^ 31 * 2 ^ 60 :=
          mul_le_mul_of_nonneg_left hc2 (by positivity)
        linarith
      have h2 : (2 : ℚ) ^ 30 * 2 ^ 60 / (1 - 1 / 16777216) ≤ (2 : ℚ) ^ (127 : Int) := by norm_num
      linarith
    obtain ⟨v, hv, hv1, hv2, -⟩ := rnd32_normal _ hvlo hvhi
    have hvs : voxel_size_axis L c = FloatVal.finite v := by
      unfold voxel_size_axis cvtdq2ps
      rw [hn, hw, fdiv_finite L w (ne_of_gt hwpos), hv]
    have hvge : 2 * c * (1 - 1 / 4194304) ≤ v := by
      have h1 : 2 * c / ((1 + 1 / 16777216) * (1 + 1 / 16777216)) * (1 - 1 / 16777216)
          ≤ L / w * (1 - 1 / 16777216) :=
        mul_le_mul_of_nonneg_right hLwlo (by norm_num)
      have h2 : 2 * c * (1 - 1 / 4194304)
          ≤ 2 * c / ((1 + 1 / 16777216) * (1 + 1 / 16777216)) * (1 - 1 / 16777216) := by
        have h3 : 2 * c / ((1 + 1 / 16777216) * (1 + 1 / 16777216)) * (1 - 1 / 16777216)
            = 2 * c * ((1 - 1 / 16777216) / ((1 + 1 / 16777216) * (1 + 1 / 16777216))) := by
          ring
        rw [h3]
        apply mul_le_mul_of_nonneg_left _ (le_of_lt h2cpos)
        norm_num
      linarith
    have hvle : v ≤ 2 * L := by
      have h1 : L / w * (1 + 1 / 16777216) ≤ L / (1 - 1 / 16777216) * (1 + 1 / 16777216) :=
        mul_le_mul_of_nonneg_right hLwhi (by norm_num)
      have h2 : L / (1 - 1 / 16777216) * (1 + 1 / 16777216) = L * (16777217 / 16777215) := by
        field_simp; ring
      have h3 : L * (16777217 / 16777215) ≤ L * 2 :=
        mul_le_mul_of_nonneg_left (by norm_num) (le_of_lt hL0)
      linarith
    have hvpos : 0 < v := by
      have : 0 < 2 * c * (1 - 1 / 4194304) := mul_pos h2cpos (by norm_num)
      linarith
    -- the quotient of the search radius
    have hcv0 : 0 < c / v := div_pos hcpos hvpos
    have hcvhi : c / v ≤ 2097152 / 4194303 := by
      rw [div_le_iff₀ hvpos]
      have : c = 2097152 / 4194303 * (2 * c * (1 - 1 / 4194304)) := by ring
      calc c = 2097152 / 4194303 * (2 * c * (1 - 1 / 4194304)) := this
        _ ≤ 2097152 / 4194303 * v := mul_le_mul_of_nonneg_left hvge (by norm_num)
    have hcvlo : 1 / 4294967296 ≤ c / v := by
      rw [le_div_iff₀ hvpos]
      norm_num at hL
      linarith
    have hqlo : (2 : ℚ) ^ (-126 : Int) ≤ c / v := by
      have : (2 : ℚ) ^ (-126 : Int) ≤ 1 / 4294967296 := by norm_num
      linarith
    have hqhi : c / v ≤ (2 : ℚ) ^ (127 : Int) := by
      have : (2097152 / 4194303 : ℚ) ≤ (2 : ℚ) ^ (127 : Int) := by norm_num
      linarith
    obtain ⟨q, hq, hq1, hq2, -⟩ := rnd32_normal _ hqlo hqhi
    have hq0 : 0 ≤ q := by
      have : 0 ≤ c / v * (1 - 1 / 16777216) := mul_nonneg (le_of_lt hcv0) (by norm_num)
      linarith
    have hqlt : q < 1 := by
      have h1 : c / v * (1 + 1 / 16777216) ≤ 2097152 / 4194303 * (1 + 1 / 16777216) :=
        mul_le_mul_of_nonneg_right hcvhi (by norm_num)
      have h2 : (2097152 / 4194303 : ℚ) * (1 + 1 / 16777216) < 1 := by norm_num
      linarith
    refine ⟨hfl0, hfl1, hn1, Or.inr ⟨hpos, v, hvs, hvge, hvle, q, hq, hq0, hqlt⟩, ?_⟩
    rw [hvs]
    exact d_index_axis_of_lt_one c v q (ne_of_gt hvpos) hq hq0 hqlt

theorem cvttps_intCast_neg (k : Int) (hk : k ≤ -1) :
    -2147483648 ≤ cvttps (FloatVal.finite (k : ℚ)) ∧ cvttps (FloatVal.finite (k : ℚ)) ≤ -1 := by
  unfold cvttps
  simp only [Int.ceil_intCast, Int.floor_intCast, ite_self]
  split_ifs <;> omega

/-- A negative value of magnitude in the normal range is rounded to a negative
float within relative error `2^-24`. -/
theorem rnd32_normal_neg (x : ℚ) (h1 : (2 : ℚ) ^ (-126 : Int) ≤ x)
    (h2 : x ≤ (2 : ℚ) ^ (127 : Int)) :
    ∃ y : ℚ, rnd32 (-x) = FloatVal.finite (-y) ∧ x * (1 - 1 / 16777216) ≤ y
      ∧ y ≤ x * (1 + 1 / 16777216) := by
  obtain ⟨y, hy, hy1, hy2, -⟩ := rnd32_normal x h1 h2
  exact ⟨y, rnd32_neg x y hy, hy1, hy2⟩

/-- Grid sizing of one axis for a cutoff `c ≤ 0` that is 0 or of magnitude in
`[2^-60, 2^60]`, its double a float, and an axis length in `[2^-60, 2^60]`:
the voxel count is negative (`INT_MIN` where the quotient is infinite or out
of range) and the voxel size is finite and negative. -/
theorem grid_axis_nonpos (L c : ℚ) (hc : c = 0 ∨ (-(2 ^ 60) ≤ c ∧ c ≤ -(1 / 2 ^ 60)))
    (h2c : rnd32 (2 * c) = FloatVal.finite (2 * c)) (hL1 : 1 / 2 ^ 60 ≤ L) (hL2 : L ≤ 2 ^ 60) :
    -2147483648 ≤ n_voxels_axis L c ∧ n_voxels_axis L c ≤ -1
      ∧ ∃ v : ℚ, voxel_size_axis L c = FloatVal.finite v ∧ v < 0 := by
  have hL0 : 0 < L := lt_of_lt_of_le (by positivity) hL1
  have hn : -2147483648 ≤ n_voxels_axis L c ∧ n_voxels_axis L c ≤ -1 := by
    unfold n_voxels_axis
    rw [h2c]
    rcases hc with hc | ⟨hc1, hc2⟩
    · subst hc
      rw [mul_zero, fdiv_zero L hL0]
      unfold ffloor cvttps
      simp
    · have hcneg : c < 0 := lt_of_le_of_lt hc2 (by norm_num)
      have h2cne : 2 * c ≠ 0 := by linarith
      have hm : 0 < -(2 * c) := by linarith
      rw [fdiv_finite L (2 * c) h2cne]
      have hx : L / (2 * c) = -(L / (-(2 * c))) := by
        rw [div_neg, neg_neg]
      have hxpos : 0 < L / (-(2 * c)) := div_pos hL0 hm
      have hxlo : (2 : ℚ) ^ (-126 : Int) ≤ L / (-(2 * c)) := by
        rw [le_div_iff₀ hm]
        have h1 : (2 : ℚ) ^ (-126 : Int) * (-(2 * c)) ≤ (2 : ℚ) ^ (-126 : Int) * (2 * 2 ^ 60) :=
          mul_le_mul_of_nonneg_left (by linarith) (by positivity)
        have h2 : (2 : ℚ) ^ (-126 : Int) * (2 * 2 ^ 60) ≤ 1 / 2 ^ 60 := by norm_num
        exact le_trans h1 (le_trans h2 hL1)
      have hxhi : L / (-(2 * c)) ≤ (2 : ℚ) ^ (127 : Int) := by
        rw [div_le_iff₀ hm]
        have h1 : (2 : ℚ) ^ (127 : Int) * (2 * (1 / 2 ^ 60)) ≤ (2 : ℚ) ^ (127 : Int) * (-(2 * c)) :=
          mul_le_mul_of_nonneg_left (by linarith) (by positivity)
        have h2 : (2 : ℚ) ^ 60 ≤ (2 : ℚ) ^ (127 : Int) * (2 * (1 / 2 ^ 60)) := by norm_num
        linarith
      obtain ⟨y, hy, hy1, -⟩ := rnd32_normal_neg _ hxlo hxhi
      rw [hx, hy]
      have hypos : 0 < y := by
        have : 0 < L / (-(2 * c)) * (1 - 1 / 16777216) := mul_pos hxpos (by norm_num)
        linarith
      have hfl : ⌊-y⌋ ≤ -1 := by
        have : ⌊-y⌋ < 0 := by
          rw [Int.floor_lt]; push_cast; linarith
        omega
      unfold ffloor
      exact cvttps_intCast_neg ⌊-y⌋ hfl
  refine ⟨hn.1, hn.2, ?_⟩
  obtain ⟨hn1, hn2⟩ := hn
  set n := n_voxels_axis L c with hndef
  have hnq1 : (1 : ℚ) ≤ ((-n : Int) : ℚ) := by
    have : (1 : Int) ≤ -n := by omega
    exact_mod_cast this
  have hnq2 : ((-n : Int) : ℚ) ≤ 2147483648 := by
    have : -n ≤ (2147483648 : Int) := by omega
    exact_mod_cast this
  have hlo : (2 : ℚ) ^ (-126 : Int) ≤ ((-n : Int) : ℚ) := by
    have : (2 : ℚ) ^ (-126 : Int) ≤ 1 := by norm_num
    exact le_trans this hnq1
  have hhi : ((-n : Int) : ℚ) ≤ (2 : ℚ) ^ (127 : Int) := by
    have : (2147483648 : ℚ) ≤ (2 : ℚ) ^ (127 : Int) := by norm_num
    exact le_trans hnq2 this
  obtain ⟨w, hw, hw1, hw2⟩ := rnd32_normal_neg _ hlo hhi
  have hcast : -((-n : Int) : ℚ) = (n : ℚ) := by push_cast; ring
  rw [hcast] at hw
  have hwlo : 1 - 1 / 16777216 ≤ w := by
    have : (1 : ℚ) * (1 - 1 / 16777216) ≤ ((-n : Int) : ℚ) * (1 - 1 / 16777216) :=
      mul_le_mul_of_nonneg_right hnq1 (by norm_num)
    linarith
  have hwhi : w ≤ 2147483648 * (1 + 1 / 16777216) := by
    have : ((-n : Int) : ℚ) * (1 + 1 / 16777216) ≤ 2147483648 * (1 + 1 / 16777216) :=
      mul_le_mul_of_nonneg_right hnq2 (by norm_num)
    linarith
  have hwpos : 0 < w := lt_of_lt_of_le (by norm_num) hwlo
  have hq : L / (-w) = -(L / w) := div_neg L
  have hqpos : 0 < L / w := div_pos hL0 hwpos
  have hqlo : (2 : ℚ) ^ (-126 : Int) ≤ L / w := by
    rw [le_div_iff₀ hwpos]
    have h1 : (2 : ℚ) ^ (-126 : Int) * w
        ≤ (2 : ℚ) ^ (-126 : Int) * (2147483648 * (1 + 1 / 16777216)) :=
      mul_le_mul_of_nonneg_left hwhi (by positivity)
    have h2 : (2 : ℚ) ^ (-126 : Int) * (2147483648 * (1 + 1 / 16777216)) ≤ 1 / 2 ^ 60 := by
      norm_num
    exact le_trans h1 (le_trans h2 hL1)
  have hqhi : L / w ≤ (2 : ℚ) ^ (127 : Int) := by
    rw [div_le_iff₀ hwpos]
    have h1 : (2 : ℚ) ^ (127 : Int) * (1 - 1 / 16777216) ≤ (2 : ℚ) ^ (127 : Int) * w :=
      mul_le_mul_of_nonneg_left hwlo (by positivity)
    have h2 : (2 : ℚ) ^ 60 ≤ (2 : ℚ) ^ (127 : Int) * (1 - 1 / 16777216) := by norm_num
    linarith
  obtain ⟨v, hv, hv1, -⟩ := rnd32_normal_neg _ hqlo hqhi
  have hvpos : 0 < v := by
    have : 0 < L / w * (1 - 1 / 16777216) := mul_pos hqpos (by norm_num)
    linarith
  refine ⟨-v, ?_, by linarith⟩
  unfold voxel_size_axis cvtdq2ps
  rw [← hndef, hw, fdiv_finite L (-w) (by linarith), hq, hv]

/-- The lanes of `gridSizing` are the per-axis computations on the cell
lengths. -/
theorem NeighborList.gridSizing_axes (sqrtf : ℚ → ℚ) (c : ℚ) (cell : List ℚ) :
    ((NeighborList.gridSizing sqrtf c cell).n_voxels.x
          = n_voxels_axis (NeighborList.gridSizing sqrtf c cell).unitcell_lengths.x c
        ∧ (NeighborList.gridSizing sqrtf c cell).n_voxels.y
          = n_voxels_axis (NeighborList.gridSizing sqrtf c cell).unitcell_lengths.y c
        ∧ (NeighborList.gridSizing sqrtf c cell).n_voxels.z
          = n_voxels_axis (NeighborList.gridSizing sqrtf c cell).unitcell_lengths.z c)
      ∧ ((NeighborList.gridSizing sqrtf c cell).voxel_size_x
          = voxel_size_axis (NeighborList.gridSizing sqrtf c cell).unitcell_lengths.x c
        ∧ (NeighborList.gridSizing sqrtf c cell).voxel_size_y
          = voxel_size_axis (NeighborList.gridSizing sqrtf c cell).unitcell_lengths.y c
        ∧ (NeighborList.gridSizing sqrtf c cell).voxel_size_z
          = voxel_size_axis (NeighborList.gridSizing sqrtf c cell).unitcell_lengths.z c)
      ∧ ((NeighborList.gridSizing sqrtf c cell).d_index.x
          = d_index_axis c (NeighborList.gridSizing sqrtf c cell).voxel_size_x
        ∧ (NeighborList.gridSizing sqrtf c cell).d_index.y
          = d_index_axis c (NeighborList.gridSizing sqrtf c cell).voxel_size_y
        ∧ (NeighborList.gridSizing sqrtf c cell).d_index.z
          = d_index_axis c (NeighborList.gridSizing sqrtf c cell).voxel_size_z) :=
  ⟨⟨rfl, rfl, rfl⟩, ⟨rfl, rfl, rfl⟩, ⟨rfl, rfl, rfl⟩⟩

/-- C6 fails on the code: for the cell `diag(3,10,10)` and cutoff 2 the
constructor computes the voxel counts `(0, 2, 2)`: on the axis of length 3
it stores `floor(3 / (2·2)) = 0`, where the claim's
`max(1, floor(3 / (2·2)))` is 1.  Nothing clamps the count, and the next
statement divides the axis length by it: the voxel size of that axis is
`+∞`. -/
theorem gridSizing_unclamped :
    (NeighborList.gridSizing sqrtExact 2 [3, 0, 0, 0, 10, 0, 0, 0, 10]).unitcell_lengths
        = ⟨3, 10, 10, 0⟩
      ∧ (NeighborList.gridSizing sqrtExact 2 [3, 0, 0, 0, 10, 0, 0, 0, 10]).n_voxels
        = ⟨0, 2, 2, 0⟩
      ∧ max 1 ⌊(3 : ℚ) / (2 * 2)⌋ = 1
      ∧ (NeighborList.gridSizing sqrtExact 2 [3, 0, 0, 0, 10, 0, 0, 0, 10]).n_voxels.x
        ≠ max 1 ⌊(3 : ℚ) / (2 * 2)⌋
      ∧ (NeighborList.gridSizing sqrtExact 2 [3, 0, 0, 0, 10, 0, 0, 0, 10]).voxel_size_x
        = FloatVal.inf false := by
  decide!

/-- C7 (amended): for every float cutoff `c` in `[2^-60, 2^60]` and every
cell, the voxel size the constructor computes on an axis whose length `L`
satisfies `2·c ≤ L ≤ 2^31·c` is a finite float not below `2·c·(1 - 2^-22)`:
it can fall below `2·c`, by no more than the rounding of the two float
quotients. -/
theorem gridSizing_voxel_size_ge (sqrtf : ℚ → ℚ) (c : ℚ) (cell : List ℚ)
    (hc1 : 1 / 2 ^ 60 ≤ c) (hc2 : c ≤ 2 ^ 60) (hcf : rnd32 c = FloatVal.finite c) :
    (2 * c ≤ (NeighborList.gridSizing sqrtf c cell).unitcell_lengths.x →
        (NeighborList.gridSizing sqrtf c cell).unitcell_lengths.x ≤ 2 ^ 31 * c →
        ∃ v : ℚ, (NeighborList.gridSizing sqrtf c cell).voxel_size_x = FloatVal.finite v
          ∧ 2 * c * (1 - 1 / 4194304) ≤ v)
      ∧ (2 * c ≤ (NeighborList.gridSizing sqrtf c cell).unitcell_lengths.y →
        (NeighborList.gridSizing sqrtf c cell).unitcell_lengths.y ≤ 2 ^ 31 * c →
        ∃ v : ℚ, (NeighborList.gridSizing sqrtf c cell).voxel_size_y = FloatVal.finite v
          ∧ 2 * c * (1 - 1 / 4194304) ≤ v)
      ∧ (2 * c ≤ (NeighborList.gridSizing sqrtf c cell).unitcell_lengths.z →
        (NeighborList.gridSizing sqrtf c cell).unitcell_lengths.z ≤ 2 ^ 31 * c →
        ∃ v : ℚ, (NeighborList.gridSizing sqrtf c cell).voxel_size_z = FloatVal.finite v
          ∧ 2 * c * (1 - 1 / 4194304) ≤ v) := by
  have hcpos : 0 < c := lt_of_lt_of_le (by positivity) hc1
  have h2c := rnd32_double_pos c hcf hc1 hc2
  have key : ∀ L : ℚ, 2 * c ≤ L → L ≤ 2 ^ 31 * c →
      ∃ v : ℚ, voxel_size_axis L c = FloatVal.finite v ∧ 2 * c * (1 - 1 / 4194304) ≤ v := by
    intro L hL1 hL2
    obtain ⟨-, -, hn, hcase, -⟩ := grid_axis L c hc1 hc2 h2c (by linarith) hL2
    have hn1 := hn hL1
    rcases hcase with ⟨h0, -⟩ | ⟨-, v, hv, hge, -, -⟩
    · omega
    · exact ⟨v, hv, hge⟩
  exact ⟨key _, key _, key _⟩

/-- C7 (amended), at the cell `diag(10,10,10)` with cutoff 2 (voxel size 5). -/
theorem gridSizing_voxel_size_ge_witness :
    (NeighborList.gridSizing sqrtExact 2 cubicCell10).unitcell_lengths.x = 10
      ∧ ∃ v : ℚ, (NeighborList.gridSizing sqrtExact 2 cubicCell10).voxel_size_x
            = FloatVal.finite v
          ∧ 2 * 2 * (1 - 1 / 4194304) ≤ v :=
  ⟨by decide!,
    (gridSizing_voxel_size_ge sqrtExact 2 cubicCell10 (by norm_num) (by norm_num)
      (by decide!)).1 (by decide!) (by decide!)⟩

/-- C7 (as stated) fails: for the cell `diag(9,9,9)` and the float cutoff
`c = 15099495/2^24` (0.90000004) the float quotient `9 / (2·c)` rounds up to
5, the constructor stores 5 voxels and the voxel size `7549747/2^22`
(1.7999999), which is below `2·c` (1.8000001).  Likewise the axis length
`7549747/2^20` (the float 7.2) with the cutoff `13421773/2^25` (the float
0.4) gets 9 voxels of size `3355443/2^22` (0.79999995), below `2·c`
(0.80000001). -/
theorem gridSizing_voxel_size_counterexample :
    rnd32 (15099495 / 16777216) = FloatVal.finite (15099495 / 16777216)
      ∧ (NeighborList.gridSizing sqrtExact (15099495 / 16777216)
          [9, 0, 0, 0, 9, 0, 0, 0, 9]).unitcell_lengths.x = 9
      ∧ (NeighborList.gridSizing sqrtExact (15099495 / 16777216)
          [9, 0, 0, 0, 9, 0, 0, 0, 9]).n_voxels.x = 5
      ∧ (NeighborList.gridSizing sqrtExact (15099495 / 16777216)
          [9, 0, 0, 0, 9, 0, 0, 0, 9]).voxel_size_x = FloatVal.finite (7549747 / 4194304)
      ∧ (7549747 / 4194304 : ℚ) < 2 * (15099495 / 16777216)
      ∧ n_voxels_axis (7549747 / 1048576) (13421773 / 33554432) = 9
      ∧ voxel_size_axis (7549747 / 1048576) (13421773 / 33554432)
          = FloatVal.finite (3355443 / 4194304)
      ∧ (3355443 / 4194304 : ℚ) < 2 * (13421773 / 33554432) := by
  decide!

/-! ### Voxel indices -/

/-- Where `floor(s / voxel_size_r)` is at least `-n`, the lane of
`getVoxelIndexVector` is the residue of that floor in `[0, n)`. -/
theorem getVoxelIndexLane_of_ge (s vsr : ℚ) (n : Int) (hn : 1 ≤ n) (hf : -n ≤ ⌊s / vsr⌋) :
    0 ≤ getVoxelIndexLane s vsr n ∧ getVoxelIndexLane s vsr n < n
      ∧ getVoxelIndexLane s vsr n = ⌊s / vsr⌋ % n := by
  have hpos : (0 : Int) < n := by omega
  have hval : getVoxelIndexLane s vsr n = ⌊s / vsr⌋ % n := by
    unfold getVoxelIndexLane fmod
    dsimp only
    split_ifs with h
    · rw [Int.tmod_eq_emod (by omega) (by omega), Int.add_emod_self]
    · rw [Int.add_zero, Int.tmod_eq_emod (by omega) (by omega)]
  rw [hval]
  exact ⟨Int.emod_nonneg _ (by omega), Int.emod_lt_of_pos _ hpos, rfl⟩

/-- Where `floor(s / voxel_size_r)` is below `-n`, the lane of
`getVoxelIndexVector` is not positive. -/
theorem getVoxelIndexLane_of_lt (s vsr : ℚ) (n : Int) (hn : 1 ≤ n) (hf : ⌊s / vsr⌋ < -n) :
    getVoxelIndexLane s vsr n ≤ 0 := by
  unfold getVoxelIndexLane fmod
  dsimp only
  rw [if_pos (by omega)]
  have h1 : ⌊s / vsr⌋ + n = -(-(⌊s / vsr⌋ + n)) := by omega
  have h2 : 0 ≤ Int.tmod (-(⌊s / vsr⌋ + n)) n := Int.tmod_nonneg _ (by omega)
  have h3 : Int.tmod (-(-(⌊s / vsr⌋ + n))) n = -Int.tmod (-(⌊s / vsr⌋ + n)) n := by
    rw [Int.tmod_def, Int.tmod_def, Int.neg_tdiv]
    ring
  rw [h1, h3]
  omega

theorem quot_rem_unique (m q r q' r' : Int) (hr : 0 ≤ r) (hrm : r < m) (hr' : 0 ≤ r')
    (hrm' : r' < m) (h : q * m + r = q' * m + r') : q = q' ∧ r = r' := by
  have e1 : (q * m + r) % m = r := by
    rw [Int.add_comm, Int.add_mul_emod_self, Int.emod_eq_of_lt hr hrm]
  have e2 : (q' * m + r') % m = r' := by
    rw [Int.add_comm, Int.add_mul_emod_self, Int.emod_eq_of_lt hr' hrm']
  have hrr : r = r' := by rw [← e1, ← e2, h]
  have hm : m ≠ 0 := by omega
  have hq : q * m = q' * m := by omega
  exact ⟨Int.eq_of_mul_eq_mul_right hm hq, hrr⟩

theorem wrap32_of_range (v : Int) (h1 : -2147483648 ≤ v) (h2 : v < 2147483648) :
    wrap32 v = v := by
  unfold wrap32
  omega

/-- Where `nz ≤ ny ≤ nx` (a cubic grid for one) and `nx·nx·ny` does not exceed
`2^31`, the flattening `x*nx*ny + y*ny + z` separates the in-range triples. -/
theorem flatten_injective_of_le (nx ny nz : Int) (hzy : nz ≤ ny) (hyx : ny ≤ nx)
    (hb : nx * nx * ny ≤ 2147483648)
    (x y z x' y' z' : Int) (hx : 0 ≤ x ∧ x < nx) (hy : 0 ≤ y ∧ y < ny) (hz : 0 ≤ z ∧ z < nz)
    (hx' : 0 ≤ x' ∧ x' < nx) (hy' : 0 ≤ y' ∧ y' < ny) (hz' : 0 ≤ z' ∧ z' < nz)
    (h : flatten nx ny x y z = flatten nx ny x' y' z') : x = x' ∧ y = y' ∧ z = z' := by
  unfold flatten at h
  have hny : 0 < ny := by omega
  have hnx : 0 < nx := by omega
  have hP : 0 ≤ nx * ny := Int.mul_nonneg (le_of_lt hnx) (le_of_lt hny)
  have hA : ∀ a b : Int, 0 ≤ a → a < ny → 0 ≤ b → b < nz →
      0 ≤ a * ny + b ∧ a * ny + b < nx * ny := by
    intro a b ha1 ha2 hb1 hb2
    have h1 : 0 ≤ a * ny := Int.mul_nonneg ha1 (le_of_lt hny)
    have h2 : (a + 1) * ny ≤ ny * ny := Int.mul_le_mul_of_nonneg_right (by omega) (le_of_lt hny)
    have h3 : ny * ny ≤ nx * ny := Int.mul_le_mul_of_nonneg_right hyx (le_of_lt hny)
    have h4 : (a + 1) * ny = a * ny + ny := by ring
    constructor
    · omega
    · omega
  have hW : ∀ a b d : Int, 0 ≤ a → a < nx → 0 ≤ b → b < ny → 0 ≤ d → d < nz →
      wrap32 (a * nx * ny + b * ny + d) = a * (nx * ny) + (b * ny + d) := by
    intro a b d ha1 ha2 hb1 hb2 hd1 hd2
    obtain ⟨k1, k2⟩ := hA b d hb1 hb2 hd1 hd2
    have h1 : 0 ≤ a * (nx * ny) := Int.mul_nonneg ha1 hP
    have h2 : a * (nx * ny) ≤ (nx - 1) * (nx * ny) :=
      Int.mul_le_mul_of_nonneg_right (by omega) hP
    have h3 : (nx - 1) * (nx * ny) = nx * nx * ny - nx * ny := by ring
    have h4 : a * nx * ny + b * ny + d = a * (nx * ny) + (b * ny + d) := by ring
    rw [h4]
    exact wrap32_of_range _ (by omega) (by omega)
  rw [hW x y z hx.1 hx.2 hy.1 hy.2 hz.1 hz.2,
    hW x' y' z' hx'.1 hx'.2 hy'.1 hy'.2 hz'.1 hz'.2] at h
  obtain ⟨hxx, hyz⟩ := quot_rem_unique (nx * ny) x (y * ny + z) x' (y' * ny + z')
    (hA y z hy.1 hy.2 hz.1 hz.2).1 (hA y z hy.1 hy.2 hz.1 hz.2).2
    (hA y' z' hy'.1 hy'.2 hz'.1 hz'.2).1 (hA y' z' hy'.1 hy'.2 hz'.1 hz'.2).2 h
  obtain ⟨hyy, hzz⟩ := quot_rem_unique ny y z y' z' hz.1 (by omega) hz'.1 (by omega) hyz
  exact ⟨hxx, hyy, hzz⟩

/-! ## Concrete cells -/

/-- The constructor evaluated on the cell `diag(10,10,10)`, cutoff 2, points
`(0,0,0)` and `(1.5,0,0)`. -/
theorem exampleList_constructed :
    NeighborList.construct sqrtExact 2 2 [0, 0, 0, 3 / 2, 0, 0] cubicCell10 = some exampleList := by
  decide!

/-- C1 fails on the code.  (a) Cubic cell `diag(12,12,12)`, cutoff 2, points
`(0,0,0)` and `(-13.2,0,0)`: the naive query finds the pair `(0,1)` at
`d2 = 1.44`, the grid query finds nothing.  (b) Triclinic cell with lattice
vectors `(20,0,0)`, `(12,16,0)`, `(0,0,20)`, cutoff 2, points `(0.8,0,0)` and
`(2.6,0,0)`: the naive query finds the pair `(0,1)` at `d2 = 3.24`, the grid
query finds nothing. -/
theorem getNeighbors_misses_pair :
    (NeighborList.construct sqrtExact 2 2 [0, 0, 0, -66 / 5, 0, 0] cubicCell12).map
        (fun nl => (nl.getNeighbors 0 [], nl.getNeighborsNaive 0 []))
      = some ([], [⟨0, 1, 36 / 25⟩])
    ∧ (NeighborList.construct sqrtExact 2 2 [4 / 5, 0, 0, 13 / 5, 0, 0] triclinicCell20).map
        (fun nl => (nl.getNeighbors 0 [], nl.getNeighborsNaive 0 []))
      = some ([], [⟨0, 1, 81 / 25⟩]) := by
  decide!

/-- C2, at the list built for cutoff 2 in the cell `diag(10,10,10)` from the
points `(0,0,0)` and `(1.5,0,0)`, query index 0. -/
theorem query_pairs_bounds_witness :
    NeighborList.construct sqrtExact 2 2 [0, 0, 0, 3 / 2, 0, 0] cubicCell10 = some exampleList
    ∧ ((∃ added, exampleList.getNeighbors 0 [] = [] ++ added
        ∧ (∀ p ∈ added, p.i = 0 ∧ 0 < p.j ∧ p.j < 2 ∧ p.d2 = exampleList.d2Grid 0 p.j
            ∧ 0 < p.d2 ∧ p.d2 < 2 * 2)
        ∧ (∀ j, exampleList.d2Grid 0 j = 0 ∨ exampleList.d2Grid 0 j = 2 * 2 →
            ∀ p ∈ added, p.j ≠ j))
      ∧ (∃ added, exampleList.getNeighborsNaive 0 [] = [] ++ added
        ∧ (∀ p ∈ added, p.i = 0 ∧ 0 < p.j ∧ p.j < 2 ∧ p.d2 = exampleList.d2Naive 0 p.j
            ∧ 0 < p.d2 ∧ p.d2 < 2 * 2)
        ∧ (∀ j, exampleList.d2Naive 0 j = 0 ∨ exampleList.d2Naive 0 j = 2 * 2 →
            ∀ p ∈ added, p.j ≠ j))) :=
  ⟨exampleList_constructed,
    query_pairs_bounds sqrtExact 2 2 [0, 0, 0, 3 / 2, 0, 0] cubicCell10 exampleList
      exampleList_constructed 0 []⟩

/-- C3 fails on the code: cubic cell `diag(10,10,10)`, cutoff 2 (two voxels
per axis), points `(0,0,0)` and `(9,0,0)`: `getNeighbors(0)` visits the voxel
of point 1 twice and appends the pair `(0, 1)` twice. -/
theorem getNeighbors_duplicate :
    (NeighborList.construct sqrtExact 2 2 [0, 0, 0, 9, 0, 0] cubicCell10).map
        (fun nl => (nl.n_voxels_, nl.d_index_, nl.getNeighbors 0 []))
      = some (⟨2, 2, 2, 0⟩, ⟨1, 1, 1, 0⟩, [⟨0, 1, 1⟩, ⟨0, 1, 1⟩]) := by
  decide!

/-- C4, at the list built for cutoff 2 in the cell `diag(10,10,10)` from the
points `(0,0,0)` and `(1.5,0,0)`, query index 0: one pair, `d2 = 9/4`. -/
theorem getNeighborsNaive_spec_witness :
    NeighborList.construct sqrtExact 2 2 [0, 0, 0, 3 / 2, 0, 0] cubicCell10 = some exampleList
    ∧ naiveSpec exampleList.unitcell_ exampleList.position 2 2 0 = [⟨0, 1, 9 / 4⟩]
    ∧ (exampleList.getNeighborsNaive 0 []
          = [] ++ naiveSpec exampleList.unitcell_ exampleList.position 2 2 0
        ∧ (naiveSpec exampleList.unitcell_ exampleList.position 2 2 0).Pairwise
            (fun p q => p.j < q.j)) :=
  ⟨exampleList_constructed, by decide!,
    getNeighborsNaive_spec sqrtExact 2 2 [0, 0, 0, 3 / 2, 0, 0] cubicCell10 exampleList
      exampleList_constructed 0 []⟩

/-- C8 fails on the code: cubic cell `diag(12,12,12)`, cutoff 2 (three voxels
per axis, fractional voxel size 1/3): for the point `(-13.2,0,0)`, fractional
position `(-1.1,0,0)`, the x lane is `floor(-3.3) = -4`, then `-4 + 3 = -1`,
then `fmod(-1, 3) = -1`, which is not in `[0, 3)`. -/
theorem getVoxelIndexVector_negative_lane :
    (NeighborList.construct sqrtExact 2 2 [0, 0, 0, -66 / 5, 0, 0] cubicCell12).map
        (fun nl => (nl.n_voxels_, nl.voxel_size_r_, nl.position 1,
          nl.getVoxelIndexVector (nl.position 1)))
      = some (⟨3, 3, 3, 0⟩, ⟨1 / 3, 1 / 3, 1 / 3, 0⟩, ⟨-11 / 10, 0, 0, 0⟩, ⟨-1, 0, 0, 0⟩) := by
  decide!

/-- C9 fails on the code: cell `diag(12,16,20)`, cutoff 2, grid 3 × 4 × 5:
the in-range triples `(0,0,4)` and `(0,1,0)` both flatten to the key 4. -/
theorem getVoxelIndex_collision :
    (NeighborList.construct sqrtExact 2 0 [] [12, 0, 0, 0, 16, 0, 0, 0, 20]).map
        (fun nl => (nl.nx_, nl.ny_, nl.nz_, nl.getVoxelIndexInt 0 0 4, nl.getVoxelIndexInt 0 1 0))
      = some (3, 4, 5, 4, 4) := by
  decide!

/-- C10, at the list built for cutoff 2 in the cell `diag(10,10,10)` from the
points `(0,0,0)` and `(1.5,0,0)`. -/
theorem construct_voxelMap_partition_witness :
    NeighborList.construct sqrtExact 2 2 [0, 0, 0, 3 / 2, 0, 0] cubicCell10 = some exampleList
    ∧ ((exampleList.voxelMap_.map Prod.fst).Nodup
      ∧ (∀ i, i < 2 →
          exampleList.getVoxelIndex (exampleList.position i) ∈ exampleList.voxelMap_.map Prod.fst)
      ∧ (∀ e ∈ exampleList.voxelMap_, ∀ i, i < 2 →
          e.2.count i = if e.1 = exampleList.getVoxelIndex (exampleList.position i) then 1 else 0)
      ∧ (∀ e ∈ exampleList.voxelMap_, ∀ j ∈ e.2, j < 2)) :=
  ⟨exampleList_constructed,
    construct_voxelMap_partition sqrtExact 2 2 [0, 0, 0, 3 / 2, 0, 0] cubicCell10 exampleList
      exampleList_constructed⟩

/-! ## What the constructor stores -/

/-- What the constructor stores for the grid: the voxel counts, the voxel
sizes (all finite), their fractional image (no lane zero) and the search
radii, each as `gridSizing` computes it from the cell lengths. -/
theorem NeighborList.construct_grid (sqrtf : ℚ → ℚ) (c : ℚ) (N : Nat) (pos cell : List ℚ)
    (nl : NeighborList) (h : NeighborList.construct sqrtf c N pos cell = some nl) :
    (nl.nx_ = nl.n_voxels_.x ∧ nl.ny_ = nl.n_voxels_.y ∧ nl.nz_ = nl.n_voxels_.z)
      ∧ (nl.n_voxels_.x = n_voxels_axis nl.unitcell_lengths_.x c
        ∧ nl.n_voxels_.y = n_voxels_axis nl.unitcell_lengths_.y c
        ∧ nl.n_voxels_.z = n_voxels_axis nl.unitcell_lengths_.z c)
      ∧ (voxel_size_axis nl.unitcell_lengths_.x c = FloatVal.finite nl.voxel_size_.x
        ∧ voxel_size_axis nl.unitcell_lengths_.y c = FloatVal.finite nl.voxel_size_.y
        ∧ voxel_size_axis nl.unitcell_lengths_.z c = FloatVal.finite nl.voxel_size_.z)
      ∧ (nl.d_index_.x = d_index_axis c (voxel_size_axis nl.unitcell_lengths_.x c)
        ∧ nl.d_index_.y = d_index_axis c (voxel_size_axis nl.unitcell_lengths_.y c)
        ∧ nl.d_index_.z = d_index_axis c (voxel_size_axis nl.unitcell_lengths_.z c))
      ∧ nl.voxel_size_r_ = nl.unitcell_.to_recip nl.voxel_size_
      ∧ nl.unitcell_lengths_ = (NeighborList.gridSizing sqrtf c cell).unitcell_lengths := by
  unfold NeighborList.construct at h
  simp only at h
  split at h
  · exact absurd h (by simp)
  · split at h
    · rename_i vx vy vz hvx hvy hvz
      split at h
      · exact absurd h (by simp)
      · rw [Option.some.injEq, NeighborList.foldl_addLocation] at h
        subst h
        exact ⟨⟨rfl, rfl, rfl⟩, ⟨rfl, rfl, rfl⟩, ⟨hvx, hvy, hvz⟩, ⟨rfl, rfl, rfl⟩, rfl, rfl⟩
    · exact absurd h (by simp)

/-- The constructor produces a list whenever the cell is not singular, the
three voxel sizes are finite and their fractional image has no zero lane;
nothing else is required, of the point count and of the cutoff in
particular. -/
theorem NeighborList.construct_eq_some (sqrtf : ℚ → ℚ) (c : ℚ) (N : Nat) (pos cell : List ℚ)
    (vx vy vz : ℚ) (hdet : (Unitcell.ofVectors cell).det ≠ 0)
    (hx : (NeighborList.gridSizing sqrtf c cell).voxel_size_x = FloatVal.finite vx)
    (hy : (NeighborList.gridSizing sqrtf c cell).voxel_size_y = FloatVal.finite vy)
    (hz : (NeighborList.gridSizing sqrtf c cell).voxel_size_z = FloatVal.finite vz)
    (hrx : ((Unitcell.ofVectors cell).to_recip ⟨vx, vy, vz, 0⟩).x ≠ 0)
    (hry : ((Unitcell.ofVectors cell).to_recip ⟨vx, vy, vz, 0⟩).y ≠ 0)
    (hrz : ((Unitcell.ofVectors cell).to_recip ⟨vx, vy, vz, 0⟩).z ≠ 0) :
    ∃ nl, NeighborList.construct sqrtf c N pos cell = some nl := by
  unfold NeighborList.construct
  simp only [if_neg hdet, hx, hy, hz]
  rw [if_neg (by simp only [not_or]; exact ⟨hrx, hry, hrz⟩)]
  exact ⟨_, rfl⟩

/-- C15 (amended): for every float cutoff `c` in `[2^-60, 2^60]` and every
cell, on each axis whose length `L` satisfies
`2·c ≤ L ≤ 2^31·c` the constructor computes at least one voxel, a finite
voxel size `v`, a float quotient `q = c / v` in `[0, 1)`, and the search
radius `floor(q) + 1`, which is exactly 1. -/
theorem gridSizing_d_index_one (sqrtf : ℚ → ℚ) (c : ℚ) (cell : List ℚ)
    (hc1 : 1 / 2 ^ 60 ≤ c) (hc2 : c ≤ 2 ^ 60) (hcf : rnd32 c = FloatVal.finite c) :
    (2 * c ≤ (NeighborList.gridSizing sqrtf c cell).unitcell_lengths.x →
        (NeighborList.gridSizing sqrtf c cell).unitcell_lengths.x ≤ 2 ^ 31 * c →
        1 ≤ (NeighborList.gridSizing sqrtf c cell).n_voxels.x
          ∧ (∃ v q : ℚ, (NeighborList.gridSizing sqrtf c cell).voxel_size_x = FloatVal.finite v
              ∧ fdiv (FloatVal.finite c) (FloatVal.finite v) = FloatVal.finite q
              ∧ 0 ≤ q ∧ q < 1
              ∧ (NeighborList.gridSizing sqrtf c cell).d_index.x = ⌊q⌋ + 1)
          ∧ (NeighborList.gridSizing sqrtf c cell).d_index.x = 1)
      ∧ (2 * c ≤ (NeighborList.gridSizing sqrtf c cell).unitcell_lengths.y →
        (NeighborList.gridSizing sqrtf c cell).unitcell_lengths.y ≤ 2 ^ 31 * c →
        1 ≤ (NeighborList.gridSizing sqrtf c cell).n_voxels.y
          ∧ (∃ v q : ℚ, (NeighborList.gridSizing sqrtf c cell).voxel_size_y = FloatVal.finite v
              ∧ fdiv (FloatVal.finite c) (FloatVal.finite v) = FloatVal.finite q
              ∧ 0 ≤ q ∧ q < 1
              ∧ (NeighborList.gridSizing sqrtf c cell).d_index.y = ⌊q⌋ + 1)
          ∧ (NeighborList.gridSizing sqrtf c cell).d_index.y = 1)
      ∧ (2 * c ≤ (NeighborList.gridSizing sqrtf c cell).unitcell_lengths.z →
        (NeighborList.gridSizing sqrtf c cell).unitcell_lengths.z ≤ 2 ^ 31 * c →
        1 ≤ (NeighborList.gridSizing sqrtf c cell).n_voxels.z
          ∧ (∃ v q : ℚ, (NeighborList.gridSizing sqrtf c cell).voxel_size_z = FloatVal.finite v
              ∧ fdiv (FloatVal.finite c) (FloatVal.finite v) = FloatVal.finite q
              ∧ 0 ≤ q ∧ q < 1
              ∧ (NeighborList.gridSizing sqrtf c cell).d_index.z = ⌊q⌋ + 1)
          ∧ (NeighborList.gridSizing sqrtf c cell).d_index.z = 1) := by
  have hcpos : 0 < c := lt_of_lt_of_le (by positivity) hc1
  have h2c := rnd32_double_pos c hcf hc1 hc2
  have key : ∀ L : ℚ, 2 * c ≤ L → L ≤ 2 ^ 31 * c →
      1 ≤ n_voxels_axis L c
        ∧ (∃ v q : ℚ, voxel_size_axis L c = FloatVal.finite v
            ∧ fdiv (FloatVal.finite c) (FloatVal.finite v) = FloatVal.finite q
            ∧ 0 ≤ q ∧ q < 1 ∧ d_index_axis c (voxel_size_axis L c) = ⌊q⌋ + 1)
        ∧ d_index_axis c (voxel_size_axis L c) = 1 := by
    intro L hL1 hL2
    obtain ⟨-, -, hn, hcase, hd⟩ := grid_axis L c hc1 hc2 h2c (by linarith) hL2
    have hn1 := hn hL1
    rcases hcase with ⟨h0, -⟩ | ⟨-, v, hv, hge, -, q, hq, hq0, hq1⟩
    · omega
    · have hvpos : 0 < v := by
        have : 0 < 2 * c * (1 - 1 / 4194304) := mul_pos (by linarith) (by norm_num)
        linarith
      have hfl : ⌊q⌋ = 0 := by
        rw [Int.floor_eq_iff]
        constructor
        · simpa using hq0
        · simpa using hq1
      refine ⟨hn1, ⟨v, q, hv, ?_, hq0, hq1, ?_⟩, hd⟩
      · rw [fdiv_finite c v (ne_of_gt hvpos), hq]
      · rw [hd, hfl]
        rfl
  exact ⟨key _, key _, key _⟩

/-- C15 (amended), at the cell `diag(10,10,10)` with cutoff 2. -/
theorem gridSizing_d_index_one_witness :
    (NeighborList.gridSizing sqrtExact 2 cubicCell10).unitcell_lengths.x = 10
      ∧ (1 ≤ (NeighborList.gridSizing sqrtExact 2 cubicCell10).n_voxels.x
        ∧ (∃ v q : ℚ, (NeighborList.gridSizing sqrtExact 2 cubicCell10).voxel_size_x
                = FloatVal.finite v
            ∧ fdiv (FloatVal.finite 2) (FloatVal.finite v) = FloatVal.finite q
            ∧ 0 ≤ q ∧ q < 1
            ∧ (NeighborList.gridSizing sqrtExact 2 cubicCell10).d_index.x = ⌊q⌋ + 1)
        ∧ (NeighborList.gridSizing sqrtExact 2 cubicCell10).d_index.x = 1) :=
  ⟨by decide!,
    (gridSizing_d_index_one sqrtExact 2 cubicCell10 (by norm_num) (by norm_num)
      (by decide!)).1 (by decide!) (by decide!)⟩

/-- C15 (as stated) fails.  (a) For the cell `diag(512,512,512)` and the float
cutoff `2^-23` every axis is longer than `2·c`, yet the float quotient
`512 / (2·c) = 2^31` does not fit an `int`: the constructor stores the voxel
count `INT_MIN`, the voxel size `-2^-22` and the search radius
`floor(-1/2) + 1 = 0`, not 1.  (b) For the cell `diag(9,9,9)` and the float
cutoff `15099495/2^24` the axis is longer than `2·c` and the search radius is
1, but the quotient `c / voxel_size` is `8388609/2^24`, above `1/2`. -/
theorem gridSizing_d_index_counterexample :
    ((NeighborList.gridSizing sqrtExact (1 / 8388608)
          [512, 0, 0, 0, 512, 0, 0, 0, 512]).unitcell_lengths.x = 512
        ∧ (2 : ℚ) * (1 / 8388608) ≤ 512
        ∧ rnd32 (1 / 8388608) = FloatVal.finite (1 / 8388608)
        ∧ (NeighborList.gridSizing sqrtExact (1 / 8388608)
          [512, 0, 0, 0, 512, 0, 0, 0, 512]).n_voxels.x = -2147483648
        ∧ (NeighborList.gridSizing sqrtExact (1 / 8388608)
          [512, 0, 0, 0, 512, 0, 0, 0, 512]).voxel_size_x = FloatVal.finite (-1 / 4194304)
        ∧ (NeighborList.gridSizing sqrtExact (1 / 8388608)
          [512, 0, 0, 0, 512, 0, 0, 0, 512]).d_index.x = 0)
      ∧ ((NeighborList.gridSizing sqrtExact (15099495 / 16777216)
          [9, 0, 0, 0, 9, 0, 0, 0, 9]).unitcell_lengths.x = 9
        ∧ (2 : ℚ) * (15099495 / 16777216) ≤ 9
        ∧ (NeighborList.gridSizing sqrtExact (15099495 / 16777216)
          [9, 0, 0, 0, 9, 0, 0, 0, 9]).d_index.x = 1
        ∧ fdiv (FloatVal.finite (15099495 / 16777216))
            (NeighborList.gridSizing sqrtExact (15099495 / 16777216)
              [9, 0, 0, 0, 9, 0, 0, 0, 9]).voxel_size_x = FloatVal.finite (8388609 / 16777216)
        ∧ (1 / 2 : ℚ) < 8388609 / 16777216) := by
  decide!

/-- C16 (amended): for every cutoff and every cell, the search radius the
constructor computes on an axis is `floor(q) + 1`, where `q` is the float
quotient of the cutoff by the voxel size of the axis, as long as `q` is
finite and below `2^23` in magnitude (`q = 0` for an infinite voxel size). -/
theorem gridSizing_d_index_floor (sqrtf : ℚ → ℚ) (c : ℚ) (cell : List ℚ) :
    (∀ q : ℚ, fdiv (FloatVal.finite c) (NeighborList.gridSizing sqrtf c cell).voxel_size_x
          = FloatVal.finite q → -8388608 ≤ q → q < 8388608 →
        (NeighborList.gridSizing sqrtf c cell).d_index.x = ⌊q⌋ + 1)
      ∧ (∀ q : ℚ, fdiv (FloatVal.finite c) (NeighborList.gridSizing sqrtf c cell).voxel_size_y
          = FloatVal.finite q → -8388608 ≤ q → q < 8388608 →
        (NeighborList.gridSizing sqrtf c cell).d_index.y = ⌊q⌋ + 1)
      ∧ (∀ q : ℚ, fdiv (FloatVal.finite c) (NeighborList.gridSizing sqrtf c cell).voxel_size_z
          = FloatVal.finite q → -8388608 ≤ q → q < 8388608 →
        (NeighborList.gridSizing sqrtf c cell).d_index.z = ⌊q⌋ + 1) :=
  ⟨fun q hq h1 h2 => d_index_axis_floor c _ q hq h1 h2,
    fun q hq h1 h2 => d_index_axis_floor c _ q hq h1 h2,
    fun q hq h1 h2 => d_index_axis_floor c _ q hq h1 h2⟩

/-- C16 (as stated) fails: for the cell `diag(10,10,10)` and cutoff 2 the
voxel size is 5, the float quotient `2 / 5` is `13421773/2^25`, and the
constructor stores the search radius 1, while `ceil(2 / 5) + 1` is 2. -/
theorem gridSizing_d_index_ceil_counterexample :
    (NeighborList.gridSizing sqrtExact 2 cubicCell10).voxel_size_x = FloatVal.finite 5
      ∧ fdiv (FloatVal.finite 2) (FloatVal.finite 5) = FloatVal.finite (13421773 / 33554432)
      ∧ (NeighborList.gridSizing sqrtExact 2 cubicCell10).d_index.x = 1
      ∧ ⌈(13421773 / 33554432 : ℚ)⌉ + 1 = 2
      ∧ ⌈(2 / 5 : ℚ)⌉ + 1 = 2
      ∧ (NeighborList.gridSizing sqrtExact 2 cubicCell10).d_index.x
          ≠ ⌈(13421773 / 33554432 : ℚ)⌉ + 1
      ∧ NeighborList.construct sqrtExact 2 2 [0, 0, 0, 3 / 2, 0, 0] cubicCell10
          = some exampleList
      ∧ exampleList.d_index_.x = 1 := by
  decide!

/-- C16 (amended), at the cell `diag(10,10,10)` with cutoff 2 and at the cell
`diag(3,10,10)` with cutoff 2, whose x axis has the voxel size `+∞`. -/
theorem gridSizing_d_index_floor_witness :
    (fdiv (FloatVal.finite 2) (NeighborList.gridSizing sqrtExact 2 cubicCell10).voxel_size_x
          = FloatVal.finite (13421773 / 33554432)
        ∧ (NeighborList.gridSizing sqrtExact 2 cubicCell10).d_index.x
          = ⌊(13421773 / 33554432 : ℚ)⌋ + 1)
      ∧ (fdiv (FloatVal.finite 2)
            (NeighborList.gridSizing sqrtExact 2 [3, 0, 0, 0, 10, 0, 0, 0, 10]).voxel_size_x
          = FloatVal.finite 0
        ∧ (NeighborList.gridSizing sqrtExact 2 [3, 0, 0, 0, 10, 0, 0, 0, 10]).d_index.x
          = ⌊(0 : ℚ)⌋ + 1) :=
  ⟨⟨by decide!,
      (gridSizing_d_index_floor sqrtExact 2 cubicCell10).1 (13421773 / 33554432) (by decide!)
        (by norm_num) (by norm_num)⟩,
    ⟨by decide!,
      (gridSizing_d_index_floor sqrtExact 2 [3, 0, 0, 0, 10, 0, 0, 0, 10]).1 0 (by decide!)
        (by norm_num) (by norm_num)⟩⟩

/-- C11 (amended): the constructor checks neither the point count nor the
cutoff.  (a) For every point count (0 included) and every cutoff it produces a
list that stores both as given, whenever the cell is not singular, the three
voxel sizes are finite and their fractional image has no zero lane.  (b) For
a float cutoff `c ≤ 0` that is 0 or of magnitude in `[2^-60, 2^60]`, a cell
that is not singular, has axis lengths in `[2^-60, 2^60]` and
maps no vector of three negative coordinates to a fractional vector with a
zero lane, the constructor produces a list, with a negative voxel count on
every axis. -/
theorem construct_no_validation :
    (∀ (sqrtf : ℚ → ℚ) (c : ℚ) (N : Nat) (pos cell : List ℚ) (vx vy vz : ℚ),
        (Unitcell.ofVectors cell).det ≠ 0 →
        (NeighborList.gridSizing sqrtf c cell).voxel_size_x = FloatVal.finite vx →
        (NeighborList.gridSizing sqrtf c cell).voxel_size_y = FloatVal.finite vy →
        (NeighborList.gridSizing sqrtf c cell).voxel_size_z = FloatVal.finite vz →
        ((Unitcell.ofVectors cell).to_recip ⟨vx, vy, vz, 0⟩).x ≠ 0 →
        ((Unitcell.ofVectors cell).to_recip ⟨vx, vy, vz, 0⟩).y ≠ 0 →
        ((Unitcell.ofVectors cell).to_recip ⟨vx, vy, vz, 0⟩).z ≠ 0 →
        ∃ nl, NeighborList.construct sqrtf c N pos cell = some nl
          ∧ nl.n_atoms_ = N ∧ nl.max_distance_ = c)
      ∧ (∀ (sqrtf : ℚ → ℚ) (c : ℚ) (N : Nat) (pos cell : List ℚ),
        (c = 0 ∨ (-(2 ^ 60) ≤ c ∧ c ≤ -(1 / 2 ^ 60))) →
        rnd32 c = FloatVal.finite c →
        (Unitcell.ofVectors cell).det ≠ 0 →
        (1 / 2 ^ 60 ≤ (NeighborList.gridSizing sqrtf c cell).unitcell_lengths.x
          ∧ (NeighborList.gridSizing sqrtf c cell).unitcell_lengths.x ≤ 2 ^ 60) →
        (1 / 2 ^ 60 ≤ (NeighborList.gridSizing sqrtf c cell).unitcell_lengths.y
          ∧ (NeighborList.gridSizing sqrtf c cell).unitcell_lengths.y ≤ 2 ^ 60) →
        (1 / 2 ^ 60 ≤ (NeighborList.gridSizing sqrtf c cell).unitcell_lengths.z
          ∧ (NeighborList.gridSizing sqrtf c cell).unitcell_lengths.z ≤ 2 ^ 60) →
        (∀ vx vy vz : ℚ, vx < 0 → vy < 0 → vz < 0 →
          ((Unitcell.ofVectors cell).to_recip ⟨vx, vy, vz, 0⟩).x ≠ 0
            ∧ ((Unitcell.ofVectors cell).to_recip ⟨vx, vy, vz, 0⟩).y ≠ 0
            ∧ ((Unitcell.ofVectors cell).to_recip ⟨vx, vy, vz, 0⟩).z ≠ 0) →
        ∃ nl, NeighborList.construct sqrtf c N pos cell = some nl
          ∧ nl.n_atoms_ = N ∧ nl.max_distance_ = c
          ∧ nl.nx_ ≤ -1 ∧ nl.ny_ ≤ -1 ∧ nl.nz_ ≤ -1) := by
  constructor
  · intro sqrtf c N pos cell vx vy vz hdet hx hy hz hrx hry hrz
    obtain ⟨nl, hnl⟩ :=
      NeighborList.construct_eq_some sqrtf c N pos cell vx vy vz hdet hx hy hz hrx hry hrz
    obtain ⟨hN, hc, -, -, -⟩ := NeighborList.construct_some sqrtf c N pos cell nl hnl
    exact ⟨nl, hnl, hN, hc⟩
  · intro sqrtf c N pos cell hc hcf hdet hLx hLy hLz hr
    have h2c := rnd32_double_nonpos c hcf hc
    obtain ⟨-, hnx, vx, hvx, hvx0⟩ := grid_axis_nonpos _ c hc h2c hLx.1 hLx.2
    obtain ⟨-, hny, vy, hvy, hvy0⟩ := grid_axis_nonpos _ c hc h2c hLy.1 hLy.2
    obtain ⟨-, hnz, vz, hvz, hvz0⟩ := grid_axis_nonpos _ c hc h2c hLz.1 hLz.2
    obtain ⟨hrx, hry, hrz⟩ := hr vx vy vz hvx0 hvy0 hvz0
    obtain ⟨nl, hnl⟩ :=
      NeighborList.construct_eq_some sqrtf c N pos cell vx vy vz hdet hvx hvy hvz hrx hry hrz
    obtain ⟨hN, hcc, -, -, -⟩ := NeighborList.construct_some sqrtf c N pos cell nl hnl
    obtain ⟨⟨e1, e2, e3⟩, ⟨f1, f2, f3⟩, -, -, -, hL⟩ :=
      NeighborList.construct_grid sqrtf c N pos cell nl hnl
    refine ⟨nl, hnl, hN, hcc, ?_, ?_, ?_⟩
    · rw [e1, f1, hL]; exact hnx
    · rw [e2, f2, hL]; exact hny
    · rw [e3, f3, hL]; exact hnz

/-- C11 (as stated) fails: in the cell `diag(10,10,10)` construction with
cutoff 2 and no points produces a list with an empty voxel map, construction
with cutoff -2 and two points produces a list with -3 voxels per axis, and
construction with cutoff 0 and two points produces a list with `INT_MIN`
voxels per axis; none fails. -/
theorem construct_no_validation_counterexample :
    (NeighborList.construct sqrtExact 2 0 [] cubicCell10).map
        (fun nl => (nl.n_atoms_, nl.n_voxels_, nl.voxelMap_))
      = some (0, ⟨2, 2, 2, 0⟩, [])
    ∧ (NeighborList.construct sqrtExact (-2) 2 [0, 0, 0, 3 / 2, 0, 0] cubicCell10).map
        (fun nl => (nl.n_atoms_, nl.n_voxels_, nl.max_distance_))
      = some (2, ⟨-3, -3, -3, 0⟩, -2)
    ∧ (NeighborList.construct sqrtExact 0 2 [0, 0, 0, 3 / 2, 0, 0] cubicCell10).map
        (fun nl => (nl.n_atoms_, nl.nx_, nl.ny_, nl.nz_, nl.max_distance_))
      = some (2, -2147483648, -2147483648, -2147483648, 0) := by
  decide!

/-- C11 (amended), at the cell `diag(10,10,10)`: no points with cutoff 2, and
two points with the cutoffs -2 and 0. -/
theorem construct_no_validation_witness :
    (∃ nl, NeighborList.construct sqrtExact 2 0 [] cubicCell10 = some nl
        ∧ nl.n_atoms_ = 0 ∧ nl.max_distance_ = 2)
      ∧ (∃ nl, NeighborList.construct sqrtExact (-2) 2 [0, 0, 0, 3 / 2, 0, 0] cubicCell10
            = some nl
          ∧ nl.n_atoms_ = 2 ∧ nl.max_distance_ = -2
          ∧ nl.nx_ ≤ -1 ∧ nl.ny_ ≤ -1 ∧ nl.nz_ ≤ -1)
      ∧ (∃ nl, NeighborList.construct sqrtExact 0 2 [0, 0, 0, 3 / 2, 0, 0] cubicCell10
            = some nl
          ∧ nl.n_atoms_ = 2 ∧ nl.max_distance_ = 0
          ∧ nl.nx_ ≤ -1 ∧ nl.ny_ ≤ -1 ∧ nl.nz_ ≤ -1) := by
  have hr : ∀ vx vy vz : ℚ, vx < 0 → vy < 0 → vz < 0 →
      ((Unitcell.ofVectors cubicCell10).to_recip ⟨vx, vy, vz, 0⟩).x ≠ 0
        ∧ ((Unitcell.ofVectors cubicCell10).to_recip ⟨vx, vy, vz, 0⟩).y ≠ 0
        ∧ ((Unitcell.ofVectors cubicCell10).to_recip ⟨vx, vy, vz, 0⟩).z ≠ 0 := by
    intro vx vy vz hx hy hz
    simp only [Unitcell.to_recip, Unitcell.to_recip3, Unitcell.det, Unitcell.ofVectors, load3,
      cubicCell10]
    norm_num
    exact ⟨ne_of_lt hx, ne_of_lt hy, ne_of_lt hz⟩
  exact ⟨construct_no_validation.1 sqrtExact 2 0 [] cubicCell10 5 5 5 (by decide!) (by decide!)
      (by decide!) (by decide!) (by decide!) (by decide!) (by decide!),
    construct_no_validation.2 sqrtExact (-2) 2 [0, 0, 0, 3 / 2, 0, 0] cubicCell10
      (Or.inr ⟨by norm_num, by norm_num⟩) (by decide!) (by decide!)
      ⟨by decide!, by decide!⟩ ⟨by decide!, by decide!⟩ ⟨by decide!, by decide!⟩ hr,
    construct_no_validation.2 sqrtExact 0 2 [0, 0, 0, 3 / 2, 0, 0] cubicCell10
      (Or.inl rfl) (by decide!) (by decide!)
      ⟨by decide!, by decide!⟩ ⟨by decide!, by decide!⟩ ⟨by decide!, by decide!⟩ hr⟩

/-- C12 fails on the code: cubic cell `diag(10,10,10)`, cutoff 2, points
`(0,0,0)` and `(9,0,0)`: `getNeighbors(0)` appends two pairs, both `(0, 1)`
with `d2 = 1`, where `getNeighborsNaive(0)` appends that pair once. -/
theorem scenarioB_getNeighbors_twice :
    (NeighborList.construct sqrtExact 2 2 [0, 0, 0, 9, 0, 0] cubicCell10).map
        (fun nl => ((nl.getNeighbors 0 []).length, nl.getNeighbors 0 [],
          nl.getNeighborsNaive 0 []))
      = some (2, [⟨0, 1, 1⟩, ⟨0, 1, 1⟩], [⟨0, 1, 1⟩]) := by
  decide!

/-- C13: for the cubic cell `diag(10,10,10)`, cutoff 2 and the points
`(0,0,0)` and `(1.5,0,0)`, `getNeighbors(0)` appends exactly the pair `(0, 1)`
with `d2 = 9/4`, and `getNeighbors(1)` appends nothing. -/
theorem scenarioA_getNeighbors :
    NeighborList.construct sqrtExact 2 2 [0, 0, 0, 3 / 2, 0, 0] cubicCell10 = some exampleList
    ∧ (∀ neighbors, exampleList.getNeighbors 0 neighbors = neighbors ++ [⟨0, 1, 9 / 4⟩])
    ∧ (∀ neighbors, exampleList.getNeighbors 1 neighbors = neighbors) := by
  refine ⟨exampleList_constructed, fun neighbors => ?_, fun neighbors => ?_⟩
  · rw [exampleList.getNeighbors_eq 0 neighbors]
    congr 1
    decide!
  · rw [exampleList.getNeighbors_eq 1 neighbors]
    have h1 : exampleList.getNeighbors 1 [] = [] := by decide!
    rw [h1, List.append_nil]

/-- C14: for every list, every index `i` and every initial output list,
`getNeighbors(i)` and `getNeighborsNaive(i)` return the initial list followed
by the appended pairs: the entries already present stay in place, unchanged. -/
theorem queries_append_only (nl : NeighborList) (i : Nat) (neighbors : List AtomPair) :
    (∃ added, nl.getNeighbors i neighbors = neighbors ++ added)
      ∧ (∃ added, nl.getNeighborsNaive i neighbors = neighbors ++ added) :=
  ⟨⟨nl.getNeighbors i [], nl.getNeighbors_eq i neighbors⟩,
    ⟨nl.getNeighborsNaive i [], nl.getNeighborsNaive_eq i neighbors⟩⟩

/-! ## The scan of the grid query -/

/-- The scan of `getNeighbors(i)` runs over `center_index ± d_index_`. -/
theorem NeighborList.getNeighbors_center_index (nl : NeighborList) (i : Nat)
    (neighbors : List AtomPair) :
    nl.getNeighbors i neighbors
      = (intRange ((nl.center_index i).x - nl.d_index_.x)
            ((nl.center_index i).x + nl.d_index_.x)).foldl (fun acc ix =>
          (intRange ((nl.center_index i).y - nl.d_index_.y)
              ((nl.center_index i).y + nl.d_index_.y)).foldl (fun acc iy =>
            (intRange ((nl.center_index i).z - nl.d_index_.z)
                ((nl.center_index i).z + nl.d_index_.z)).foldl (fun acc iz =>
              nl.scanVoxel i acc (wrapIndex ix nl.nx_) (wrapIndex iy nl.ny_)
                (wrapIndex iz nl.nz_)) acc) acc) neighbors :=
  rfl

/-- The lane of `getVoxelIndexVector` lies strictly between `-n` and `n`. -/
theorem getVoxelIndexLane_bounds (s vsr : ℚ) (n : Int) (hn : 1 ≤ n) :
    -n < getVoxelIndexLane s vsr n ∧ getVoxelIndexLane s vsr n < n := by
  by_cases hf : -n ≤ ⌊s / vsr⌋
  · obtain ⟨h0, h1, -⟩ := getVoxelIndexLane_of_ge s vsr n hn hf
    exact ⟨by omega, h1⟩
  · have hle := getVoxelIndexLane_of_lt s vsr n hn (by omega)
    refine ⟨?_, by omega⟩
    unfold getVoxelIndexLane fmod
    dsimp only
    rw [if_pos (by omega)]
    have h2 : Int.tmod (-(⌊s / vsr⌋ + n)) n < n := Int.tmod_lt_of_pos _ (by omega)
    have h3 : Int.tmod (⌊s / vsr⌋ + n) n = -Int.tmod (-(⌊s / vsr⌋ + n)) n := by
      rw [Int.tmod_def, Int.tmod_def, Int.neg_tdiv]
      ring
    rw [h3]
    omega

/-- The lane of `getVoxelIndexVector` is the unreduced floor exactly when that
floor lies in `[0, n)`. -/
theorem getVoxelIndexLane_eq_floor_iff (s vsr : ℚ) (n : Int) (hn : 1 ≤ n) :
    getVoxelIndexLane s vsr n = ⌊s / vsr⌋ ↔ 0 ≤ ⌊s / vsr⌋ ∧ ⌊s / vsr⌋ < n := by
  constructor
  · intro h
    by_cases hf : -n ≤ ⌊s / vsr⌋
    · obtain ⟨h0, h1, -⟩ := getVoxelIndexLane_of_ge s vsr n hn hf
      rw [h] at h0 h1
      exact ⟨h0, h1⟩
    · have hb := (getVoxelIndexLane_bounds s vsr n hn).1
      rw [h] at hb
      omega
  · intro h
    obtain ⟨-, -, h2⟩ := getVoxelIndexLane_of_ge s vsr n hn (by omega)
    rw [h2, Int.emod_eq_of_lt h.1 h.2]

/-- C17 (amended): in `getNeighbors(i)` the center voxel coordinate is
`getVoxelIndexVector(s_i)`, that is `floor(s_i / voxel_size_r)` after the
periodic reduction `fmod(f + (f < 0 & n), n)`; with at least one voxel per
axis, each lane lies strictly between `-n_voxels` and `n_voxels` and equals
the unreduced floor exactly when that floor lies in `[0, n_voxels)`. -/
theorem center_index_reduced (nl : NeighborList) (i : Nat) (hx : 1 ≤ nl.n_voxels_.x)
    (hy : 1 ≤ nl.n_voxels_.y) (hz : 1 ≤ nl.n_voxels_.z) :
    nl.center_index i = nl.getVoxelIndexVector (nl.position i)
    ∧ ((nl.center_index i).x
          = fmod (⌊(nl.position i).x / nl.voxel_size_r_.x⌋
              + (if ⌊(nl.position i).x / nl.voxel_size_r_.x⌋ < 0 then nl.n_voxels_.x else 0))
            nl.n_voxels_.x
        ∧ -nl.n_voxels_.x < (nl.center_index i).x ∧ (nl.center_index i).x < nl.n_voxels_.x
        ∧ ((nl.center_index i).x = ⌊(nl.position i).x / nl.voxel_size_r_.x⌋
            ↔ 0 ≤ ⌊(nl.position i).x / nl.voxel_size_r_.x⌋
              ∧ ⌊(nl.position i).x / nl.voxel_size_r_.x⌋ < nl.n_voxels_.x))
    ∧ ((nl.center_index i).y
          = fmod (⌊(nl.position i).y / nl.voxel_size_r_.y⌋
              + (if ⌊(nl.position i).y / nl.voxel_size_r_.y⌋ < 0 then nl.n_voxels_.y else 0))
            nl.n_voxels_.y
        ∧ -nl.n_voxels_.y < (nl.center_index i).y ∧ (nl.center_index i).y < nl.n_voxels_.y
        ∧ ((nl.center_index i).y = ⌊(nl.position i).y / nl.voxel_size_r_.y⌋
            ↔ 0 ≤ ⌊(nl.position i).y / nl.voxel_size_r_.y⌋
              ∧ ⌊(nl.position i).y / nl.voxel_size_r_.y⌋ < nl.n_voxels_.y))
    ∧ ((nl.center_index i).z
          = fmod (⌊(nl.position i).z / nl.voxel_size_r_.z⌋
              + (if ⌊(nl.position i).z / nl.voxel_size_r_.z⌋ < 0 then nl.n_voxels_.z else 0))
            nl.n_voxels_.z
        ∧ -nl.n_voxels_.z < (nl.center_index i).z ∧ (nl.center_index i).z < nl.n_voxels_.z
        ∧ ((nl.center_index i).z = ⌊(nl.position i).z / nl.voxel_size_r_.z⌋
            ↔ 0 ≤ ⌊(nl.position i).z / nl.voxel_size_r_.z⌋
              ∧ ⌊(nl.position i).z / nl.voxel_size_r_.z⌋ < nl.n_voxels_.z)) :=
  ⟨rfl,
    ⟨rfl, (getVoxelIndexLane_bounds _ _ _ hx).1, (getVoxelIndexLane_bounds _ _ _ hx).2,
      getVoxelIndexLane_eq_floor_iff _ _ _ hx⟩,
    ⟨rfl, (getVoxelIndexLane_bounds _ _ _ hy).1, (getVoxelIndexLane_bounds _ _ _ hy).2,
      getVoxelIndexLane_eq_floor_iff _ _ _ hy⟩,
    ⟨rfl, (getVoxelIndexLane_bounds _ _ _ hz).1, (getVoxelIndexLane_bounds _ _ _ hz).2,
      getVoxelIndexLane_eq_floor_iff _ _ _ hz⟩⟩

/-- C17 (as stated) fails: cell `diag(10,10,10)`, cutoff 2 (two voxels per
axis, fractional voxel size 1/2), one point at `(12,0,0)`: the unreduced x
coordinate is `floor(1.2 / 0.5) = 2`, the center index of `getNeighbors(0)`
is `(0,0,0)`. -/
theorem center_index_counterexample :
    (NeighborList.construct sqrtExact 2 1 [12, 0, 0] cubicCell10).map
        (fun nl => (nl.n_voxels_, nl.position 0, ⌊(nl.position 0).x / nl.voxel_size_r_.x⌋,
          nl.center_index 0))
      = some (⟨2, 2, 2, 0⟩, ⟨6 / 5, 0, 0, 0⟩, 2, ⟨0, 0, 0, 0⟩) := by
  decide!

/-- C17 (amended), at the list built for cutoff 2 in the cell `diag(10,10,10)`
from the points `(0,0,0)` and `(1.5,0,0)`, query index 1. -/
theorem center_index_reduced_witness :
    (1 ≤ exampleList.n_voxels_.x ∧ 1 ≤ exampleList.n_voxels_.y ∧ 1 ≤ exampleList.n_voxels_.z)
    ∧ exampleList.center_index 1 = exampleList.getVoxelIndexVector (exampleList.position 1)
    ∧ exampleList.center_index 1 = ⟨0, 0, 0, 0⟩ :=
  ⟨by decide!,
    (center_index_reduced exampleList 1 (by decide!) (by decide!) (by decide!)).1,
    by decide!⟩

theorem mem_intRange (lo hi k : Int) : k ∈ intRange lo hi ↔ lo ≤ k ∧ k ≤ hi := by
  unfold intRange
  simp only [List.mem_map, List.bind_eq_flatMap, List.mem_flatMap, List.pure_def,
    List.mem_singleton, List.mem_range]
  constructor
  · rintro ⟨a, ⟨b, hb, rfl⟩, rfl⟩
    omega
  · intro h
    refine ⟨k - lo, ⟨(k - lo).toNat, ?_, ?_⟩, ?_⟩
    · omega
    · omega
    · omega

theorem wrapIndex_in_range (ix n : Int) (hn : 1 ≤ n) (h1 : -n ≤ ix) (h2 : ix ≤ n) :
    0 ≤ wrapIndex ix n ∧ wrapIndex ix n < n := by
  unfold wrapIndex
  split_ifs <;> omega

/-- C18 (amended): for a constructed list whose cutoff `c` is a float in
`[2^-60, 2^60]` and whose three axis lengths lie in
`[2·c, 2^31·c]`, and every query index `i`, every coordinate `x`, `y`, `z`
that the conditional wrap of the scan loop of `getNeighbors(i)` produces from
`ix`, `iy`, `iz` in `center_index ± d_index` lies in `[0, nx)`, `[0, ny)`,
`[0, nz)`. -/
theorem scan_candidates_in_range (sqrtf : ℚ → ℚ) (c : ℚ) (N : Nat) (pos cell : List ℚ)
    (nl : NeighborList) (h : NeighborList.construct sqrtf c N pos cell = some nl)
    (hc1 : 1 / 2 ^ 60 ≤ c) (hc2 : c ≤ 2 ^ 60) (hcf : rnd32 c = FloatVal.finite c)
    (hx : 2 * c ≤ nl.unitcell_lengths_.x ∧ nl.unitcell_lengths_.x ≤ 2 ^ 31 * c)
    (hy : 2 * c ≤ nl.unitcell_lengths_.y ∧ nl.unitcell_lengths_.y ≤ 2 ^ 31 * c)
    (hz : 2 * c ≤ nl.unitcell_lengths_.z ∧ nl.unitcell_lengths_.z ≤ 2 ^ 31 * c) (i : Nat) :
    (∀ ix ∈ intRange ((nl.center_index i).x - nl.d_index_.x)
          ((nl.center_index i).x + nl.d_index_.x),
        0 ≤ wrapIndex ix nl.nx_ ∧ wrapIndex ix nl.nx_ < nl.nx_)
    ∧ (∀ iy ∈ intRange ((nl.center_index i).y - nl.d_index_.y)
          ((nl.center_index i).y + nl.d_index_.y),
        0 ≤ wrapIndex iy nl.ny_ ∧ wrapIndex iy nl.ny_ < nl.ny_)
    ∧ (∀ iz ∈ intRange ((nl.center_index i).z - nl.d_index_.z)
          ((nl.center_index i).z + nl.d_index_.z),
        0 ≤ wrapIndex iz nl.nz_ ∧ wrapIndex iz nl.nz_ < nl.nz_) := by
  obtain ⟨⟨hnx, hny, hnz⟩, ⟨hvnx, hvny, hvnz⟩, -, ⟨hdx, hdy, hdz⟩, -, -⟩ :=
    NeighborList.construct_grid sqrtf c N pos cell nl h
  have hcpos : 0 < c := lt_of_lt_of_le (by positivity) hc1
  have h2c := rnd32_double_pos c hcf hc1 hc2
  have key : ∀ (L s vsr : ℚ) (n d : Int), 2 * c ≤ L → L ≤ 2 ^ 31 * c →
      n = n_voxels_axis L c → d = d_index_axis c (voxel_size_axis L c) →
      ∀ k ∈ intRange (getVoxelIndexLane s vsr n - d) (getVoxelIndexLane s vsr n + d),
        0 ≤ wrapIndex k n ∧ wrapIndex k n < n := by
    intro L s vsr n d hL1 hL2 hn hd k hk
    obtain ⟨-, -, h1, -, h3⟩ := grid_axis L c hc1 hc2 h2c (by linarith) hL2
    have h1' := h1 hL1
    rw [← hn] at h1'
    rw [hd, h3, mem_intRange] at hk
    obtain ⟨hb1, hb2⟩ := getVoxelIndexLane_bounds s vsr n h1'
    exact wrapIndex_in_range k n h1' (by omega) (by omega)
  refine ⟨?_, ?_, ?_⟩
  · rw [hnx]
    exact key _ _ _ _ _ hx.1 hx.2 hvnx hdx
  · rw [hny]
    exact key _ _ _ _ _ hy.1 hy.2 hvny hdy
  · rw [hnz]
    exact key _ _ _ _ _ hz.1 hz.2 hvnz hdz

/-- C18 (as stated) fails: for the cell `diag(512,512,512)`, the float cutoff
`2^-23` and one point at the origin, the constructor stores `nx = INT_MIN`
and the search radius 0; the scan of `getNeighbors(0)` runs over the single
`ix = 0`, and no coordinate lies in `[0, nx)`. -/
theorem scan_candidates_counterexample :
    (NeighborList.construct sqrtExact (1 / 8388608) 1 [0, 0, 0]
        [512, 0, 0, 0, 512, 0, 0, 0, 512]).map
      (fun nl => (nl.unitcell_lengths_.x, nl.nx_, nl.d_index_.x, (nl.center_index 0).x))
      = some (512, -2147483648, 0, 0)
    ∧ (NeighborList.construct sqrtExact (1 / 8388608) 1 [0, 0, 0]
        [512, 0, 0, 0, 512, 0, 0, 0, 512]).map
      (fun nl => (intRange ((nl.center_index 0).x - nl.d_index_.x)
          ((nl.center_index 0).x + nl.d_index_.x),
        decide (0 ≤ wrapIndex 0 nl.nx_ ∧ wrapIndex 0 nl.nx_ < nl.nx_)))
      = some ([0], false) := by
  decide!

/-- C18 (amended), at the list built for cutoff 2 in the cell `diag(10,10,10)`
from the points `(0,0,0)` and `(1.5,0,0)`, query index 0. -/
theorem scan_candidates_in_range_witness :
    NeighborList.construct sqrtExact 2 2 [0, 0, 0, 3 / 2, 0, 0] cubicCell10 = some exampleList
    ∧ (∀ ix ∈ intRange ((exampleList.center_index 0).x - exampleList.d_index_.x)
          ((exampleList.center_index 0).x + exampleList.d_index_.x),
        0 ≤ wrapIndex ix exampleList.nx_ ∧ wrapIndex ix exampleList.nx_ < exampleList.nx_) :=
  ⟨exampleList_constructed,
    (scan_candidates_in_range sqrtExact 2 2 [0, 0, 0, 3 / 2, 0, 0] cubicCell10 exampleList
      exampleList_constructed (by norm_num) (by norm_num) (by decide!) (by decide!) (by decide!)
      (by decide!) 0).1⟩

/-- With a zero fourth lane the `dot4` of `getNeighbors` is the `dot3` of
`getNeighborsNaive`. -/
theorem NeighborList.d2Grid_eq_d2Naive (nl : NeighborList) (i j : Nat)
    (hw : (minimumImage nl.unitcell_ (nl.position i) (nl.position j)).w = 0) :
    nl.d2Grid i j = nl.d2Naive i j := by
  unfold NeighborList.d2Grid NeighborList.d2Naive dot4 dot3
  rw [hw]
  ring

/-- The cell of a constructed list is loaded with `load3`, so the fourth lane
of every Cartesian displacement is zero. -/
theorem NeighborList.construct_fourth_lane (sqrtf : ℚ → ℚ) (c : ℚ) (N : Nat)
    (pos cell : List ℚ) (nl : NeighborList)
    (h : NeighborList.construct sqrtf c N pos cell = some nl) (si sj : fvec4) :
    (minimumImage nl.unitcell_ si sj).w = 0 := by
  obtain ⟨-, -, -, hu, -⟩ := NeighborList.construct_some sqrtf c N pos cell nl h
  rw [hu]
  simp [minimumImage, Unitcell.from_recip, Unitcell.ofVectors, load3]

/-- C20: for a constructed list with `N` points and every query index `i`,
provided the fourth lane of the Cartesian displacement of `i` to every
candidate is zero, every pair that `getNeighbors(i)` appends is also appended
by `getNeighborsNaive(i)`, with the same `j` and the same `d2`. -/
theorem getNeighbors_subset_naive (sqrtf : ℚ → ℚ) (c : ℚ) (N : Nat) (pos cell : List ℚ)
    (nl : NeighborList) (h : NeighborList.construct sqrtf c N pos cell = some nl) (i : Nat)
    (hw : ∀ j, (minimumImage nl.unitcell_ (nl.position i) (nl.position j)).w = 0)
    (neighbors : List AtomPair) :
    ∃ addedGrid addedNaive, nl.getNeighbors i neighbors = neighbors ++ addedGrid
      ∧ nl.getNeighborsNaive i neighbors = neighbors ++ addedNaive
      ∧ ∀ p ∈ addedGrid, p ∈ addedNaive := by
  obtain ⟨hN, -, -, -, hH⟩ := NeighborList.construct_some sqrtf c N pos cell nl h
  refine ⟨nl.getNeighbors i [], nl.getNeighborsNaive i [], nl.getNeighbors_eq i neighbors,
    nl.getNeighborsNaive_eq i neighbors, ?_⟩
  intro p hp
  obtain ⟨ix, -, iy, -, iz, -, hs⟩ := (nl.mem_getNeighbors i p).mp hp
  obtain ⟨voxel, hf, j, hj, hb⟩ := (nl.mem_scanVoxel i _ _ _ p).mp hs
  obtain ⟨hij, h0, h1, hpe⟩ := (nl.mem_gridBody i j p).mp hb
  have hjN : j < N := VoxelMap.holds_find_lt _ N _ hH _ voxel hf j hj
  rw [nl.d2Grid_eq_d2Naive i j (hw j)] at h0 h1 hpe
  rw [nl.mem_getNeighborsNaive i p]
  exact ⟨j, hij, by rw [hN]; exact hjN, (nl.mem_naiveBody i j p).mpr ⟨h0, h1, hpe⟩⟩

/-- C20, at the list built for cutoff 2 in the cell `diag(10,10,10)` from the
points `(0,0,0)` and `(1.5,0,0)`, query index 0. -/
theorem getNeighbors_subset_naive_witness :
    NeighborList.construct sqrtExact 2 2 [0, 0, 0, 3 / 2, 0, 0] cubicCell10 = some exampleList
    ∧ ∃ addedGrid addedNaive, exampleList.getNeighbors 0 [] = [] ++ addedGrid
      ∧ exampleList.getNeighborsNaive 0 [] = [] ++ addedNaive
      ∧ ∀ p ∈ addedGrid, p ∈ addedNaive :=
  ⟨exampleList_constructed,
    getNeighbors_subset_naive sqrtExact 2 2 [0, 0, 0, 3 / 2, 0, 0] cubicCell10 exampleList
      exampleList_constructed 0
      (fun _ => NeighborList.construct_fourth_lane sqrtExact 2 2 [0, 0, 0, 3 / 2, 0, 0]
        cubicCell10 exampleList exampleList_constructed _ _) []⟩

/-! ## Coordinate loading -/

theorem store_length (mem : List ℚ) (off : Nat) (v : fvec4) :
    (store mem off v).length = mem.length := by
  unfold store
  simp only [List.length_set]

theorem store_getElem? (mem : List ℚ) (off : Nat) (v : fvec4) (h : off + 3 < mem.length)
    (k : Nat) :
    (store mem off v)[k]?
      = if k = off then some v.x else if k = off + 1 then some v.y
        else if k = off + 2 then some v.z else if k = off + 3 then some v.w else mem[k]? := by
  unfold store
  simp only [List.getElem?_set, List.length_set]
  have h0 : off < mem.length := by omega
  have h1 : off + 1 < mem.length := by omega
  have h2 : off + 2 < mem.length := by omega
  by_cases e0 : k = off
  · subst e0
    simp [h0]
  · by_cases e1 : k = off + 1
    · subst e1
      simp [h1]
    · by_cases e2 : k = off + 2
      · subst e2
        simp [h2]
      · by_cases e3 : k = off + 3
        · subst e3
          simp [h]
        · simp [e0, e1, e2, e3, Ne.symm e0, Ne.symm e1, Ne.symm e2, Ne.symm e3]

theorem filled_store (u : Unitcell) (positions mem0 mem : List ℚ) (i off src : Nat)
    (v : fvec4) (hf : Filled u positions mem0 i mem) (hlen : 4 * i + 4 ≤ mem0.length)
    (hoff : off = 4 * i) (hsrc : src = 3 * i) (hv : v = u.to_recip (load3 positions src)) :
    Filled u positions mem0 (i + 1) (store mem off v) := by
  obtain ⟨hl, hk⟩ := hf
  refine ⟨by rw [store_length, hl], fun k => ?_⟩
  rw [store_getElem? mem off v (by omega) k, hk k]
  subst hoff hsrc hv
  by_cases e0 : k = 4 * i
  · have hd : k / 4 = i := by omega
    have hm : k % 4 = 0 := by omega
    rw [if_pos e0, if_pos (by omega)]
    simp only [fracLane, hd, hm, if_true]
  · by_cases e1 : k = 4 * i + 1
    · have hd : k / 4 = i := by omega
      have hm : k % 4 = 1 := by omega
      rw [if_neg e0, if_pos e1, if_pos (by omega)]
      simp [fracLane, hd, hm]
    · by_cases e2 : k = 4 * i + 2
      · have hd : k / 4 = i := by omega
        have hm : k % 4 = 2 := by omega
        rw [if_neg e0, if_neg e1, if_pos e2, if_pos (by omega)]
        simp [fracLane, hd, hm]
      · by_cases e3 : k = 4 * i + 3
        · have hd : k / 4 = i := by omega
          have hm : k % 4 = 3 := by omega
          rw [if_neg e0, if_neg e1, if_neg e2, if_pos e3, if_pos (by omega)]
          simp [fracLane, hd, hm]
        · rw [if_neg e0, if_neg e1, if_neg e2, if_neg e3]
          by_cases hlt : k < 4 * i
          · rw [if_pos hlt, if_pos (by omega)]
          · rw [if_neg hlt, if_neg (by omega)]

theorem loadInv_tailBody (u : Unitcell) (N : Nat) (positions mem0 : List ℚ) (st : LoadState)
    (hM : 4 * N ≤ mem0.length) (hinv : LoadInv u N positions mem0 st) (hi : st.i < N) :
    LoadInv u N positions mem0 (loadPositions.tailBody u positions st) := by
  obtain ⟨hp, hr, -, hf⟩ := hinv
  unfold loadPositions.tailBody
  refine ⟨?_, ?_, ?_, ?_⟩
  · show st.positions_ptr + 3 = 3 * (st.i + 1)
    omega
  · show st.positions_r_ptr + 4 = 4 * (st.i + 1)
    omega
  · show st.i + 1 ≤ N
    omega
  · exact filled_store u positions mem0 _ st.i _ _ _ hf (by omega) hr hp rfl

theorem loadInv_vecBody (u : Unitcell) (N : Nat) (positions mem0 : List ℚ) (st : LoadState)
    (hM : 4 * N ≤ mem0.length) (hinv : LoadInv u N positions mem0 st) (hi : st.i + 4 ≤ N) :
    LoadInv u N positions mem0 (loadPositions.vecBody u positions st) := by
  obtain ⟨hp, hr, -, hf⟩ := hinv
  unfold loadPositions.vecBody
  refine ⟨?_, ?_, ?_, ?_⟩
  · show st.positions_ptr + 12 = 3 * (st.i + 4)
    omega
  · show st.positions_r_ptr + 16 = 4 * (st.i + 4)
    omega
  · show st.i + 4 ≤ N
    omega
  · have f1 := filled_store u positions mem0 _ st.i st.positions_r_ptr st.positions_ptr
      (u.to_recip (load3 positions st.positions_ptr)) hf (by omega) hr hp rfl
    have f2 := filled_store u positions mem0 _ (st.i + 1) (st.positions_r_ptr + 4)
      (st.positions_ptr + 3) (u.to_recip (load3 positions (st.positions_ptr + 3))) f1
      (by omega) (by omega) (by omega) rfl
    have f3 := filled_store u positions mem0 _ (st.i + 1 + 1) (st.positions_r_ptr + 8)
      (st.positions_ptr + 6) (u.to_recip (load3 positions (st.positions_ptr + 6))) f2
      (by omega) (by omega) (by omega) rfl
    have f4 := filled_store u positions mem0 _ (st.i + 1 + 1 + 1) (st.positions_r_ptr + 12)
      (st.positions_ptr + 9) (u.to_recip (load3 positions (st.positions_ptr + 9))) f3
      (by omega) (by omega) (by omega) rfl
    exact f4

theorem loadInv_vecLoop (u : Unitcell) (N : Nat) (positions mem0 : List ℚ)
    (hM : 4 * N ≤ mem0.length) (fuel : Nat) (st : LoadState)
    (hinv : LoadInv u N positions mem0 st) :
    LoadInv u N positions mem0 (loadPositions.vecLoop u N positions fuel st)
      ∧ (N / 4 ≤ st.i + 4 * fuel →
          ¬ (loadPositions.vecLoop u N positions fuel st).i < N >>> 2) := by
  have hshift : N >>> 2 = N / 4 := by
    rw [Nat.shiftRight_eq_div_pow]
  induction fuel generalizing st with
  | zero =>
    refine ⟨hinv, fun h => ?_⟩
    show ¬ st.i < N >>> 2
    rw [hshift]
    omega
  | succ fuel ih =>
    unfold loadPositions.vecLoop
    by_cases hlt : st.i < N >>> 2
    · rw [if_pos hlt]
      rw [hshift] at hlt
      have hstep := loadInv_vecBody u N positions mem0 st hM hinv (by omega)
      obtain ⟨h1, h2⟩ := ih _ hstep
      refine ⟨h1, fun h => h2 ?_⟩
      show N / 4 ≤ st.i + 4 + 4 * fuel
      omega
    · rw [if_neg hlt]
      exact ⟨hinv, fun _ => hlt⟩

theorem loadInv_tailLoop (u : Unitcell) (N : Nat) (positions mem0 : List ℚ)
    (hM : 4 * N ≤ mem0.length) (fuel : Nat) (st : LoadState)
    (hinv : LoadInv u N positions mem0 st) :
    LoadInv u N positions mem0 (loadPositions.tailLoop u N positions fuel st)
      ∧ (N ≤ st.i + fuel → (loadPositions.tailLoop u N positions fuel st).i = N) := by
  induction fuel generalizing st with
  | zero =>
    refine ⟨hinv, fun h => ?_⟩
    show st.i = N
    have := hinv.2.2.1
    omega
  | succ fuel ih =>
    unfold loadPositions.tailLoop
    by_cases hlt : st.i < N
    · rw [if_pos hlt]
      have hstep := loadInv_tailBody u N positions mem0 st hM hinv hlt
      obtain ⟨h1, h2⟩ := ih _ hstep
      refine ⟨h1, fun h => h2 ?_⟩
      show N ≤ st.i + 1 + fuel
      omega
    · rw [if_neg hlt]
      refine ⟨hinv, fun _ => ?_⟩
      have := hinv.2.2.1
      omega

theorem fractionalArray_succ (u : Unitcell) (N : Nat) (positions : List ℚ) :
    fractionalArray u (N + 1) positions
      = fractionalArray u N positions
        ++ [(u.to_recip (load3 positions (3 * N))).x, (u.to_recip (load3 positions (3 * N))).y,
            (u.to_recip (load3 positions (3 * N))).z, (u.to_recip (load3 positions (3 * N))).w] := by
  unfold fractionalArray
  rw [List.range_succ, List.flatMap_append, List.flatMap_singleton]

theorem fractionalArray_length (u : Unitcell) (N : Nat) (positions : List ℚ) :
    (fractionalArray u N positions).length = 4 * N := by
  induction N with
  | zero => rfl
  | succ N ih =>
    rw [fractionalArray_succ, List.length_append, ih]
    simp only [List.length_cons, List.length_nil]
    omega

theorem fractionalArray_getElem? (u : Unitcell) (N : Nat) (positions : List ℚ) (k : Nat) :
    (fractionalArray u N positions)[k]?
      = if k < 4 * N then some (fracLane u positions k) else none := by
  induction N with
  | zero => simp [fractionalArray]
  | succ N ih =>
    rw [fractionalArray_succ, List.getElem?_append, fractionalArray_length, ih]
    by_cases h1 : k < 4 * N
    · rw [if_pos h1, if_pos h1, if_pos (by omega)]
    · rw [if_neg h1]
      by_cases h2 : k < 4 * (N + 1)
      · rw [if_pos h2]
        have hd : k / 4 = N := by omega
        have hcases : k - 4 * N = 0 ∨ k - 4 * N = 1 ∨ k - 4 * N = 2 ∨ k - 4 * N = 3 := by
          omega
        rcases hcases with e | e | e | e
        · have hm : k % 4 = 0 := by omega
          rw [e]
          simp [fracLane, hd, hm]
        · have hm : k % 4 = 1 := by omega
          rw [e]
          simp [fracLane, hd, hm]
        · have hm : k % 4 = 2 := by omega
          rw [e]
          simp [fracLane, hd, hm]
        · have hm : k % 4 = 3 := by omega
          rw [e]
          simp [fracLane, hd, hm]
      · rw [if_neg h2]
        apply List.getElem?_eq_none
        simp only [List.length_cons, List.length_nil]
        omega

theorem filled_initial (u : Unitcell) (positions mem0 : List ℚ) :
    Filled u positions mem0 0 mem0 :=
  ⟨rfl, fun k => by simp⟩

theorem store_frame (mem : List ℚ) (off : Nat) (v : fvec4) (k : Nat)
    (hk : k < off ∨ off + 4 ≤ k) : (store mem off v)[k]? = mem[k]? := by
  unfold store
  simp only [List.getElem?_set]
  rw [if_neg (by omega), if_neg (by omega), if_neg (by omega), if_neg (by omega)]

/-- One pass of the 4-at-a-time loop advances `i` by 4 and the write offset
by 16 and leaves every lane outside the 16 lanes at the write offset as it
was. -/
theorem vecBody_frame (u : Unitcell) (positions : List ℚ) (st : LoadState) :
    (loadPositions.vecBody u positions st).i = st.i + 4
      ∧ (loadPositions.vecBody u positions st).positions_r_ptr = st.positions_r_ptr + 16
      ∧ ∀ k, k < st.positions_r_ptr ∨ st.positions_r_ptr + 16 ≤ k →
          (loadPositions.vecBody u positions st).positions_r[k]? = st.positions_r[k]? := by
  refine ⟨rfl, rfl, fun k hk => ?_⟩
  unfold loadPositions.vecBody
  dsimp only
  rw [store_frame _ _ _ k (by omega), store_frame _ _ _ k (by omega),
    store_frame _ _ _ k (by omega), store_frame _ _ _ k (by omega)]

/-- One pass of the scalar loop advances `i` by 1 and the write offset by 4
and leaves every lane outside the 4 lanes at the write offset as it was. -/
theorem tailBody_frame (u : Unitcell) (positions : List ℚ) (st : LoadState) :
    (loadPositions.tailBody u positions st).i = st.i + 1
      ∧ (loadPositions.tailBody u positions st).positions_r_ptr = st.positions_r_ptr + 4
      ∧ ∀ k, k < st.positions_r_ptr ∨ st.positions_r_ptr + 4 ≤ k →
          (loadPositions.tailBody u positions st).positions_r[k]? = st.positions_r[k]? := by
  refine ⟨rfl, rfl, fun k hk => ?_⟩
  unfold loadPositions.tailBody
  dsimp only
  rw [store_frame _ _ _ k hk]

/-- The array after `loadPositions`, as a shared step: the invariant of the
two loops at their end. -/
theorem loadPositions_loops (u : Unitcell) (N : Nat) (positions guard : List ℚ) :
    LoadInv u N positions (List.replicate (N * 4) 0 ++ guard)
        (loadPositions.vecLoop u N positions N ⟨0, 0, 0, List.replicate (N * 4) 0 ++ guard⟩)
      ∧ ¬ (loadPositions.vecLoop u N positions N
            ⟨0, 0, 0, List.replicate (N * 4) 0 ++ guard⟩).i < N >>> 2
      ∧ LoadInv u N positions (List.replicate (N * 4) 0 ++ guard)
        (loadPositions.tailLoop u N positions N (loadPositions.vecLoop u N positions N
          ⟨0, 0, 0, List.replicate (N * 4) 0 ++ guard⟩))
      ∧ (loadPositions.tailLoop u N positions N (loadPositions.vecLoop u N positions N
            ⟨0, 0, 0, List.replicate (N * 4) 0 ++ guard⟩)).i = N := by
  have hM : 4 * N ≤ (List.replicate (N * 4) (0 : ℚ) ++ guard).length := by
    rw [List.length_append, List.length_replicate]
    omega
  have h0 : LoadInv u N positions (List.replicate (N * 4) 0 ++ guard)
      ⟨0, 0, 0, List.replicate (N * 4) 0 ++ guard⟩ :=
    ⟨rfl, rfl, Nat.zero_le N, filled_initial u positions _⟩
  obtain ⟨hv, hvexit⟩ := loadInv_vecLoop u N positions _ hM N _ h0
  obtain ⟨ht, htexit⟩ := loadInv_tailLoop u N positions _ hM N _ hv
  exact ⟨hv, hvexit (by show N / 4 ≤ 0 + 4 * N; omega), ht, htexit (by omega)⟩

theorem loadPositions_aux (u : Unitcell) (N : Nat) (positions guard : List ℚ) :
    loadPositions u N positions (List.replicate (N * 4) 0 ++ guard)
      = fractionalArray u N positions ++ guard := by
  obtain ⟨-, -, ht, hend⟩ := loadPositions_loops u N positions guard
  unfold loadPositions
  dsimp only
  apply List.ext_getElem?
  intro k
  rw [ht.2.2.2.2 k, hend]
  by_cases hk : k < 4 * N
  · rw [if_pos hk, List.getElem?_append_left (by rw [fractionalArray_length]; exact hk),
      fractionalArray_getElem?, if_pos hk]
  · rw [if_neg hk, List.getElem?_append_right (by rw [List.length_replicate]; omega),
      List.getElem?_append_right (by rw [fractionalArray_length]; omega),
      List.length_replicate, fractionalArray_length]
    congr 1
    omega

/-- C19: for every `N`, the two loops of `loadPositions` both end by their
own exit condition within the fuel `N` (the 4-at-a-time loop with
`i ≥ N >> 2` and `i ≤ N`, the scalar loop with `i = N`, having read `3·N`
floats and written `4·N`); every pass writes only the lanes of its own
points (16 lanes, then 4 lanes, at a write offset that advances by as much),
so no slot is written twice; and the array, zeroed over its first `4·N`
lanes and followed by any further content `guard`, ends up as the map of
`to_recip` over the `N` input points followed by the unchanged `guard`. -/
theorem loadPositions_spec (u : Unitcell) (N : Nat) (positions guard : List ℚ) :
    (¬ (loadPositions.vecLoop u N positions N
            ⟨0, 0, 0, List.replicate (N * 4) 0 ++ guard⟩).i < N >>> 2
      ∧ (loadPositions.vecLoop u N positions N
            ⟨0, 0, 0, List.replicate (N * 4) 0 ++ guard⟩).i ≤ N)
    ∧ ((loadPositions.tailLoop u N positions N (loadPositions.vecLoop u N positions N
            ⟨0, 0, 0, List.replicate (N * 4) 0 ++ guard⟩)).i = N
      ∧ (loadPositions.tailLoop u N positions N (loadPositions.vecLoop u N positions N
            ⟨0, 0, 0, List.replicate (N * 4) 0 ++ guard⟩)).positions_ptr = 3 * N
      ∧ (loadPositions.tailLoop u N positions N (loadPositions.vecLoop u N positions N
            ⟨0, 0, 0, List.replicate (N * 4) 0 ++ guard⟩)).positions_r_ptr = 4 * N)
    ∧ (∀ st : LoadState,
        (loadPositions.vecBody u positions st).i = st.i + 4
          ∧ (loadPositions.vecBody u positions st).positions_r_ptr = st.positions_r_ptr + 16
          ∧ ∀ k, k < st.positions_r_ptr ∨ st.positions_r_ptr + 16 ≤ k →
              (loadPositions.vecBody u positions st).positions_r[k]? = st.positions_r[k]?)
    ∧ (∀ st : LoadState,
        (loadPositions.tailBody u positions st).i = st.i + 1
          ∧ (loadPositions.tailBody u positions st).positions_r_ptr = st.positions_r_ptr + 4
          ∧ ∀ k, k < st.positions_r_ptr ∨ st.positions_r_ptr + 4 ≤ k →
              (loadPositions.tailBody u positions st).positions_r[k]? = st.positions_r[k]?)
    ∧ loadPositions u N positions (List.replicate (N * 4) 0 ++ guard)
        = fractionalArray u N positions ++ guard := by
  obtain ⟨hv, hvexit, ht, hend⟩ := loadPositions_loops u N positions guard
  refine ⟨⟨hvexit, hv.2.2.1⟩, ⟨hend, ?_, ?_⟩,
    vecBody_frame u positions, tailBody_frame u positions,
    loadPositions_aux u N positions guard⟩
  · rw [ht.1, hend]
  · rw [ht.2.1, hend]

/-- The constructor stores the array that `loadPositions` fills: point `i`
of a constructed list with `N` points is `to_recip` of the input point `i`. -/
theorem NeighborList.construct_positions (sqrtf : ℚ → ℚ) (c : ℚ) (N : Nat)
    (pos cell : List ℚ) (nl : NeighborList)
    (h : NeighborList.construct sqrtf c N pos cell = some nl) :
    nl.positions_r_ = fractionalArray (Unitcell.ofVectors cell) N pos := by
  have hspec := (loadPositions_aux (Unitcell.ofVectors cell) N pos [])
  rw [List.append_nil, List.append_nil] at hspec
  unfold NeighborList.construct at h
  simp only at h
  split at h
  · exact absurd h (by simp)
  · split at h
    · split at h
      · exact absurd h (by simp)
      · rw [Option.some.injEq, NeighborList.foldl_addLocation] at h
        subst h
        exact hspec
    · exact absurd h (by simp)

end MDTraj
